import Mathlib

/-!
# Quarrel: the effect interaction engine

A shallow embedding of `Source/Quarrel/Effects.cpp`. The headers `Effects.h` and
`Damage.h` are not among the sources: the types they declare are taken from the
data model of the specification and from the way the code uses them.

* `std::vector<ActiveEffect>` is a `List ActiveEffect`; a mutated reference
  parameter becomes a returned value.
* A finite `float` (IEEE-754 binary32), and so a `std::chrono::duration<float>` in
  seconds, is the rational number it stands for (`ℚ`). `UpdateEffect` and `TimeLerper`
  round the result of every arithmetic operation to binary32 (`F32.add`, `F32.sub`,
  `F32.mul`, `F32.div`: nearest value, ties to the even significand, every operation
  evaluated in single precision). Infinities, NaN and the sign of zero are not modelled:
  a result of magnitude `2^128` or more stands for an overflow. The other computations
  on `float` values (the pulse colour, the shot timer, the cooldown of a quarrel slot)
  are kept in exact arithmetic.
* `assert` follows the build: compiled with `NDEBUG` it expands to nothing, otherwise a
  false condition aborts, which is a failed result (`none`) (`cassert`). The quiver and
  the step functions are read in the build with assertions enabled.
-/

namespace Quarrel

/-! ## Binary32 arithmetic -/

/-- The integer nearest to `m`; a value half-way between two integers goes to the even
one. -/
def F32.roundHalfEven (m : ℚ) : ℤ :=
  if m - ⌊m⌋ < 1 / 2 then ⌊m⌋
  else if 1 / 2 < m - ⌊m⌋ then ⌊m⌋ + 1
  else if ⌊m⌋ % 2 = 0 then ⌊m⌋
  else ⌊m⌋ + 1

/-- The multiple of `2^e` nearest to `q`, ties to the even multiple. -/
def F32.roundAt (e : ℤ) (q : ℚ) : ℚ := (F32.roundHalfEven (q / 2 ^ e) : ℚ) * 2 ^ e

/-- Rounding to a 24-bit significand with exponents not below `emin`: the spacing of the
values around `q` is `2^(e - 23)`, where `2^e <= |q| < 2^(e + 1)`, and `2^(emin - 23)`
below `2^emin`. -/
def F32.roundIn (emin : ℤ) (q : ℚ) : ℚ := F32.roundAt (max (Int.log 2 |q|) emin - 23) q

/-- Rounding to binary32, round-to-nearest-even: 24-bit significand, smallest normal
exponent `-126`, subnormal spacing `2^-149`. The exponent is not bounded above: a result
of magnitude `2^128` or more stands for an overflow. -/
def F32.round (q : ℚ) : ℚ := F32.roundIn (-126) q

/-- Rounding to a 24-bit significand, round-to-nearest-even, with no bound on the
exponent. -/
def F32.round24 (q : ℚ) : ℚ := F32.roundAt (Int.log 2 |q| - 23) q

/-- The finite binary32 values: rounding leaves them as they are and they are below the
overflow threshold. -/
def F32.IsF32 (q : ℚ) : Prop := F32.round q = q ∧ |q| < 2 ^ 128

instance (q : ℚ) : Decidable (F32.IsF32 q) := by
  unfold F32.IsF32; infer_instance

/-- The rational `x` is a value with a 24-bit significand nearest to `q`. -/
def F32.IsNearest24 (x q : ℚ) : Prop :=
  (∃ n k : ℤ, |n| < 2 ^ 24 ∧ x = (n : ℚ) * 2 ^ k) ∧
  ∀ n k : ℤ, |n| < 2 ^ 24 → |x - q| ≤ |(n : ℚ) * 2 ^ k - q|

/-- Binary32 addition. The sum of two binary32 values is a whole multiple of `2^-149`,
so below `2^-126` it has fewer than 24 significant bits and is exact: rounding the sum
to a 24-bit significand is binary32 rounding (`F32.add_eq_round`). -/
def F32.add (a b : ℚ) : ℚ := F32.round24 (a + b)

/-- Binary32 subtraction; see `F32.add` (`F32.sub_eq_round`). -/
def F32.sub (a b : ℚ) : ℚ := F32.round24 (a - b)

/-- Binary32 multiplication. -/
def F32.mul (a b : ℚ) : ℚ := F32.round (a * b)

/-- Binary32 division by a value other than zero. -/
def F32.div (a b : ℚ) : ℚ := F32.round (a / b)

/-- Embeds the `assert` macro of `<cassert>`: compiled with `NDEBUG` it expands to
nothing and the next statement runs; otherwise a false condition aborts the program,
which is no result. -/
def cassert (NDEBUG : Bool) (condition : Bool) : Option Unit :=
  if NDEBUG || condition then some () else none

/-- Modelled from the spec: the `ActiveEffectType` enumeration of `Effects.h`, which is not
among the sources: `enum{None,Burning,Poisoned,Frozen,Chilled}`. -/
inductive ActiveEffectType where
  | None
  | Burning
  | Poisoned
  | Frozen
  | Chilled
deriving DecidableEq, Repr

/-- Modelled from the spec: the `ActiveEffect` record of `Effects.h`, which is not among
the sources: `{ type, remainingDuration, runningDuration }`, in the field order of the
initialiser `{ type, duration, 0s }` in `AddOrResetDuration`. -/
structure ActiveEffect where
  type : ActiveEffectType
  remainingDuration : ℚ
  runningDuration : ℚ
deriving DecidableEq

/-- Modelled from the spec: the `ActiveEffectSet` of `Effects.h`, which is not among the
sources: a collection of effects, held in the field `container` that the code iterates,
searches, appends to and erases from. -/
structure ActiveEffectSet where
  container : List ActiveEffect
deriving DecidableEq

/-- Embeds `RemoveActiveEffect`: `std::remove_if` + `erase` of every entry of the given type.
The returned flag is `removedIt != end`, i.e. the compacted prefix is shorter than
the vector. -/
def RemoveActiveEffect (effectType : ActiveEffectType) (effects : ActiveEffectSet) :
    Bool × ActiveEffectSet :=
  let kept := effects.container.filter (fun effect => !(effect.type == effectType))
  let removed := kept.length != effects.container.length
  (removed, { container := kept })

/-- Embeds `AddOrResetDuration`: `find_if` for the first entry of the type (`List.findIdx`
returns the length when there is none, like `end`); push a fresh entry
`{ type, duration, 0s }` when not found, otherwise overwrite only
`remainingDuration` of the found entry. -/
def AddOrResetDuration (type : ActiveEffectType) (duration : ℚ) (effects : ActiveEffectSet) :
    ActiveEffectSet :=
  let it := effects.container.findIdx (fun effect => type == effect.type)
  if it = effects.container.length then
    { container := effects.container ++
        [{ type := type, remainingDuration := duration, runningDuration := 0 }] }
  else
    { container := effects.container.modify
        (fun effect => { effect with remainingDuration := duration }) it }

/-- Embeds `AddActiveEffect`: the interaction rules. The `switch` has no case for `Chilled`,
so that type falls through and leaves the set as it is. -/
def AddActiveEffect (effectType : ActiveEffectType) (activeEffects : ActiveEffectSet) :
    ActiveEffectSet :=
  match effectType with
  | .None => activeEffects
  | .Poisoned => AddOrResetDuration effectType 10 activeEffects
  | .Burning =>
    let r1 := RemoveActiveEffect .Frozen activeEffects
    if r1.1 then
      AddOrResetDuration .Chilled 5 r1.2
    else
      let r2 := RemoveActiveEffect .Chilled r1.2
      if r2.1 == false then
        AddOrResetDuration effectType 10 r2.2
      else
        r2.2
  | .Frozen =>
    let r1 := RemoveActiveEffect .Burning activeEffects
    if r1.1 then
      AddOrResetDuration .Chilled 5 r1.2
    else
      let r2 := RemoveActiveEffect .Chilled r1.2
      AddOrResetDuration effectType 10 r2.2
  | .Chilled => activeEffects

/-- Embeds `RemoveExpiredEffects`: `remove_if` + `erase` of the entries with
`remainingDuration <= 0s`. -/
def RemoveExpiredEffects (effects : ActiveEffectSet) : ActiveEffectSet :=
  { container := effects.container.filter (fun effect => !(decide (effect.remainingDuration ≤ 0))) }

/-- Embeds `UpdateEffect`: returns the flag and the updated effect. The operators `-=` and
`+=` of `duration<float>` are the binary32 subtraction and addition; `ceil` of a
binary32 value is a binary32 value (`F32.round24_ceil`), so it is not rounded. -/
def UpdateEffect (activeEffect : ActiveEffect) (deltaTime : ℚ) : Bool × ActiveEffect :=
  let remainingDuration := F32.sub activeEffect.remainingDuration deltaTime
  let oldRunningDuration := activeEffect.runningDuration
  let runningDuration := F32.add oldRunningDuration deltaTime
  let x : ℚ := ((⌈oldRunningDuration⌉ : ℤ) : ℚ)
  (decide (runningDuration > x) && decide (oldRunningDuration ≤ x),
   { activeEffect with remainingDuration := remainingDuration, runningDuration := runningDuration })

/-- Modelled from the spec: the damage counter of `Damage.h`, which is not among the
sources: `{ damage: integer ≥ 0, max: integer > 0 }`. -/
structure DamageCount where
  damage : Int
  max : Int
deriving DecidableEq

/-- Modelled from the spec: `AddDamage` of `Damage.h`, which is not among the sources.
It adds the given number of points to `damage`, which is clamped so that it never
drops below 0; `max` is not touched. -/
def AddDamage (counter : DamageCount) (damage : Int) : DamageCount :=
  { counter with damage := Max.max (counter.damage + damage) 0 }

/-- Embeds `ApplyEffect(const ActiveEffect&, DamageCount&)` in either build: `None` hits
`assert(false)` and then `break`; `Burning` and `Poisoned` call `AddDamage(damage, 1)`;
the other types have no case. -/
def ApplyEffect_compiled (NDEBUG : Bool) (activeEffect : ActiveEffect) (damage : DamageCount) :
    Option DamageCount :=
  match activeEffect.type with
  | .None => (cassert NDEBUG false).bind fun _ => some damage
  | .Burning => some (AddDamage damage 1)
  | .Poisoned => some (AddDamage damage 1)
  | .Frozen => some damage
  | .Chilled => some damage

/-- The damage overload of `ApplyEffect` compiled with assertions enabled (`NDEBUG` not
defined). -/
def ApplyEffect (activeEffect : ActiveEffect) (damage : DamageCount) : Option DamageCount :=
  ApplyEffect_compiled false activeEffect damage

/-- The set after a sequence of `AddActiveEffect` calls, first call first. -/
def addActiveEffects (effectTypes : List ActiveEffectType) (activeEffects : ActiveEffectSet) :
    ActiveEffectSet :=
  effectTypes.foldl (fun effects effectType => AddActiveEffect effectType effects) activeEffects

/-- Successive `UpdateEffect` calls on one effect, one per time step: for each call the
effect before it, the returned flag and the effect after it. -/
def updateCalls : ActiveEffect → List ℚ → List (ActiveEffect × Bool × ActiveEffect)
  | _, [] => []
  | activeEffect, deltaTime :: rest =>
    (activeEffect, (UpdateEffect activeEffect deltaTime).1, (UpdateEffect activeEffect deltaTime).2)
      :: updateCalls (UpdateEffect activeEffect deltaTime).2 rest

/-- The effect after successive `UpdateEffect` calls. -/
def updateFinal : ActiveEffect → List ℚ → ActiveEffect
  | activeEffect, [] => activeEffect
  | activeEffect, deltaTime :: rest => updateFinal (UpdateEffect activeEffect deltaTime).2 rest

/-- The call `c` moved `runningDuration` past the whole-second boundary `n`:
`old <= n < new`. -/
def passesBoundary (c : ActiveEffect × Bool × ActiveEffect) (n : ℤ) : Prop :=
  c.1.runningDuration ≤ (n : ℚ) ∧ (n : ℚ) < c.2.2.runningDuration

instance (c : ActiveEffect × Bool × ActiveEffect) (n : ℤ) : Decidable (passesBoundary c n) := by
  unfold passesBoundary; infer_instance

/-- The types held by a set, in container order. -/
def types (effects : ActiveEffectSet) : List ActiveEffectType :=
  effects.container.map (fun effect => effect.type)

/-- The set invariant: at most one entry per type, and no `None` entry. -/
def WellFormed (effects : ActiveEffectSet) : Prop :=
  (types effects).Nodup ∧ ActiveEffectType.None ∉ types effects

/-- The recursive reading of the found-branch of `AddOrResetDuration`. -/
def resetFirst (type : ActiveEffectType) (duration : ℚ) : List ActiveEffect → List ActiveEffect
  | [] => []
  | effect :: rest =>
    if type = effect.type then { effect with remainingDuration := duration } :: rest
    else effect :: resetFirst type duration rest

/-! ## The other two `ApplyEffect` overloads -/

/-- Modelled from the spec: the `MovementSpeed` of `MovementSpeed.h`, which is not among
the sources: a base value plus an active multiplier. -/
structure MovementSpeed where
  base : ℚ
  multiplier : ℚ
deriving DecidableEq

/-- Modelled from the spec: `MovementSpeed::SetMultiplier` of `MovementSpeed.h`, which is
not among the sources: it sets the active multiplier. -/
def MovementSpeed.SetMultiplier (speed : MovementSpeed) (multiplier : ℚ) : MovementSpeed :=
  { speed with multiplier := multiplier }

/-- Embeds `ApplyEffect(const ActiveEffect&, MovementSpeed&)` in either build: the
assertion `effect.type != None` comes first; `Chilled` sets the multiplier 0.5, `Frozen`
sets 0.0, the other types leave the speed as it is. -/
def ApplyEffect_MovementSpeed_compiled (NDEBUG : Bool) (effect : ActiveEffect)
    (speed : MovementSpeed) : Option MovementSpeed :=
  (cassert NDEBUG (decide (effect.type ≠ ActiveEffectType.None))).bind fun _ =>
  if effect.type = ActiveEffectType.Chilled then some (speed.SetMultiplier (1 / 2))
  else if effect.type = ActiveEffectType.Frozen then some (speed.SetMultiplier 0)
  else some speed

/-- The movement speed overload of `ApplyEffect` compiled with assertions enabled
(`NDEBUG` not defined). -/
def ApplyEffect_MovementSpeed (effect : ActiveEffect) (speed : MovementSpeed) :
    Option MovementSpeed :=
  ApplyEffect_MovementSpeed_compiled false effect speed

/-- The `sf::Color` of SFML: four 8-bit channels. -/
structure Color where
  r : Nat
  g : Nat
  b : Nat
  a : Nat
deriving DecidableEq, Repr

/-- The three-channel constructor `sf::Color(r, g, b)`: alpha is 255. -/
def Color.rgb (r g b : Nat) : Color := { r := r, g := g, b := b, a := 255 }

/-- The constant `sf::Color::Red`. -/
def Color.Red : Color := Color.rgb 255 0 0

/-- The constant `sf::Color::Green`. -/
def Color.Green : Color := Color.rgb 0 255 0

/-- The constant `sf::Color::Blue`. -/
def Color.Blue : Color := Color.rgb 0 0 255

/-- The C function `round`: nearest integer, halves away from zero. -/
def cround (x : ℚ) : ℤ := if 0 ≤ x then ⌊x + 1 / 2⌋ else ⌈x - 1 / 2⌉

/-- The cast `(sf::Uint8)x` of a non-negative value: the fraction is dropped; the result
is taken modulo 256 where the C++ cast is out of range. -/
def toUint8 (x : ℚ) : Nat := (⌊x⌋).toNat % 256

/-- The lambda `CalculatePulseColour` inside the presentation overload of `ApplyEffect`. -/
def CalculatePulseColour (timeLeft : ℚ) (pulseColour : Color) : Color :=
  let seconds := timeLeft
  let s : Nat :=
    if ((⌊seconds⌋ : ℤ) : ℚ) > 0 then toUint8 (255 * |seconds - ((cround seconds : ℤ) : ℚ)|)
    else toUint8 (255 * |1 - seconds|)
  let r := Max.max pulseColour.r s
  let g := Max.max pulseColour.g s
  let b := Max.max pulseColour.b s
  Color.rgb r g b

/-- The part of the engine class `qvr::RenderComponent` that `ApplyEffect` writes:
the tint set by `SetColor`. -/
structure RenderComponent where
  color : Color
deriving DecidableEq

/-- The engine call `RenderComponent::SetColor`. -/
def RenderComponent.SetColor (renderComponent : RenderComponent) (color : Color) :
    RenderComponent :=
  { renderComponent with color := color }

/-- Embeds `ApplyEffect(const ActiveEffect&, qvr::RenderComponent&)` in either build:
`None` hits `assert(false)` and then `break`; `Burning`, `Poisoned` and `Frozen` set the
pulse colour computed from `remainingDuration` over red, green and blue; `Chilled` has
no case. -/
def ApplyEffect_RenderComponent_compiled (NDEBUG : Bool) (effect : ActiveEffect)
    (renderComponent : RenderComponent) : Option RenderComponent :=
  match effect.type with
  | .None => (cassert NDEBUG false).bind fun _ => some renderComponent
  | .Burning =>
    some (renderComponent.SetColor (CalculatePulseColour effect.remainingDuration Color.Red))
  | .Poisoned =>
    some (renderComponent.SetColor (CalculatePulseColour effect.remainingDuration Color.Green))
  | .Frozen =>
    some (renderComponent.SetColor (CalculatePulseColour effect.remainingDuration Color.Blue))
  | .Chilled => some renderComponent

/-- The presentation overload of `ApplyEffect` compiled with assertions enabled (`NDEBUG`
not defined). -/
def ApplyEffect_RenderComponent (effect : ActiveEffect) (renderComponent : RenderComponent) :
    Option RenderComponent :=
  ApplyEffect_RenderComponent_compiled false effect renderComponent

/-! ## The quiver

`PlayerQuiver.h` and `CrossbowBolt.h` are not among the sources: the records and the
small inline helpers they declare are taken from the specification and from the way
`PlayerQuiver.cpp`, `CrossbowBolt.cpp` and `Player.cpp` use them. -/

/-- Modelled from the spec: the `SpecialEffectType` tag of `CrossbowBolt.h`, which is not
among the sources: an orthogonal special effect, of which the code names `Teleport`. -/
inductive SpecialEffectType where
  | None
  | Teleport
deriving DecidableEq, Repr

/-- Modelled from the spec: the `CrossbowBoltEffect` descriptor of `CrossbowBolt.h`, which
is not among the sources: immediate damage, the status effect applied, and the special
effect tag. Its `!=` compares the three fields by value. -/
structure CrossbowBoltEffect where
  immediateDamage : Int
  appliesEffect : ActiveEffectType
  specialEffect : SpecialEffectType
deriving DecidableEq

/-- Modelled from the spec: the `QuarrelTypeInfo` descriptor of `PlayerQuiver.h`, which is
not among the sources, with the four members that `to_json` writes. -/
structure QuarrelTypeInfo where
  name : String
  cooldownTime : ℚ
  colour : Color
  effect : CrossbowBoltEffect
deriving DecidableEq

/-- Modelled from the spec: the `QuarrelSlot` of `PlayerQuiver.h`, which is not among the
sources: `{ type, cooldownTime, cooldownRemaining }`. -/
structure QuarrelSlot where
  type : QuarrelTypeInfo
  cooldownTime : ℚ
  cooldownRemaining : ℚ
deriving DecidableEq

/-- Modelled from the spec: the constructor `QuarrelSlot(QuarrelTypeInfo)` of
`PlayerQuiver.h`, which is not among the sources: a newly equipped slot is fully charged
(`cooldownRemaining = 0`); its `cooldownTime` is taken to be the per-type cooldown. -/
def QuarrelSlot.ofType (type : QuarrelTypeInfo) : QuarrelSlot :=
  { type := type, cooldownTime := type.cooldownTime, cooldownRemaining := 0 }

/-- Modelled from the spec: `CanTakeQuarrel` of `PlayerQuiver.h`, which is not among the
sources: taking fails if `cooldownRemaining > 0`, and is possible otherwise. -/
def CanTakeQuarrel (slot : QuarrelSlot) : Bool :=
  !(decide (slot.cooldownRemaining > 0))

/-- Modelled from the spec: `QuarrelSlot::ResetCooldown` of `PlayerQuiver.h`, which is not
among the sources: it resets the cooldown to 0, so that the slot is usable again. -/
def QuarrelSlot.ResetCooldown (slot : QuarrelSlot) : QuarrelSlot :=
  { slot with cooldownRemaining := 0 }

/-- The quiver: the `std::array` of optional slots is a list whose length is the capacity
`MaxEquippedQuarrelTypes`. -/
structure PlayerQuiver where
  quarrelSlots : List (Option QuarrelSlot)
deriving DecidableEq

/-- The capacity `PlayerQuiver::MaxEquippedQuarrelTypes`: the size of the slot array. -/
def PlayerQuiver.MaxEquippedQuarrelTypes (quiver : PlayerQuiver) : Nat :=
  quiver.quarrelSlots.length

/-- Embeds `QuarrelSlot::TakeQuarrel()`: the returned optional and the slot afterwards. -/
def QuarrelSlot.TakeQuarrel (slot : QuarrelSlot) : Option QuarrelTypeInfo × QuarrelSlot :=
  if !CanTakeQuarrel slot then
    (none, slot)
  else
    let cooldown := slot.type.cooldownTime
    (some slot.type, { slot with cooldownTime := cooldown, cooldownRemaining := cooldown })

/-- Embeds `QuarrelSlot::TakeQuarrel(cooldown)`, the overload with a supplied cooldown. -/
def QuarrelSlot.TakeQuarrel_cooldown (slot : QuarrelSlot) (cooldown : ℚ) :
    Option QuarrelTypeInfo × QuarrelSlot :=
  if !CanTakeQuarrel slot then
    (none, slot)
  else
    (some slot.type, { slot with cooldownTime := cooldown, cooldownRemaining := cooldown })

/-- Embeds `TakeQuarrel(PlayerQuiver&, int)`: `none` is a failed assertion on the slot
index; otherwise the returned optional and the quiver afterwards. -/
def TakeQuarrel (quiver : PlayerQuiver) (slotIndex : Int) :
    Option (Option QuarrelTypeInfo × PlayerQuiver) :=
  if ¬ (slotIndex ≥ 0) then none
  else if ¬ (slotIndex < (quiver.MaxEquippedQuarrelTypes : Int)) then none
  else
    match quiver.quarrelSlots[slotIndex.toNat]? with
    | some (some slot) =>
      some ((slot.TakeQuarrel).1,
        { quarrelSlots := quiver.quarrelSlots.set slotIndex.toNat (some (slot.TakeQuarrel).2) })
    | _ => some (none, quiver)

/-- The loop of `PutQuarrelBack` over the slots, first slot first: empty slots and slots
whose type has another effect are skipped; the first remaining slot has its cooldown
reset and the loop returns. -/
def putQuarrelBackSlots (quarrel : QuarrelTypeInfo) :
    List (Option QuarrelSlot) → List (Option QuarrelSlot)
  | [] => []
  | none :: rest => none :: putQuarrelBackSlots quarrel rest
  | some slot :: rest =>
    if slot.type.effect ≠ quarrel.effect then some slot :: putQuarrelBackSlots quarrel rest
    else some slot.ResetCooldown :: rest

/-- Embeds `PutQuarrelBack(PlayerQuiver&, const QuarrelTypeInfo&)`. -/
def PutQuarrelBack (quiver : PlayerQuiver) (quarrel : QuarrelTypeInfo) : PlayerQuiver :=
  { quarrelSlots := putQuarrelBackSlots quarrel quiver.quarrelSlots }

/-- The slot invariant `0 <= cooldownRemaining <= cooldownTime`. -/
def QuarrelSlot.Valid (slot : QuarrelSlot) : Prop :=
  0 ≤ slot.cooldownRemaining ∧ slot.cooldownRemaining ≤ slot.cooldownTime

/-- Every equipped slot of the quiver satisfies the slot invariant. -/
def PlayerQuiver.Valid (quiver : PlayerQuiver) : Prop :=
  ∀ slot, some slot ∈ quiver.quarrelSlots → slot.Valid

/-- A sample quarrel type: the burning bolt that `DebugInitQuiver` equips in slot 1,
here with the name "fire" and a cooldown of half a second. -/
def fireType : QuarrelTypeInfo :=
  { name := "fire", cooldownTime := 1 / 2, colour := Color.Red,
    effect := { immediateDamage := 1, appliesEffect := .Burning, specialEffect := .None } }

/-- A sample quarrel type with the same effect as `fireType` under another name and
cooldown. -/
def emberType : QuarrelTypeInfo :=
  { name := "ember", cooldownTime := 2, colour := Color.Red,
    effect := { immediateDamage := 1, appliesEffect := .Burning, specialEffect := .None } }

/-- A sample quarrel type whose cooldown is zero. -/
def quickType : QuarrelTypeInfo :=
  { name := "quick", cooldownTime := 0, colour := Color.Blue,
    effect := { immediateDamage := 5, appliesEffect := .None, specialEffect := .None } }

/-! ## Documents

The JSON library (`nlohmann::json`) is an external collaborator: a document is modelled
as a value of the inductive type `Json`, and a thrown `json` exception as `none`. -/

/-- A JSON document. -/
inductive Json where
  | null
  | boolean (b : Bool)
  | number_integer (n : Int)
  | number_float (x : ℚ)
  | string (s : String)
  | array (elements : List Json)
  | object (members : List (String × Json))

/-- The library call `j.at(key)`: the member of an object; it throws on another kind of
document and on a missing key. -/
def Json.atKey (j : Json) (key : String) : Option Json :=
  match j with
  | .object members => members.lookup key
  | _ => none

/-- The library call `j.empty()`: true for null and for an array or object without
elements, false for every other document. -/
def Json.empty (j : Json) : Bool :=
  match j with
  | .null => true
  | .array elements => elements.isEmpty
  | .object members => members.isEmpty
  | _ => false

/-- The library call `j.is_array()`. -/
def Json.is_array (j : Json) : Bool :=
  match j with
  | .array _ => true
  | _ => false

/-- The library call `j.get<std::string>()`: it throws unless the document is a string. -/
def Json.get_string (j : Json) : Option String :=
  match j with
  | .string s => some s
  | _ => none

/-- The library call `j.get<int>()`: a number (a float is truncated) or a boolean; it
throws on every other document. -/
def Json.get_int (j : Json) : Option Int :=
  match j with
  | .number_integer n => some n
  | .number_float x => some (if 0 ≤ x then ⌊x⌋ else ⌈x⌉)
  | .boolean b => some (if b then 1 else 0)
  | _ => none

/-- The library call `j.get<float>()`: a number or a boolean; it throws on every other
document. -/
def Json.get_float (j : Json) : Option ℚ :=
  match j with
  | .number_integer n => some (n : ℚ)
  | .number_float x => some x
  | .boolean b => some (if b then 1 else 0)
  | _ => none

/-- The library call `j.value<float>(key, default)`: the member converted to a float, or
the default when the object has no such key; it throws when the document is not an
object. -/
def Json.value_float (j : Json) (key : String) (default : ℚ) : Option ℚ :=
  match j with
  | .object members =>
    match members.lookup key with
    | some v => v.get_float
    | none => some default
  | _ => none

/-- The JSON conversions that the sources use and do not define: those of `sf::Color`
(an engine header) and of the two enumerations (`External/enum_json.h`). They are
parameters of the embedding. -/
structure JsonConversions where
  colourToJson : Color → Json
  colourFromJson : Json → Option Color
  effectTypeToJson : ActiveEffectType → Json
  effectTypeFromJson : Json → Option ActiveEffectType
  specialEffectToJson : SpecialEffectType → Json
  specialEffectFromJson : Json → Option SpecialEffectType

/-- Reading back what the external conversions wrote gives the value written. -/
def JsonConversions.RoundTrip (conv : JsonConversions) : Prop :=
  (∀ c, conv.colourFromJson (conv.colourToJson c) = some c) ∧
  (∀ t, conv.effectTypeFromJson (conv.effectTypeToJson t) = some t) ∧
  (∀ t, conv.specialEffectFromJson (conv.specialEffectToJson t) = some t)

/-- Embeds `to_json(json&, const CrossbowBoltEffect&)` of `CrossbowBolt.cpp`. -/
def to_json_CrossbowBoltEffect (conv : JsonConversions) (effect : CrossbowBoltEffect) : Json :=
  .object [("immediateDamage", .number_integer effect.immediateDamage),
           ("appliesEffect", conv.effectTypeToJson effect.appliesEffect),
           ("specialEffect", conv.specialEffectToJson effect.specialEffect)]

/-- Embeds `from_json(const json&, CrossbowBoltEffect&)` of `CrossbowBolt.cpp`. -/
def from_json_CrossbowBoltEffect (conv : JsonConversions) (j : Json) :
    Option CrossbowBoltEffect :=
  (j.atKey "immediateDamage").bind fun v1 =>
  v1.get_int.bind fun immediateDamage =>
  (j.atKey "appliesEffect").bind fun v2 =>
  (conv.effectTypeFromJson v2).bind fun appliesEffect =>
  (j.atKey "specialEffect").bind fun v3 =>
  (conv.specialEffectFromJson v3).bind fun specialEffect =>
  some { immediateDamage := immediateDamage, appliesEffect := appliesEffect,
         specialEffect := specialEffect }

/-- Embeds `to_json(json&, const QuarrelTypeInfo&)`. -/
def to_json_QuarrelTypeInfo (conv : JsonConversions) (quarrelType : QuarrelTypeInfo) : Json :=
  .object [("name", .string quarrelType.name),
           ("cooldownTime", .number_float quarrelType.cooldownTime),
           ("colour", conv.colourToJson quarrelType.colour),
           ("effect", to_json_CrossbowBoltEffect conv quarrelType.effect)]

/-- Embeds `from_json(const json&, QuarrelTypeInfo&)`: `cooldownTime` defaults to half a
second when the document has no such member. -/
def from_json_QuarrelTypeInfo (conv : JsonConversions) (j : Json) : Option QuarrelTypeInfo :=
  (j.atKey "name").bind fun v1 =>
  v1.get_string.bind fun name =>
  (j.value_float "cooldownTime" (1 / 2)).bind fun cooldownTime =>
  (j.atKey "colour").bind fun v3 =>
  (conv.colourFromJson v3).bind fun colour =>
  (j.atKey "effect").bind fun v4 =>
  (from_json_CrossbowBoltEffect conv v4).bind fun effect =>
  some { name := name, cooldownTime := cooldownTime, colour := colour, effect := effect }

/-- The document that `to_json(json&, PlayerQuiver const&)` pushes for one slot: null for
an empty slot, the object `{"quarrelType": type}` for an equipped one. -/
def slotJson (conv : JsonConversions) (slot : Option QuarrelSlot) : Json :=
  match slot with
  | none => .null
  | some s => .object [("quarrelType", to_json_QuarrelTypeInfo conv s.type)]

/-- Embeds `to_json(json&, PlayerQuiver const&)` on a fresh (null) document: `push_back`
of one document per slot turns it into the array of these; with no slot it stays null. -/
def to_json_PlayerQuiver (conv : JsonConversions) (quiver : PlayerQuiver) : Json :=
  match quiver.quarrelSlots with
  | [] => .null
  | slots => .array (slots.map (slotJson conv))

/-- The outcome of `from_json(json const&, PlayerQuiver&)`: the quiver afterwards, a
`json` exception, or a write past the end of the slot array. -/
inductive FromJsonResult where
  | ok (quiver : PlayerQuiver)
  | exception
  | outOfRange

/-- The loop of `from_json(json const&, PlayerQuiver&)` over the elements of the array,
with the running `slotIndex`: a non-empty element is converted and written to
`quarrelSlots[slotIndex]`; every element advances the index. -/
def from_json_slots (conv : JsonConversions) :
    List Json → Nat → List (Option QuarrelSlot) → FromJsonResult
  | [], _, slots => .ok { quarrelSlots := slots }
  | element :: rest, slotIndex, slots =>
    if !element.empty then
      match (element.atKey "quarrelType").bind (from_json_QuarrelTypeInfo conv) with
      | none => .exception
      | some type =>
        if slotIndex < slots.length then
          from_json_slots conv rest (slotIndex + 1)
            (slots.set slotIndex (some (QuarrelSlot.ofType type)))
        else .outOfRange
    else
      from_json_slots conv rest (slotIndex + 1) slots

/-- Embeds `from_json(json const&, PlayerQuiver&)`: a document that is not an array leaves
the quiver as it is. -/
def from_json_PlayerQuiver (conv : JsonConversions) (j : Json) (quiver : PlayerQuiver) :
    FromJsonResult :=
  match j with
  | .array elements => from_json_slots conv elements 0 quiver.quarrelSlots
  | _ => .ok quiver

/-- A default-constructed quiver of the given capacity: no slot is equipped. This is the
quiver that `quiver = j["Quiver"]` in `Player::FromJson` reads the document into. -/
def PlayerQuiver.default (capacity : Nat) : PlayerQuiver :=
  { quarrelSlots := List.replicate capacity none }

/-- Sample conversions: a colour is the array of its four channels, an enumerator is its
name. -/
def sampleConversions : JsonConversions where
  colourToJson c := .array [.number_integer c.r, .number_integer c.g, .number_integer c.b,
    .number_integer c.a]
  colourFromJson j :=
    match j with
    | .array [.number_integer r, .number_integer g, .number_integer b, .number_integer a] =>
      some { r := r.toNat, g := g.toNat, b := b.toNat, a := a.toNat }
    | _ => none
  effectTypeToJson t :=
    match t with
    | .None => .string "None"
    | .Burning => .string "Burning"
    | .Poisoned => .string "Poisoned"
    | .Frozen => .string "Frozen"
    | .Chilled => .string "Chilled"
  effectTypeFromJson j :=
    match j with
    | .string s =>
      if s = "None" then some .None
      else if s = "Burning" then some .Burning
      else if s = "Poisoned" then some .Poisoned
      else if s = "Frozen" then some .Frozen
      else if s = "Chilled" then some .Chilled
      else none
    | _ => none
  specialEffectToJson t :=
    match t with
    | .None => .string "None"
    | .Teleport => .string "Teleport"
  specialEffectFromJson j :=
    match j with
    | .string s =>
      if s = "None" then some .None
      else if s = "Teleport" then some .Teleport
      else none
    | _ => none

/-- A sample quarrel type whose cooldown time is negative. -/
def hastyType : QuarrelTypeInfo :=
  { name := "hasty", cooldownTime := -1, colour := Color.Green,
    effect := { immediateDamage := 2, appliesEffect := .Poisoned, specialEffect := .None } }

/-! ## The enemy

A shallow embedding of the class `Enemy` of `Enemy/Enemy.cpp`. The engine (world,
physics, animators, audio) is an external collaborator: what it answers to the calls
made during one callback is an input of the callback (`StepInput`, `ContactEntity`,
`Fixture`), and the calls that change it are recorded, in order, as a list of
`Action`s. The enemy's own render component is passed in and out. -/

/-- The engine's `AnimationId`: a number, with the distinguished value `Invalid`. -/
abbrev AnimationId := Nat

/-- The constant `AnimationId::Invalid`. -/
def AnimationId.Invalid : AnimationId := 0

/-- The engine's `AnimatorRepeatSetting`, with the two values the code uses. -/
inductive AnimatorRepeatSetting where
  | Forever
  | Never
deriving DecidableEq, Repr

/-- The engine's `AnimatorStartSetting`: a clip and its repeat setting. -/
structure AnimatorStartSetting where
  m_AnimationId : AnimationId
  m_RepeatSetting : AnimatorRepeatSetting
deriving DecidableEq, Repr

/-- The state `Enemy::Awakeness`: `None` is dormant, `Awakening` is waking, `Awake` is
active. -/
inductive Awakeness where
  | None
  | Awakening
  | Awake
deriving DecidableEq, Repr

/-- A point `b2Vec2`. -/
structure b2Vec2 where
  x : ℚ
  y : ℚ
deriving DecidableEq

/-- A physics fixture as the contact callbacks see it: its identity (the address that
`&myFixture == m_Sensor` compares), and the answers of the two helpers that are not
among the sources: `IsCrossbowBolt` (`Utils.cpp`) and the fire test of
`FirePropagation.h`. -/
structure Fixture where
  id : Nat
  isCrossbowBolt : Bool
  isFire : Bool
deriving DecidableEq

/-- The other entity of a contact, as the helpers that are not among the sources see
it: its identity, the effect descriptor of its crossbow-bolt component if it has one,
and the entity that `GetCrossbowBoltFirer(other).Get()` resolves to, if any. -/
structure ContactEntity where
  id : Nat
  bolt : Option CrossbowBoltEffect
  firer : Option Nat
deriving DecidableEq

/-- Modelled from the spec: the `FiresInContact` of `FirePropagation.h`, which is not among
the sources: the set of fire sources that currently overlap the entity. -/
structure FiresInContact where
  container : List Nat
deriving DecidableEq

/-- Modelled from the spec: `OnBeginContact(FiresInContact&, b2Fixture&)` of
`FirePropagation.h`, which is not among the sources: a fire source is added on
contact-begin. -/
def FiresInContact.OnBeginContact (fires : FiresInContact) (otherFixture : Fixture) :
    FiresInContact :=
  if otherFixture.isFire then { container := fires.container ++ [otherFixture.id] } else fires

/-- Modelled from the spec: `OnEndContact(FiresInContact&, b2Fixture&)` of
`FirePropagation.h`, which is not among the sources: the source is removed on
contact-end. -/
def FiresInContact.OnEndContact (fires : FiresInContact) (otherFixture : Fixture) :
    FiresInContact :=
  { container := fires.container.filter (fun id => !(id == otherFixture.id)) }

/-- Modelled from the spec: `ApplyFires` of `FirePropagation.h`, which is not among the
sources: while a fire source overlaps, `Burning` is re-applied every frame. -/
def ApplyFires (fires : FiresInContact) (activeEffects : ActiveEffectSet) : ActiveEffectSet :=
  if fires.container.isEmpty then activeEffects
  else AddActiveEffect .Burning activeEffects

/-- Modelled from the spec: `HasExceededLimit` of `Damage.h`, which is not among the
sources: exceeded is `damage >= max`. -/
def HasExceededLimit (counter : DamageCount) : Bool :=
  decide (counter.damage ≥ counter.max)

/-- Modelled from the spec: `HandleContactWithCrossbowBolt(const Entity&, DamageCount&)`
of `Utils.cpp`, which is not among the sources: the bolt's configured damage is
transferred into the receiver's damage counter. -/
def HandleContactWithCrossbowBolt_damage (crossbowBoltEntity : ContactEntity)
    (damageCounter : DamageCount) : DamageCount :=
  match crossbowBoltEntity.bolt with
  | some effect => AddDamage damageCounter effect.immediateDamage
  | none => damageCounter

/-- Modelled from the spec: `HandleContactWithCrossbowBolt(const Entity&, ActiveEffectSet&)`
of `Utils.cpp`, which is not among the sources: the bolt's status effect is transferred
into the receiver's effect set. -/
def HandleContactWithCrossbowBolt_effects (crossbowBoltEntity : ContactEntity)
    (activeEffects : ActiveEffectSet) : ActiveEffectSet :=
  match crossbowBoltEntity.bolt with
  | some effect => AddActiveEffect effect.appliesEffect activeEffects
  | none => activeEffects

/-- The data members of `Enemy`. `m_Sensor` is the identity of the sensor fixture and
`m_Target` the entity the `EntityRef` refers to, if any. -/
structure Enemy where
  m_Damage : DamageCount
  m_Awakeness : Awakeness
  m_LastShootTime : ℚ
  m_AwakeAnim : AnimationId
  m_RunAnim : AnimationId
  m_ShootAnim : AnimationId
  m_StandAnim : AnimationId
  m_DieAnim : AnimationId
  m_Sensor : Nat
  m_Target : Option Nat
  m_ActiveEffects : ActiveEffectSet
  m_FiresInContact : FiresInContact
deriving DecidableEq

/-- The constructor `Enemy::Enemy` with the member initialisers of the class: ten points
of maximal damage, dormant, no clip configured, no target, no effect; the argument is
the sensor fixture that the constructor creates. -/
def Enemy.new (sensor : Nat) : Enemy :=
  { m_Damage := { damage := 0, max := 10 }
    m_Awakeness := .None
    m_LastShootTime := 0
    m_AwakeAnim := AnimationId.Invalid
    m_RunAnim := AnimationId.Invalid
    m_ShootAnim := AnimationId.Invalid
    m_StandAnim := AnimationId.Invalid
    m_DieAnim := AnimationId.Invalid
    m_Sensor := sensor
    m_Target := none
    m_ActiveEffects := { container := [] }
    m_FiresInContact := { container := [] } }

/-- A call that changes a collaborator of the enemy. -/
inductive Action where
  | SetAnimation (animationId : AnimationId) (repeatSetting : AnimatorRepeatSetting)
  | QueueAnimation (setting : AnimatorStartSetting)
  | DestroyFixture (fixture : Nat)
  | AddCustomComponent_nullptr
  | AddAudio
  | SetSound (filename : String)
  | MakeProjectile (position : b2Vec2) (target : b2Vec2)
deriving DecidableEq

/-- What the engine answers during one `Enemy::OnStep`: the world time, whether the
animator exists and which clip it plays (the waking check), whether the target entity
still exists, the result of the line-of-sight ray cast, the current clip (read by
`CanShoot`), whether the entity has an audio component, and its position. -/
structure StepInput where
  time : ℚ
  animatorExists : Bool
  animatorAnimation : AnimationId
  targetExists : Bool
  visiblePlayerPosition : Option b2Vec2
  currentAnimation : AnimationId
  hasAudio : Bool
  position : b2Vec2

/-- The outcome of one `Enemy::OnStep`: the members and the render component afterwards,
the calls made on the collaborators in order, and whether the enemy object was detached
from its entity (`AddCustomComponent(nullptr)`). -/
structure StepResult where
  enemy : Enemy
  graphics : RenderComponent
  actions : List Action
  detached : Bool

/-- The loop of `OnStep` over the active effects: each effect is updated in place, deals
its damage when its tick fired, and tints the render component; `none` is a failed
assertion of `ApplyEffect`. -/
def updateEffects (timestep : ℚ) :
    List ActiveEffect → DamageCount → RenderComponent →
      Option (List ActiveEffect × DamageCount × RenderComponent)
  | [], damage, graphics => some ([], damage, graphics)
  | effect :: rest, damage, graphics =>
    let updated := UpdateEffect effect timestep
    (if updated.1 then ApplyEffect updated.2 damage else some damage).bind fun damage' =>
    (ApplyEffect_RenderComponent updated.2 graphics).bind fun graphics' =>
    (updateEffects timestep rest damage' graphics').bind fun r =>
    some (updated.2 :: r.1, r.2.1, r.2.2)

/-- The first part of `Enemy::OnStep`, up to the purge: fire exposure is applied, every
effect is ticked, and the expired effects are removed. -/
def Enemy.tickEffects (enemy : Enemy) (graphics : RenderComponent) (timestep : ℚ) :
    Option (Enemy × RenderComponent) :=
  let effects := ApplyFires enemy.m_FiresInContact enemy.m_ActiveEffects
  (updateEffects timestep effects.container enemy.m_Damage graphics).bind fun r =>
  some ({ enemy with
            m_Damage := r.2.1
            m_ActiveEffects := RemoveExpiredEffects { container := r.1 } },
        r.2.2)

/-- Embeds `Enemy::SetAnimation(AnimationId, AnimatorRepeatSetting)`: the render component
is asked for the clip unless the id is `Invalid`. -/
def Enemy.SetAnimation (animationId : AnimationId) (repeatSetting : AnimatorRepeatSetting) :
    List Action :=
  if animationId ≠ AnimationId.Invalid then [.SetAnimation animationId repeatSetting] else []

/-- Embeds `Enemy::SetAnimation(std::initializer_list<AnimatorStartSetting>)`: the first
clip is set, the others are queued; `none` is the failed assertion on an empty chain. -/
def Enemy.SetAnimation_chain (animChain : List AnimatorStartSetting) : Option (List Action) :=
  match animChain with
  | [] => none
  | first :: rest =>
    some (Enemy.SetAnimation first.m_AnimationId first.m_RepeatSetting ++
      rest.map (fun setting => Action.QueueAnimation setting))

/-- Embeds `Enemy::CanShoot`. -/
def Enemy.CanShoot (enemy : Enemy) (input : StepInput) : Bool :=
  let anim := input.currentAnimation
  if anim = enemy.m_AwakeAnim ∨ anim = enemy.m_ShootAnim then false
  else decide (input.time - enemy.m_LastShootTime > 1)

/-- Embeds `Enemy::Shoot`: the shot time is recorded, the attack chain is requested, the
sound is set (after adding an audio component if there is none), and the projectile is
made. -/
def Enemy.Shoot (enemy : Enemy) (input : StepInput) (target : b2Vec2) :
    Option (Enemy × List Action) :=
  (Enemy.SetAnimation_chain
    [{ m_AnimationId := enemy.m_ShootAnim, m_RepeatSetting := .Never },
     { m_AnimationId := enemy.m_StandAnim, m_RepeatSetting := .Forever }]).bind fun chain =>
  some ({ enemy with m_LastShootTime := input.time },
    chain ++ (if !input.hasAudio then [Action.AddAudio] else []) ++
      [Action.SetSound "audio/crossbow_shoot.wav", Action.MakeProjectile input.position target])

/-- Embeds `Enemy::OnStep`; `none` is a failed assertion. -/
def Enemy.OnStep (enemy : Enemy) (graphics : RenderComponent) (timestep : ℚ)
    (input : StepInput) : Option StepResult :=
  (enemy.tickEffects graphics timestep).bind fun ticked =>
  let enemy1 := ticked.1
  let graphics1 := ticked.2
  if HasExceededLimit enemy1.m_Damage then
    some { enemy := enemy1
           graphics := graphics1
           actions := Enemy.SetAnimation enemy1.m_DieAnim .Never ++
             [.DestroyFixture enemy1.m_Sensor, .AddCustomComponent_nullptr]
           detached := true }
  else
    (if enemy1.m_Awakeness = .Awakening then
      (if (!input.animatorExists) || (input.animatorAnimation != enemy1.m_AwakeAnim) then
        Enemy.SetAnimation_chain
          [{ m_AnimationId := enemy1.m_AwakeAnim, m_RepeatSetting := .Never },
           { m_AnimationId := enemy1.m_StandAnim, m_RepeatSetting := .Forever }]
       else some []).bind fun acts =>
      some ({ enemy1 with m_Awakeness := .Awake }, acts)
     else some (enemy1, [])).bind fun woken =>
    let enemy2 := woken.1
    let actions2 := woken.2
    match enemy2.m_Target with
    | some _ =>
      if input.targetExists then
        match input.visiblePlayerPosition with
        | some visiblePlayerPosition =>
          if enemy2.CanShoot input then
            (enemy2.Shoot input visiblePlayerPosition).bind fun shot =>
            some { enemy := shot.1, graphics := graphics1, actions := actions2 ++ shot.2,
                   detached := false }
          else some { enemy := enemy2, graphics := graphics1, actions := actions2,
                      detached := false }
        | none => some { enemy := enemy2, graphics := graphics1, actions := actions2,
                         detached := false }
      else some { enemy := enemy2, graphics := graphics1, actions := actions2,
                  detached := false }
    | none => some { enemy := enemy2, graphics := graphics1, actions := actions2,
                     detached := false }

/-- Embeds `Enemy::OnBeginContact`. -/
def Enemy.OnBeginContact (enemy : Enemy) (other : ContactEntity)
    (myFixture otherFixture : Fixture) : Enemy :=
  let r : Bool × Enemy :=
    if myFixture.id = enemy.m_Sensor then
      (true, { enemy with m_Target := some other.id })
    else if otherFixture.isCrossbowBolt then
      let damaged := { enemy with
        m_Damage := HandleContactWithCrossbowBolt_damage other enemy.m_Damage
        m_ActiveEffects := HandleContactWithCrossbowBolt_effects other enemy.m_ActiveEffects }
      (true,
        match other.firer with
        | some shooter => { damaged with m_Target := some shooter }
        | none => damaged)
    else
      (false, { enemy with
        m_FiresInContact := enemy.m_FiresInContact.OnBeginContact otherFixture })
  let wakeUp := r.1
  let enemy1 := r.2
  if wakeUp then
    if enemy1.m_Awakeness = .None then { enemy1 with m_Awakeness := .Awakening }
    else enemy1
  else enemy1

/-- Embeds `Enemy::OnEndContact`. -/
def Enemy.OnEndContact (enemy : Enemy) (otherFixture : Fixture) : Enemy :=
  { enemy with m_FiresInContact := enemy.m_FiresInContact.OnEndContact otherFixture }

/-- Embeds `Enemy::FromJson`: the five clips are set to what `AnimationFromJson` (declared
in `Utils.h`, defined outside the sources) returns for the five members of the document. -/
def Enemy.FromJson (enemy : Enemy)
    (runAnim shootAnim standAnim dieAnim awakeAnim : AnimationId) : Enemy :=
  { enemy with
    m_RunAnim := runAnim
    m_ShootAnim := shootAnim
    m_StandAnim := standAnim
    m_DieAnim := dieAnim
    m_AwakeAnim := awakeAnim }

/-- The states an `Enemy` can be in: from construction, through any sequence of
`FromJson`, `OnBeginContact`, `OnEndContact` and `OnStep` calls (with any arguments and
any answers of the engine). -/
inductive Enemy.Reachable : Enemy → Prop where
  | construct (sensor : Nat) : Enemy.Reachable (Enemy.new sensor)
  | fromJson (enemy : Enemy) (runAnim shootAnim standAnim dieAnim awakeAnim : AnimationId) :
      Enemy.Reachable enemy →
      Enemy.Reachable (enemy.FromJson runAnim shootAnim standAnim dieAnim awakeAnim)
  | beginContact (enemy : Enemy) (other : ContactEntity) (myFixture otherFixture : Fixture) :
      Enemy.Reachable enemy →
      Enemy.Reachable (enemy.OnBeginContact other myFixture otherFixture)
  | endContact (enemy : Enemy) (otherFixture : Fixture) :
      Enemy.Reachable enemy → Enemy.Reachable (enemy.OnEndContact otherFixture)
  | step (enemy : Enemy) (graphics : RenderComponent) (timestep : ℚ) (input : StepInput)
      (r : StepResult) :
      Enemy.Reachable enemy → enemy.OnStep graphics timestep input = some r →
      Enemy.Reachable r.enemy

/-- The calls that the waking block of `Enemy::OnStep` makes, in closed form: the chain
(wake clip once, then the idle clip queued to loop) when the enemy is waking and the
wake clip is not already the animator's clip. -/
def Enemy.wakeActions (enemy : Enemy) (input : StepInput) : List Action :=
  if enemy.m_Awakeness = .Awakening ∧
      ((!input.animatorExists) || (input.animatorAnimation != enemy.m_AwakeAnim)) = true then
    Enemy.SetAnimation enemy.m_AwakeAnim .Never ++
      [.QueueAnimation { m_AnimationId := enemy.m_StandAnim, m_RepeatSetting := .Forever }]
  else []

/-- The calls that `Enemy::Shoot` makes, in closed form. -/
def Enemy.shootActions (enemy : Enemy) (input : StepInput) (target : b2Vec2) : List Action :=
  Enemy.SetAnimation enemy.m_ShootAnim .Never ++
    [.QueueAnimation { m_AnimationId := enemy.m_StandAnim, m_RepeatSetting := .Forever }] ++
    (if !input.hasAudio then [Action.AddAudio] else []) ++
    [Action.SetSound "audio/crossbow_shoot.wav", Action.MakeProjectile input.position target]

/-- The number of effects of the list whose tick fires in this step and deals damage
(type `Burning` or `Poisoned`). -/
def firedDamage (timestep : ℚ) (effects : List ActiveEffect) : Nat :=
  (effects.filter (fun effect =>
    (UpdateEffect effect timestep).1 &&
      (effect.type == ActiveEffectType.Burning || effect.type == ActiveEffectType.Poisoned))).length

/-! ## The player's step -/

/-- Embeds `Lerp` of `Utils.h`: `a + t * (b - a)` in binary32. -/
def Lerp (a b t : ℚ) : ℚ := F32.add a (F32.mul t (F32.sub b a))

/-- Embeds `NoEase` of `Utils.h`, the default easing function. -/
def NoEase (t : ℚ) : ℚ := t

/-- The members of `TimeLerper<float>` of `Utils.h`. -/
structure TimeLerper where
  t : ℚ
  secondsToReachTarget : ℚ
  startVal : ℚ
  targetVal : ℚ
deriving DecidableEq

/-- Embeds `TimeLerper::SetTarget` (which the three-argument constructor calls): the
duration is at least the literal `0.001f`, the binary32 value nearest to a
millisecond. -/
def TimeLerper.SetTarget (start target seconds : ℚ) : TimeLerper :=
  { t := 0, secondsToReachTarget := Max.max seconds (F32.round (1 / 1000)), startVal := start,
    targetVal := target }

/-- Embeds `TimeLerper::Update`: the returned value and the lerper afterwards. The easing
function is an explicit argument; the default of the source is `NoEase`. Every operation
of `t += seconds / secondsToReachTarget` and of
`startVal + EasingFunc(t) * (targetVal - startVal)` is a binary32 operation. -/
def TimeLerper.Update (lerper : TimeLerper) (seconds : ℚ) (EasingFunc : ℚ → ℚ) :
    ℚ × TimeLerper :=
  if lerper.t < 1 then
    let t := F32.add lerper.t (F32.div seconds lerper.secondsToReachTarget)
    (F32.add lerper.startVal
        (F32.mul (EasingFunc t) (F32.sub lerper.targetVal lerper.startVal)),
      { lerper with t := t })
  else
    (lerper.targetVal, lerper)

/-- Successive `Update` calls with the default easing, one per time step: for each call
the lerper before it, the returned value and the lerper after it. -/
def lerperCalls : TimeLerper → List ℚ → List (TimeLerper × ℚ × TimeLerper)
  | _, [] => []
  | lerper, seconds :: rest =>
    (lerper, (lerper.Update seconds NoEase).1, (lerper.Update seconds NoEase).2)
      :: lerperCalls (lerper.Update seconds NoEase).2 rest

/-- Modelled from the spec: `QuarrelSlot::OnStep` of `PlayerQuiver.h`, which is not among
the sources: the cooldown decays by the time step, clamped at 0. -/
def QuarrelSlot.OnStep (slot : QuarrelSlot) (deltaTime : ℚ) : QuarrelSlot :=
  { slot with cooldownRemaining := Max.max (slot.cooldownRemaining - deltaTime) 0 }

/-- Modelled from the spec: `PlayerQuiver::OnStep` of `PlayerQuiver.h`, which is not among
the sources: the cooldown of every equipped slot decays once per frame. -/
def PlayerQuiver.OnStep (quiver : PlayerQuiver) (deltaTime : ℚ) : PlayerQuiver :=
  { quarrelSlots := quiver.quarrelSlots.map (Option.map (fun slot => slot.OnStep deltaTime)) }

/-- The data members of `Player` that `Player::OnStep` reads or writes. -/
structure Player where
  mDamage : DamageCount
  m_ActiveEffects : ActiveEffectSet
  m_FiresInContact : FiresInContact
  mCannotDie : Bool
  quiver : PlayerQuiver
  fovLerper : TimeLerper
deriving DecidableEq

/-- A call of `Player::OnStep` that changes a collaborator. -/
inductive PlayerAction where
  | AddCustomComponent_DeadPlayer
  | SetPosition (position : b2Vec2)
  | SetRotation (angle : ℚ)
  | SetFov (fov : ℚ)
  | UpdateListener
deriving DecidableEq

/-- The outcome of one `Player::OnStep`: the members and the render component afterwards,
the calls made on the collaborators in order, and whether the player was replaced by a
`DeadPlayer`. -/
structure PlayerStepResult where
  player : Player
  graphics : RenderComponent
  actions : List PlayerAction
  replaced : Bool

/-- The part of `Player::OnStep` up to the purge: the quiver cooldowns decay, fire
exposure is applied, every effect is ticked, and the expired effects are removed. -/
def Player.tickEffects (player : Player) (graphics : RenderComponent) (deltaTime : ℚ) :
    Option (Player × RenderComponent) :=
  let quiver := player.quiver.OnStep deltaTime
  let effects := ApplyFires player.m_FiresInContact player.m_ActiveEffects
  (updateEffects deltaTime effects.container player.mDamage graphics).bind fun r =>
  some ({ player with
            quiver := quiver
            mDamage := r.2.1
            m_ActiveEffects := RemoveExpiredEffects { container := r.1 } },
        r.2.2)

/-- Embeds `Player::OnStep`; `none` is a failed assertion. The body position and angle
are what the physics engine answers. -/
def Player.OnStep (player : Player) (graphics : RenderComponent) (deltaTime : ℚ)
    (position : b2Vec2) (angle : ℚ) : Option PlayerStepResult :=
  (player.tickEffects graphics deltaTime).bind fun ticked =>
  let player1 := ticked.1
  let graphics1 := ticked.2
  if player1.mCannotDie == false && HasExceededLimit player1.mDamage then
    some { player := player1, graphics := graphics1,
           actions := [.AddCustomComponent_DeadPlayer], replaced := true }
  else
    let fov := player1.fovLerper.Update deltaTime NoEase
    some { player := { player1 with fovLerper := fov.2 }, graphics := graphics1,
           actions := [.SetPosition position, .SetRotation angle, .SetFov fov.1,
                       .UpdateListener],
           replaced := false }

/-! ## Reachable effect sets -/

/-- The three elemental effect types. -/
def ActiveEffectType.isElemental (type : ActiveEffectType) : Bool :=
  type == .Burning || type == .Frozen || type == .Chilled

/-- The effect sets reachable from the empty set by `AddActiveEffect`, `UpdateEffect` on
one of the entries, and `RemoveExpiredEffects`. -/
inductive ActiveEffectSet.Reachable : ActiveEffectSet → Prop where
  | empty : ActiveEffectSet.Reachable { container := [] }
  | add (effectType : ActiveEffectType) (effects : ActiveEffectSet) :
      ActiveEffectSet.Reachable effects →
      ActiveEffectSet.Reachable (AddActiveEffect effectType effects)
  | update (index : Nat) (deltaTime : ℚ) (effects : ActiveEffectSet) :
      ActiveEffectSet.Reachable effects →
      ActiveEffectSet.Reachable
        { container := effects.container.modify
            (fun effect => (UpdateEffect effect deltaTime).2) index }
  | purge (effects : ActiveEffectSet) :
      ActiveEffectSet.Reachable effects →
      ActiveEffectSet.Reachable (RemoveExpiredEffects effects)

/-- The enemy after the waking block of `Enemy::OnStep`, in closed form: a waking enemy
becomes awake. -/
def Enemy.awakened (enemy : Enemy) : Enemy :=
  if enemy.m_Awakeness = .Awakening then { enemy with m_Awakeness := .Awake } else enemy

/-- The decision of `Enemy::OnStep` to shoot, in closed form: the position to fire at,
when the target resolves, the ray cast sees it and `CanShoot` holds. -/
def Enemy.shotTarget (enemy : Enemy) (input : StepInput) : Option b2Vec2 :=
  if enemy.m_Target.isSome ∧ input.targetExists = true ∧ enemy.CanShoot input = true then
    input.visiblePlayerPosition
  else none

/-- A sample enemy: newly constructed, then woken by a contact on its sensor. -/
def sampleWakingEnemy : Enemy :=
  (Enemy.new 7).OnBeginContact ⟨1, none, none⟩ ⟨7, false, false⟩ ⟨20, false, false⟩

/-- Sample answers of the engine for one step: five seconds of world time, the target in
sight at `(1, 1)`, and a current clip that is none of the enemy's clips. -/
def sampleStepInput : StepInput :=
  { time := 5, animatorExists := false, animatorAnimation := 3, targetExists := true,
    visiblePlayerPosition := some ⟨1, 1⟩, currentAnimation := 3, hasAudio := true,
    position := ⟨0, 0⟩ }

/-- A sample player: at the damage limit, with the debug flag `mCannotDie` set. -/
def sampleUndyingPlayer : Player :=
  { mDamage := { damage := 100, max := 100 }
    m_ActiveEffects := { container := [] }
    m_FiresInContact := { container := [] }
    mCannotDie := true
    quiver := { quarrelSlots := [] }
    fovLerper := TimeLerper.SetTarget 1 2 (1 / 10) }

/-- A sample enemy: one point of damage below its limit and newly set on fire. -/
def sampleBurningEnemy : Enemy :=
  { Enemy.new 7 with m_Damage := { damage := 9, max := 10 },
                     m_ActiveEffects := { container := [⟨.Burning, 10, 0⟩] } }

/-- No two different elemental types (`Burning`, `Frozen`, `Chilled`) are held by the
set. -/
def ActiveEffectSet.ElementsExclusive (effects : ActiveEffectSet) : Prop :=
  ¬ (ActiveEffectType.Burning ∈ types effects ∧ ActiveEffectType.Frozen ∈ types effects) ∧
  ¬ (ActiveEffectType.Burning ∈ types effects ∧ ActiveEffectType.Chilled ∈ types effects) ∧
  ¬ (ActiveEffectType.Frozen ∈ types effects ∧ ActiveEffectType.Chilled ∈ types effects)

/-! ## Helper lemmas -/

/-! ### Binary32 rounding -/

theorem F32.roundHalfEven_cases (m : ℚ) :
    F32.roundHalfEven m = ⌊m⌋ ∨ F32.roundHalfEven m = ⌊m⌋ + 1 := by
  unfold F32.roundHalfEven
  split_ifs <;> simp

theorem F32.roundHalfEven_intCast (n : ℤ) : F32.roundHalfEven (n : ℚ) = n := by
  unfold F32.roundHalfEven
  simp

theorem F32.roundHalfEven_mono {a b : ℚ} (h : a ≤ b) :
    F32.roundHalfEven a ≤ F32.roundHalfEven b := by
  have hf : ⌊a⌋ ≤ ⌊b⌋ := Int.floor_mono h
  have ha1 := Int.floor_le a
  have ha2 := Int.lt_floor_add_one a
  have hb1 := Int.floor_le b
  have hb2 := Int.lt_floor_add_one b
  rcases lt_or_eq_of_le hf with hlt | heq
  · rcases F32.roundHalfEven_cases a with h1 | h1 <;>
    rcases F32.roundHalfEven_cases b with h2 | h2 <;> omega
  · unfold F32.roundHalfEven
    rw [← heq] at hb1 hb2 ⊢
    split_ifs <;> first | omega | (exfalso; linarith)

theorem F32.roundHalfEven_nearest (m : ℚ) (z : ℤ) :
    |(F32.roundHalfEven m : ℚ) - m| ≤ |(z : ℚ) - m| := by
  have h1 := Int.floor_le m
  have h2 := Int.lt_floor_add_one m
  have hz : (z : ℚ) ≤ (⌊m⌋ : ℚ) ∨ ((⌊m⌋ : ℚ) + 1 ≤ (z : ℚ)) := by
    rcases le_or_lt z ⌊m⌋ with h | h
    · left; exact_mod_cast h
    · right; exact_mod_cast h
  unfold F32.roundHalfEven
  split_ifs with c1 c2 c3 <;> push_cast <;> rcases hz with hz | hz <;>
    rw [abs_le] <;> constructor <;>
    first
    | (rw [le_abs]; first | (left; linarith) | (right; linarith))
    | (rw [neg_le, le_abs]; first | (left; linarith) | (right; linarith))

theorem F32.roundHalfEven_neg (m : ℚ) : F32.roundHalfEven (-m) = -F32.roundHalfEven m := by
  by_cases hm : (⌊m⌋ : ℚ) = m
  · rw [← hm, ← Int.cast_neg, F32.roundHalfEven_intCast, F32.roundHalfEven_intCast]
  · have h1 := Int.floor_le m
    have h2 := Int.lt_floor_add_one m
    have h3 : (⌊m⌋ : ℚ) < m := lt_of_le_of_ne h1 hm
    have hfl : ⌊-m⌋ = -⌊m⌋ - 1 := by
      rw [Int.floor_eq_iff]
      push_cast
      constructor <;> linarith
    unfold F32.roundHalfEven
    rw [hfl]
    push_cast
    split_ifs <;> first | omega | (exfalso; linarith)

theorem F32.two_zpow_pos (e : ℤ) : (0 : ℚ) < 2 ^ e := zpow_pos (by norm_num) e

theorem F32.roundAt_mono (e : ℤ) {a b : ℚ} (h : a ≤ b) : F32.roundAt e a ≤ F32.roundAt e b := by
  unfold F32.roundAt
  have hp := F32.two_zpow_pos e
  have h1 : a / 2 ^ e ≤ b / 2 ^ e := div_le_div_of_nonneg_right h (le_of_lt hp)
  have h2 := F32.roundHalfEven_mono h1
  have h3 : (F32.roundHalfEven (a / 2 ^ e) : ℚ) ≤ (F32.roundHalfEven (b / 2 ^ e) : ℚ) := by
    exact_mod_cast h2
  exact mul_le_mul_of_nonneg_right h3 (le_of_lt hp)

theorem F32.roundAt_neg (e : ℤ) (q : ℚ) : F32.roundAt e (-q) = -F32.roundAt e q := by
  unfold F32.roundAt
  rw [neg_div, F32.roundHalfEven_neg]
  push_cast
  ring

theorem F32.roundAt_mul_zpow (e k : ℤ) (n : ℤ) (h : e ≤ k) :
    F32.roundAt e ((n : ℚ) * 2 ^ k) = (n : ℚ) * 2 ^ k := by
  unfold F32.roundAt
  obtain ⟨j, hj⟩ := Int.eq_ofNat_of_zero_le (sub_nonneg.mpr h)
  have hk : k = e + (j : ℤ) := by omega
  have hne : (2 : ℚ) ≠ 0 := by norm_num
  have h2 : (2 : ℚ) ^ k = 2 ^ e * 2 ^ j := by
    rw [hk, zpow_add₀ hne, zpow_natCast]
  have hp := F32.two_zpow_pos e
  have h3 : (n : ℚ) * 2 ^ k / 2 ^ e = ((n * 2 ^ j : ℤ) : ℚ) := by
    rw [h2]
    push_cast
    field_simp
    ring
  rw [h3, F32.roundHalfEven_intCast, h2]
  push_cast
  ring

theorem F32.roundAt_nearest (e : ℤ) (q : ℚ) (z : ℤ) :
    |F32.roundAt e q - q| ≤ |(z : ℚ) * 2 ^ e - q| := by
  unfold F32.roundAt
  have hp := F32.two_zpow_pos e
  have h := F32.roundHalfEven_nearest (q / 2 ^ e) z
  have e1 : (F32.roundHalfEven (q / 2 ^ e) : ℚ) * 2 ^ e - q =
      ((F32.roundHalfEven (q / 2 ^ e) : ℚ) - q / 2 ^ e) * 2 ^ e := by
    field_simp
  have e2 : (z : ℚ) * 2 ^ e - q = ((z : ℚ) - q / 2 ^ e) * 2 ^ e := by
    field_simp
  rw [e1, e2, abs_mul, abs_mul]
  exact mul_le_mul_of_nonneg_right h (abs_nonneg _)

theorem F32.log_spec {q : ℚ} (h : q ≠ 0) :
    (2 : ℚ) ^ (Int.log 2 |q|) ≤ |q| ∧ |q| < (2 : ℚ) ^ (Int.log 2 |q| + 1) := by
  have hq : 0 < |q| := abs_pos.mpr h
  have h1 := Int.zpow_log_le_self (b := 2) (by norm_num) hq
  have h2 := Int.lt_zpow_succ_log_self (b := 2) (by norm_num) |q|
  simp only [Nat.cast_ofNat] at h1 h2
  exact ⟨h1, h2⟩

theorem F32.log_eq_of_bounds {q : ℚ} (e : ℤ) (h1 : (2 : ℚ) ^ e ≤ |q|)
    (h2 : |q| < (2 : ℚ) ^ (e + 1)) : Int.log 2 |q| = e := by
  have hq : 0 < |q| := lt_of_lt_of_le (F32.two_zpow_pos e) h1
  have hq0 : q ≠ 0 := abs_pos.mp hq
  obtain ⟨l1, l2⟩ := F32.log_spec hq0
  have hlt : (1 : ℚ) < 2 := by norm_num
  have a1 : (2 : ℚ) ^ e < 2 ^ (Int.log 2 |q| + 1) := lt_of_le_of_lt h1 l2
  have a2 : (2 : ℚ) ^ (Int.log 2 |q|) < 2 ^ (e + 1) := lt_of_le_of_lt l1 h2
  have b1 := (zpow_lt_zpow_iff_right₀ hlt).mp a1
  have b2 := (zpow_lt_zpow_iff_right₀ hlt).mp a2
  omega

theorem F32.roundIn_zero (emin : ℤ) : F32.roundIn emin 0 = 0 := by
  unfold F32.roundIn F32.roundAt
  simp [F32.roundHalfEven]

theorem F32.roundIn_neg (emin : ℤ) (q : ℚ) : F32.roundIn emin (-q) = -F32.roundIn emin q := by
  unfold F32.roundIn
  rw [abs_neg, F32.roundAt_neg]

theorem F32.log_lt_of_form (n k : ℤ) (hn0 : n ≠ 0) (hn : |n| < 2 ^ 24) :
    Int.log 2 |(n : ℚ) * 2 ^ k| < 24 + k := by
  have hp := F32.two_zpow_pos k
  have hq0 : (n : ℚ) * 2 ^ k ≠ 0 := mul_ne_zero (by exact_mod_cast hn0) (ne_of_gt hp)
  obtain ⟨l1, -⟩ := F32.log_spec hq0
  have hn' : |(n : ℚ)| < 2 ^ 24 := by exact_mod_cast hn
  have h3 : |(n : ℚ) * 2 ^ k| < 2 ^ (24 + k) := by
    rw [abs_mul, abs_of_pos hp, zpow_add₀ (by norm_num : (2 : ℚ) ≠ 0)]
    have : ((2 : ℚ) ^ (24 : ℤ)) = 2 ^ 24 := by norm_num
    rw [this]
    exact mul_lt_mul_of_pos_right hn' hp
  have h4 := lt_of_le_of_lt l1 h3
  exact (zpow_lt_zpow_iff_right₀ (by norm_num : (1 : ℚ) < 2)).mp h4

theorem F32.roundIn_exact (emin : ℤ) (n k : ℤ) (hn : |n| < 2 ^ 24) (hk : emin - 23 ≤ k) :
    F32.roundIn emin ((n : ℚ) * 2 ^ k) = (n : ℚ) * 2 ^ k := by
  by_cases hn0 : n = 0
  · subst hn0
    simp [F32.roundIn_zero]
  · unfold F32.roundIn
    apply F32.roundAt_mul_zpow
    have := F32.log_lt_of_form n k hn0 hn
    omega

theorem F32.round24_exact (n k : ℤ) (hn : |n| < 2 ^ 24) :
    F32.round24 ((n : ℚ) * 2 ^ k) = (n : ℚ) * 2 ^ k := by
  by_cases hn0 : n = 0
  · subst hn0
    simp [F32.round24, F32.roundAt, F32.roundHalfEven]
  · unfold F32.round24
    apply F32.roundAt_mul_zpow
    have := F32.log_lt_of_form n k hn0 hn
    omega

theorem F32.round24_eq_roundIn (emin : ℤ) (q : ℚ) (h : emin ≤ Int.log 2 |q|) :
    F32.round24 q = F32.roundIn emin q := by
  unfold F32.round24 F32.roundIn
  rw [max_eq_left h]

theorem F32.round24_self_roundIn (q : ℚ) : F32.round24 q = F32.roundIn (Int.log 2 |q|) q :=
  F32.round24_eq_roundIn _ q (le_refl _)

/-- Within the exponent `max (log |q|) emin`, the scaled value is below `2^24`. -/
theorem F32.abs_lt_top (emin : ℤ) (q : ℚ) :
    |q| < (2 : ℚ) ^ (max (Int.log 2 |q|) emin + 1) := by
  by_cases hq : q = 0
  · subst hq
    simpa using F32.two_zpow_pos (max (Int.log 2 |(0 : ℚ)|) emin + 1)
  · obtain ⟨-, l2⟩ := F32.log_spec hq
    refine lt_of_lt_of_le l2 ?_
    apply zpow_le_zpow_right₀ (by norm_num)
    have := le_max_left (Int.log 2 |q|) emin
    omega

theorem F32.roundIn_mono_pos (emin : ℤ) {a b : ℚ} (ha : 0 < a) (h : a ≤ b) :
    F32.roundIn emin a ≤ F32.roundIn emin b := by
  have hb : 0 < b := lt_of_lt_of_le ha h
  have hlog : Int.log 2 |a| ≤ Int.log 2 |b| := by
    rw [abs_of_pos ha, abs_of_pos hb]
    exact Int.log_mono_right ha h
  have hE : max (Int.log 2 |a|) emin ≤ max (Int.log 2 |b|) emin := max_le_max hlog (le_refl _)
  rcases eq_or_lt_of_le hE with heq | hlt
  · unfold F32.roundIn
    rw [heq]
    exact F32.roundAt_mono _ h
  · -- the binade of `b` starts above the one of `a`
    have hEb : max (Int.log 2 |b|) emin = Int.log 2 |b| := by
      apply max_eq_left
      by_contra hc
      push_neg at hc
      rw [max_eq_right (le_of_lt hc)] at hlt
      exact absurd (le_max_right (Int.log 2 |a|) emin) (not_le.mpr hlt)
    have hatop := lt_of_le_of_lt (le_abs_self a) (F32.abs_lt_top emin a)
    have hbl := le_trans (F32.log_spec (ne_of_gt hb)).1 (le_of_eq (abs_of_pos hb))
    -- the top of the binade of `a` is a value of both grids
    have e1 : F32.roundIn emin a ≤ (2 : ℚ) ^ (max (Int.log 2 |a|) emin + 1) := by
      have h1 := F32.roundAt_mono (max (Int.log 2 |a|) emin - 23) (le_of_lt hatop)
      have h2 := F32.roundAt_mul_zpow (max (Int.log 2 |a|) emin - 23)
        (max (Int.log 2 |a|) emin + 1) 1 (by omega)
      simp only [Int.cast_one, one_mul] at h2
      rw [h2] at h1
      exact h1
    have e2 : (2 : ℚ) ^ (Int.log 2 |b|) ≤ F32.roundIn emin b := by
      have h1 := F32.roundAt_mono (max (Int.log 2 |b|) emin - 23) hbl
      have h2 := F32.roundAt_mul_zpow (max (Int.log 2 |b|) emin - 23)
        (Int.log 2 |b|) 1 (by rw [hEb]; omega)
      simp only [Int.cast_one, one_mul] at h2
      rw [h2] at h1
      exact h1
    have e3 : (2 : ℚ) ^ (max (Int.log 2 |a|) emin + 1) ≤ (2 : ℚ) ^ (Int.log 2 |b|) := by
      apply zpow_le_zpow_right₀ (by norm_num)
      rw [hEb] at hlt
      omega
    exact le_trans e1 (le_trans e3 e2)

theorem F32.roundIn_nonneg (emin : ℤ) {q : ℚ} (h : 0 ≤ q) : 0 ≤ F32.roundIn emin q := by
  rcases eq_or_lt_of_le h with h0 | h0
  · rw [← h0, F32.roundIn_zero]
  · unfold F32.roundIn F32.roundAt
    apply mul_nonneg _ (le_of_lt (F32.two_zpow_pos _))
    have h1 : (0 : ℚ) ≤ q / 2 ^ (max (Int.log 2 |q|) emin - 23) :=
      div_nonneg h (le_of_lt (F32.two_zpow_pos _))
    have h2 := F32.roundHalfEven_mono h1
    have h3 : F32.roundHalfEven (0 : ℚ) = 0 := by
      have := F32.roundHalfEven_intCast 0
      simpa using this
    rw [h3] at h2
    exact_mod_cast h2

theorem F32.roundIn_mono (emin : ℤ) {a b : ℚ} (h : a ≤ b) :
    F32.roundIn emin a ≤ F32.roundIn emin b := by
  rcases lt_trichotomy 0 a with ha | ha | ha
  · exact F32.roundIn_mono_pos emin ha h
  · rw [← ha, F32.roundIn_zero]
    exact F32.roundIn_nonneg emin (by rw [ha]; exact h)
  · rcases le_or_lt 0 b with hb | hb
    · have h1 := F32.roundIn_nonneg emin hb
      have h2 := F32.roundIn_nonneg emin (le_of_lt (neg_pos.mpr ha))
      rw [F32.roundIn_neg] at h2
      linarith
    · have h1 := F32.roundIn_mono_pos emin (neg_pos.mpr hb) (neg_le_neg h)
      rw [F32.roundIn_neg, F32.roundIn_neg] at h1
      linarith

theorem F32.roundAt_form (E : ℤ) (q : ℚ) (hE : |q| < (2 : ℚ) ^ (E + 1)) :
    ∃ n k : ℤ, |n| < 2 ^ 24 ∧ E - 23 ≤ k ∧ F32.roundAt (E - 23) q = (n : ℚ) * 2 ^ k := by
  have hp := F32.two_zpow_pos (E - 23)
  have htop : (2 : ℚ) ^ (E + 1) = ((2 ^ 24 : ℤ) : ℚ) * 2 ^ (E - 23) := by
    have : E + 1 = 24 + (E - 23) := by ring
    rw [this, zpow_add₀ (by norm_num : (2 : ℚ) ≠ 0)]
    norm_num
  have hq := abs_lt.mp hE
  have h1 : q / 2 ^ (E - 23) ≤ ((2 ^ 24 : ℤ) : ℚ) := by
    rw [div_le_iff₀ hp, ← htop]
    exact le_of_lt hq.2
  have h2 : ((-(2 ^ 24) : ℤ) : ℚ) ≤ q / 2 ^ (E - 23) := by
    rw [le_div_iff₀ hp]
    have : ((-(2 ^ 24) : ℤ) : ℚ) * 2 ^ (E - 23) = -(2 : ℚ) ^ (E + 1) := by
      rw [htop]
      push_cast
      ring
    rw [this]
    exact le_of_lt hq.1
  have r1 := F32.roundHalfEven_mono h1
  have r2 := F32.roundHalfEven_mono h2
  rw [F32.roundHalfEven_intCast] at r1 r2
  set r := F32.roundHalfEven (q / 2 ^ (E - 23)) with hr
  have hval : F32.roundAt (E - 23) q = (r : ℚ) * 2 ^ (E - 23) := rfl
  rcases eq_or_lt_of_le r1 with e1 | e1
  · refine ⟨1, E + 1, by norm_num, by omega, ?_⟩
    rw [hval, e1, htop]
    push_cast
    ring
  · rcases eq_or_lt_of_le r2 with e2 | e2
    · refine ⟨-1, E + 1, by norm_num, by omega, ?_⟩
      rw [hval, ← e2, htop]
      push_cast
      ring
    · refine ⟨r, E - 23, ?_, le_refl _, hval⟩
      rw [abs_lt]
      constructor <;> omega

theorem F32.roundIn_form (emin : ℤ) (q : ℚ) :
    ∃ n k : ℤ, |n| < 2 ^ 24 ∧ emin - 23 ≤ k ∧ F32.roundIn emin q = (n : ℚ) * 2 ^ k := by
  obtain ⟨n, k, hn, hk, h⟩ :=
    F32.roundAt_form (max (Int.log 2 |q|) emin) q (F32.abs_lt_top emin q)
  refine ⟨n, k, hn, ?_, h⟩
  have := le_max_right (Int.log 2 |q|) emin
  omega

theorem F32.roundIn_idem (emin : ℤ) (q : ℚ) :
    F32.roundIn emin (F32.roundIn emin q) = F32.roundIn emin q := by
  obtain ⟨n, k, hn, hk, h⟩ := F32.roundIn_form emin q
  rw [h]
  exact F32.roundIn_exact emin n k hn hk

theorem F32.roundAt_nearest_form (E : ℤ) (q : ℚ) (n k : ℤ) (hn : |n| < 2 ^ 24)
    (hcase : E - 23 ≤ k ∨ (2 : ℚ) ^ E ≤ |q|) :
    |F32.roundAt (E - 23) q - q| ≤ |(n : ℚ) * 2 ^ k - q| := by
  have hne : (2 : ℚ) ≠ 0 := by norm_num
  by_cases hk : E - 23 ≤ k
  · obtain ⟨j, hj⟩ := Int.eq_ofNat_of_zero_le (sub_nonneg.mpr hk)
    have hk' : k = (E - 23) + (j : ℤ) := by omega
    have h2 : (n : ℚ) * 2 ^ k = ((n * 2 ^ j : ℤ) : ℚ) * 2 ^ (E - 23) := by
      rw [hk', zpow_add₀ hne, zpow_natCast]
      push_cast
      ring
    rw [h2]
    exact F32.roundAt_nearest (E - 23) q (n * 2 ^ j)
  · have hq : (2 : ℚ) ^ E ≤ |q| := by
      rcases hcase with h | h
      · exact absurd h hk
      · exact h
    have hn' : |(n : ℚ)| < 2 ^ 24 := by exact_mod_cast hn
    have hf : |(n : ℚ) * 2 ^ k| < (2 : ℚ) ^ E := by
      rw [abs_mul, abs_of_pos (F32.two_zpow_pos k)]
      have h1 : |(n : ℚ)| * 2 ^ k < 2 ^ 24 * 2 ^ k :=
        mul_lt_mul_of_pos_right hn' (F32.two_zpow_pos k)
      have h2 : (2 : ℚ) ^ 24 * 2 ^ k = 2 ^ (24 + k) := by
        rw [zpow_add₀ hne]
        norm_num
      have h3 : (2 : ℚ) ^ (24 + k) ≤ 2 ^ E := by
        apply zpow_le_zpow_right₀ (by norm_num)
        omega
      linarith
    have hE23 : (2 : ℚ) ^ E = ((2 ^ 23 : ℤ) : ℚ) * 2 ^ (E - 23) := by
      have : E = 23 + (E - 23) := by ring
      nth_rewrite 1 [this]
      rw [zpow_add₀ hne]
      norm_num
    have hfar : |q| - (2 : ℚ) ^ E < |(n : ℚ) * 2 ^ k - q| := by
      have := abs_sub_abs_le_abs_sub q ((n : ℚ) * 2 ^ k)
      rw [abs_sub_comm] at this
      linarith
    rcases le_or_lt 0 q with hq0 | hq0
    · have h1 := F32.roundAt_nearest (E - 23) q (2 ^ 23)
      rw [← hE23] at h1
      rw [abs_of_nonneg hq0] at hq hfar
      have h2 : |(2 : ℚ) ^ E - q| = q - 2 ^ E := by
        rw [abs_sub_comm]
        exact abs_of_nonneg (by linarith)
      rw [h2] at h1
      linarith
    · have h1 := F32.roundAt_nearest (E - 23) q (-(2 ^ 23))
      have e1 : ((-(2 ^ 23) : ℤ) : ℚ) * 2 ^ (E - 23) = -(2 : ℚ) ^ E := by
        rw [hE23]
        push_cast
        ring
      rw [e1] at h1
      rw [abs_of_neg hq0] at hq hfar
      have h2 : |-(2 : ℚ) ^ E - q| = -q - 2 ^ E := by
        rw [abs_of_nonneg (by linarith)]
        ring
      rw [h2] at h1
      linarith

theorem F32.roundIn_nearest (emin : ℤ) (q : ℚ) (n k : ℤ) (hn : |n| < 2 ^ 24)
    (hk : emin - 23 ≤ k) :
    |F32.roundIn emin q - q| ≤ |(n : ℚ) * 2 ^ k - q| := by
  by_cases hq : q = 0
  · subst hq
    rw [F32.roundIn_zero]
    simp
  · unfold F32.roundIn
    apply F32.roundAt_nearest_form _ q n k hn
    by_cases hc : max (Int.log 2 |q|) emin - 23 ≤ k
    · exact Or.inl hc
    · right
      have hmax : max (Int.log 2 |q|) emin = Int.log 2 |q| := by
        apply max_eq_left
        by_contra hcon
        push_neg at hcon
        rw [max_eq_right (le_of_lt hcon)] at hc
        exact hc hk
      rw [hmax]
      exact (F32.log_spec hq).1

theorem F32.round24_zero : F32.round24 0 = 0 := by
  rw [F32.round24_self_roundIn, F32.roundIn_zero]

theorem F32.round24_neg (q : ℚ) : F32.round24 (-q) = -F32.round24 q := by
  unfold F32.round24
  rw [abs_neg, F32.roundAt_neg]

theorem F32.round24_nearest (q : ℚ) (n k : ℤ) (hn : |n| < 2 ^ 24) :
    |F32.round24 q - q| ≤ |(n : ℚ) * 2 ^ k - q| := by
  by_cases hq : q = 0
  · subst hq
    rw [F32.round24_zero]
    simp
  · unfold F32.round24
    exact F32.roundAt_nearest_form _ q n k hn (Or.inr (F32.log_spec hq).1)

theorem F32.round24_form (q : ℚ) :
    ∃ n k : ℤ, |n| < 2 ^ 24 ∧ F32.round24 q = (n : ℚ) * 2 ^ k := by
  rw [F32.round24_self_roundIn]
  obtain ⟨n, k, hn, -, h⟩ := F32.roundIn_form (Int.log 2 |q|) q
  exact ⟨n, k, hn, h⟩

theorem F32.round24_idem (q : ℚ) : F32.round24 (F32.round24 q) = F32.round24 q := by
  obtain ⟨n, k, hn, h⟩ := F32.round24_form q
  rw [h]
  exact F32.round24_exact n k hn

theorem F32.round24_nonneg {q : ℚ} (h : 0 ≤ q) : 0 ≤ F32.round24 q := by
  rw [F32.round24_self_roundIn]
  exact F32.roundIn_nonneg _ h

theorem F32.round24_mono {a b : ℚ} (h : a ≤ b) : F32.round24 a ≤ F32.round24 b := by
  rcases lt_trichotomy 0 a with ha | ha | ha
  · have hb : 0 < b := lt_of_lt_of_le ha h
    have hlog : Int.log 2 |a| ≤ Int.log 2 |b| := by
      rw [abs_of_pos ha, abs_of_pos hb]
      exact Int.log_mono_right ha h
    rw [F32.round24_self_roundIn a, F32.round24_eq_roundIn (Int.log 2 |a|) b hlog]
    exact F32.roundIn_mono _ h
  · rw [← ha, F32.round24_zero]
    exact F32.round24_nonneg (by rw [ha]; exact h)
  · rcases le_or_lt 0 b with hb | hb
    · have h1 := F32.round24_nonneg hb
      have h2 := F32.round24_nonneg (le_of_lt (neg_pos.mpr ha))
      rw [F32.round24_neg] at h2
      linarith
    · have hlog : Int.log 2 |b| ≤ Int.log 2 |a| := by
        rw [abs_of_neg ha, abs_of_neg hb]
        exact Int.log_mono_right (neg_pos.mpr hb) (neg_le_neg h)
      rw [F32.round24_self_roundIn b, F32.round24_eq_roundIn (Int.log 2 |b|) a hlog]
      exact F32.roundIn_mono _ h

theorem F32.round24_pos {q : ℚ} (h : 0 < q) : 0 < F32.round24 q := by
  have hl := le_trans (F32.log_spec (ne_of_gt h)).1 (le_of_eq (abs_of_pos h))
  have h1 := F32.round24_mono hl
  have h2 := F32.round24_exact 1 (Int.log 2 |q|) (by norm_num)
  simp only [Int.cast_one, one_mul] at h2
  rw [h2] at h1
  exact lt_of_lt_of_le (F32.two_zpow_pos _) h1

theorem F32.round_zero : F32.round 0 = 0 := F32.roundIn_zero _

theorem F32.round_mono {a b : ℚ} (h : a ≤ b) : F32.round a ≤ F32.round b :=
  F32.roundIn_mono _ h

theorem F32.round_idem (q : ℚ) : F32.round (F32.round q) = F32.round q :=
  F32.roundIn_idem _ q

theorem F32.round_nonneg {q : ℚ} (h : 0 ≤ q) : 0 ≤ F32.round q := F32.roundIn_nonneg _ h

theorem F32.round_exact (n k : ℤ) (hn : |n| < 2 ^ 24) (hk : -149 ≤ k) :
    F32.round ((n : ℚ) * 2 ^ k) = (n : ℚ) * 2 ^ k :=
  F32.roundIn_exact _ n k hn (by omega)

theorem F32.round_form (q : ℚ) :
    ∃ n k : ℤ, |n| < 2 ^ 24 ∧ -149 ≤ k ∧ F32.round q = (n : ℚ) * 2 ^ k := by
  obtain ⟨n, k, hn, hk, h⟩ := F32.roundIn_form (-126) q
  exact ⟨n, k, hn, by omega, h⟩

/-- A value that rounding leaves alone is a significand below `2^24` times a power of
two not below `2^-149`. -/
theorem F32.form_of_fixed {q : ℚ} (h : F32.round q = q) :
    ∃ n k : ℤ, |n| < 2 ^ 24 ∧ -149 ≤ k ∧ q = (n : ℚ) * 2 ^ k := by
  obtain ⟨n, k, hn, hk, hf⟩ := F32.round_form q
  exact ⟨n, k, hn, hk, by rw [← h, hf]⟩

theorem F32.round24_of_fixed {q : ℚ} (h : F32.round q = q) : F32.round24 q = q := by
  obtain ⟨n, k, hn, -, hf⟩ := F32.form_of_fixed h
  rw [hf]
  exact F32.round24_exact n k hn

/-- A binary32 value is a whole multiple of `2^-149`. -/
theorem F32.grid_of_fixed {q : ℚ} (h : F32.round q = q) :
    ∃ z : ℤ, q = (z : ℚ) * 2 ^ (-149 : ℤ) := by
  obtain ⟨n, k, -, hk, hf⟩ := F32.form_of_fixed h
  obtain ⟨j, hj⟩ := Int.eq_ofNat_of_zero_le (show 0 ≤ k + 149 by omega)
  refine ⟨n * 2 ^ j, ?_⟩
  have hk' : k = (j : ℤ) + (-149) := by omega
  rw [hf, hk', zpow_add₀ (by norm_num : (2 : ℚ) ≠ 0), zpow_natCast]
  push_cast
  ring

/-- Rounding a whole multiple of `2^-149` to 24 significant bits is binary32 rounding:
below `2^-126` such a value has fewer than 24 significant bits. -/
theorem F32.round24_grid (z : ℤ) :
    F32.round24 ((z : ℚ) * 2 ^ (-149 : ℤ)) = F32.round ((z : ℚ) * 2 ^ (-149 : ℤ)) := by
  by_cases hlog : -126 ≤ Int.log 2 |(z : ℚ) * 2 ^ (-149 : ℤ)|
  · exact F32.round24_eq_roundIn _ _ hlog
  · push_neg at hlog
    have hz : |z| < 2 ^ 24 := by
      by_cases hz0 : z = 0
      · subst hz0
        norm_num
      · have hp := F32.two_zpow_pos (-149)
        have hq0 : (z : ℚ) * 2 ^ (-149 : ℤ) ≠ 0 :=
          mul_ne_zero (by exact_mod_cast hz0) (ne_of_gt hp)
        obtain ⟨-, l2⟩ := F32.log_spec hq0
        have h1 : (2 : ℚ) ^ (Int.log 2 |(z : ℚ) * 2 ^ (-149 : ℤ)| + 1) ≤ 2 ^ (-126 : ℤ) := by
          apply zpow_le_zpow_right₀ (by norm_num)
          omega
        have h2 : |(z : ℚ) * 2 ^ (-149 : ℤ)| < 2 ^ (-126 : ℤ) := lt_of_lt_of_le l2 h1
        rw [abs_mul, abs_of_pos hp] at h2
        have h3 : (2 : ℚ) ^ (-126 : ℤ) = 2 ^ 23 * 2 ^ (-149 : ℤ) := by
          rw [show (-126 : ℤ) = 23 + (-149) by norm_num, zpow_add₀ (by norm_num : (2 : ℚ) ≠ 0)]
          norm_num
        rw [h3] at h2
        have h4 : |(z : ℚ)| < 2 ^ 23 := lt_of_mul_lt_mul_right h2 (le_of_lt hp)
        have h5 : |z| < 2 ^ 23 := by exact_mod_cast h4
        omega
    rw [F32.round24_exact z (-149) hz, F32.round_exact z (-149) hz (le_refl _)]

theorem F32.add_eq_round {a b : ℚ} (ha : F32.round a = a) (hb : F32.round b = b) :
    F32.add a b = F32.round (a + b) := by
  obtain ⟨za, hza⟩ := F32.grid_of_fixed ha
  obtain ⟨zb, hzb⟩ := F32.grid_of_fixed hb
  have hs : a + b = ((za + zb : ℤ) : ℚ) * 2 ^ (-149 : ℤ) := by
    rw [hza, hzb]
    push_cast
    ring
  unfold F32.add
  rw [hs]
  exact F32.round24_grid _

theorem F32.sub_eq_round {a b : ℚ} (ha : F32.round a = a) (hb : F32.round b = b) :
    F32.sub a b = F32.round (a - b) := by
  obtain ⟨za, hza⟩ := F32.grid_of_fixed ha
  obtain ⟨zb, hzb⟩ := F32.grid_of_fixed hb
  have hs : a - b = ((za - zb : ℤ) : ℚ) * 2 ^ (-149 : ℤ) := by
    rw [hza, hzb]
    push_cast
    ring
  unfold F32.sub
  rw [hs]
  exact F32.round24_grid _

theorem F32.roundHalfEven_eq_of_lt (m : ℚ) (z : ℤ) (h : |m - (z : ℚ)| < 1 / 2) :
    F32.roundHalfEven m = z := by
  have h1 := F32.roundHalfEven_nearest m z
  rw [abs_sub_comm] at h
  have h2 : |(F32.roundHalfEven m : ℚ) - (z : ℚ)| < 1 := by
    have := abs_sub_le (F32.roundHalfEven m : ℚ) m (z : ℚ)
    rw [abs_sub_comm m (z : ℚ)] at this
    linarith
  have h3 : |F32.roundHalfEven m - z| < 1 := by exact_mod_cast h2
  rw [abs_lt] at h3
  omega

theorem F32.roundHalfEven_tie (z : ℤ) :
    F32.roundHalfEven ((z : ℚ) + 1 / 2) = if z % 2 = 0 then z else z + 1 := by
  have hfl : ⌊(z : ℚ) + 1 / 2⌋ = z := by
    rw [Int.floor_eq_iff]
    constructor <;> linarith
  unfold F32.roundHalfEven
  rw [hfl]
  norm_num

theorem F32.round24_eval (q : ℚ) (e z : ℤ) (h1 : (2 : ℚ) ^ e ≤ |q|)
    (h2 : |q| < (2 : ℚ) ^ (e + 1)) (hz : F32.roundHalfEven (q / 2 ^ (e - 23)) = z) :
    F32.round24 q = (z : ℚ) * 2 ^ (e - 23) := by
  unfold F32.round24 F32.roundAt
  rw [F32.log_eq_of_bounds e h1 h2, hz]

theorem F32.round_eval (q : ℚ) (e z : ℤ) (h1 : (2 : ℚ) ^ e ≤ |q|)
    (h2 : |q| < (2 : ℚ) ^ (e + 1)) (he : -126 ≤ e)
    (hz : F32.roundHalfEven (q / 2 ^ (e - 23)) = z) :
    F32.round q = (z : ℚ) * 2 ^ (e - 23) := by
  unfold F32.round F32.roundIn F32.roundAt
  rw [F32.log_eq_of_bounds e h1 h2, max_eq_left he, hz]

/-- The value `ceil` returns for a binary32 argument is itself a binary32 value. -/
theorem F32.round24_ceil {q : ℚ} (h : F32.round q = q) :
    F32.round24 ((⌈q⌉ : ℤ) : ℚ) = ((⌈q⌉ : ℤ) : ℚ) := by
  obtain ⟨n, k, hn, -, hf⟩ := F32.form_of_fixed h
  by_cases hk : 0 ≤ k
  · obtain ⟨j, hj⟩ := Int.eq_ofNat_of_zero_le hk
    have hq : q = ((n * 2 ^ j : ℤ) : ℚ) := by
      rw [hf, hj, zpow_natCast]
      push_cast
      ring
    rw [hq, Int.ceil_intCast, ← hq, hf]
    exact F32.round24_exact n k hn
  · push_neg at hk
    have hn' : |(n : ℚ)| < 2 ^ 24 := by exact_mod_cast hn
    have hpk := F32.two_zpow_pos k
    have hk2 : (2 : ℚ) ^ k ≤ 2 ^ (-1 : ℤ) := by
      apply zpow_le_zpow_right₀ (by norm_num)
      omega
    have hq : |q| < 2 ^ 23 := by
      rw [hf, abs_mul, abs_of_pos hpk]
      have h1 : |(n : ℚ)| * 2 ^ k ≤ |(n : ℚ)| * 2 ^ (-1 : ℤ) :=
        mul_le_mul_of_nonneg_left hk2 (abs_nonneg _)
      have h2 : |(n : ℚ)| * 2 ^ (-1 : ℤ) < 2 ^ 24 * 2 ^ (-1 : ℤ) :=
        mul_lt_mul_of_pos_right hn' (F32.two_zpow_pos _)
      have h3 : (2 : ℚ) ^ 24 * 2 ^ (-1 : ℤ) = 2 ^ 23 := by norm_num
      linarith
    have hc : |⌈q⌉| < 2 ^ 24 := by
      rw [abs_lt] at hq ⊢
      have c1 := Int.le_ceil q
      have c2 := Int.ceil_lt_add_one q
      constructor
      · have : ((-(2 ^ 24) : ℤ) : ℚ) < (⌈q⌉ : ℚ) := by
          push_cast
          linarith
        exact_mod_cast this
      · have : (⌈q⌉ : ℚ) < ((2 ^ 24 : ℤ) : ℚ) := by
          push_cast
          linarith
        exact_mod_cast this
    have := F32.round24_exact ⌈q⌉ 0 hc
    simpa using this


theorem modify_findIdx_eq_resetFirst (type : ActiveEffectType) (duration : ℚ)
    (l : List ActiveEffect) :
    l.modify (fun effect => { effect with remainingDuration := duration })
      (l.findIdx (fun effect => type == effect.type)) = resetFirst type duration l := by
  induction l with
  | nil => rfl
  | cons a l ih =>
    by_cases h : type = a.type
    · simp [List.findIdx_cons, resetFirst, h]
    · have hb : (type == a.type) = false := by simpa using h
      simp only [List.findIdx_cons, hb, cond_false, List.modify_succ_cons, resetFirst, h,
        if_false, ih]

theorem findIdx_eq_length_iff (type : ActiveEffectType) (l : List ActiveEffect) :
    l.findIdx (fun effect => type == effect.type) = l.length ↔ ∀ e ∈ l, e.type ≠ type := by
  constructor
  · intro h e he heq
    have : l.findIdx (fun effect => type == effect.type) < l.length :=
      List.findIdx_lt_length.mpr ⟨e, he, by simp [heq]⟩
    omega
  · intro h
    by_contra hne
    have hle : l.findIdx (fun effect => type == effect.type) ≤ l.length := List.findIdx_le_length _
    have hlt : l.findIdx (fun effect => type == effect.type) < l.length := by omega
    obtain ⟨e, he, hp⟩ := List.findIdx_lt_length.mp hlt
    have heq : type = e.type := by simpa using hp
    exact h e he heq.symm

theorem RemoveActiveEffect_container (t : ActiveEffectType) (s : ActiveEffectSet) :
    (RemoveActiveEffect t s).2.container = s.container.filter (fun e => !(e.type == t)) := rfl

theorem RemoveActiveEffect_removed (t : ActiveEffectType) (s : ActiveEffectSet) :
    (RemoveActiveEffect t s).1 = true ↔ ∃ e ∈ s.container, e.type = t := by
  have hle := List.length_filter_le (fun e : ActiveEffect => !(e.type == t)) s.container
  simp only [RemoveActiveEffect, bne_iff_ne, ne_eq]
  constructor
  · intro h
    by_contra hno
    push_neg at hno
    apply h
    rw [List.filter_eq_self.mpr]
    intro a ha
    simpa using hno a ha
  · rintro ⟨e, he, rfl⟩ hlen
    have := List.filter_eq_self.mp
      ((List.filter_sublist s.container).eq_of_length hlen) e he
    simp at this

theorem RemoveActiveEffect_not_removed (t : ActiveEffectType) (s : ActiveEffectSet)
    (h : ∀ e ∈ s.container, e.type ≠ t) :
    (RemoveActiveEffect t s).1 = false ∧ (RemoveActiveEffect t s).2 = s := by
  constructor
  · cases hb : (RemoveActiveEffect t s).1
    · rfl
    · obtain ⟨e, he, heq⟩ := (RemoveActiveEffect_removed t s).mp hb
      exact absurd heq (h e he)
  · cases s with
    | mk l =>
      simp only [RemoveActiveEffect, ActiveEffectSet.mk.injEq]
      apply List.filter_eq_self.mpr
      intro a ha
      simpa using h a ha

theorem AddOrResetDuration_absent (t : ActiveEffectType) (d : ℚ) (s : ActiveEffectSet)
    (h : ∀ e ∈ s.container, e.type ≠ t) :
    (AddOrResetDuration t d s).container =
      s.container ++ [{ type := t, remainingDuration := d, runningDuration := 0 }] := by
  simp [AddOrResetDuration, (findIdx_eq_length_iff t s.container).mpr h]

theorem AddOrResetDuration_present (t : ActiveEffectType) (d : ℚ) (s : ActiveEffectSet)
    (h : ∃ e ∈ s.container, e.type = t) :
    (AddOrResetDuration t d s).container = resetFirst t d s.container := by
  have hne : ¬ (s.container.findIdx (fun effect => t == effect.type) = s.container.length) := by
    rw [findIdx_eq_length_iff]
    push_neg
    exact h
  simp only [AddOrResetDuration, hne, if_false]
  exact modify_findIdx_eq_resetFirst t d s.container

theorem resetFirst_types (t : ActiveEffectType) (d : ℚ) (l : List ActiveEffect) :
    (resetFirst t d l).map (fun e => e.type) = l.map (fun e => e.type) := by
  induction l with
  | nil => rfl
  | cons a l ih =>
    by_cases h : t = a.type
    · simp [resetFirst, h]
    · simp [resetFirst, h, ih]

theorem types_AddOrResetDuration (t : ActiveEffectType) (d : ℚ) (s : ActiveEffectSet) :
    types (AddOrResetDuration t d s) = if t ∈ types s then types s else types s ++ [t] := by
  by_cases h : ∃ e ∈ s.container, e.type = t
  · have hm : t ∈ types s := by
      obtain ⟨e, he, rfl⟩ := h
      exact List.mem_map.mpr ⟨e, he, rfl⟩
    rw [if_pos hm]
    simp only [types, AddOrResetDuration_present t d s h, resetFirst_types]
  · push_neg at h
    have hm : t ∉ types s := by
      intro hm
      obtain ⟨e, he, heq⟩ := List.mem_map.mp hm
      exact h e he heq
    rw [if_neg hm]
    simp only [types, AddOrResetDuration_absent t d s h, List.map_append, List.map_cons,
      List.map_nil]

theorem types_RemoveActiveEffect (t : ActiveEffectType) (s : ActiveEffectSet) :
    types (RemoveActiveEffect t s).2 = (types s).filter (fun u => !(u == t)) := by
  simp only [types, RemoveActiveEffect_container, List.filter_map]
  rfl

theorem WellFormed_RemoveActiveEffect (t : ActiveEffectType) (s : ActiveEffectSet)
    (h : WellFormed s) : WellFormed (RemoveActiveEffect t s).2 := by
  unfold WellFormed at *
  rw [types_RemoveActiveEffect]
  exact ⟨h.1.filter _, fun hm => h.2 (List.mem_filter.mp hm).1⟩

theorem WellFormed_AddOrResetDuration (t : ActiveEffectType) (d : ℚ) (s : ActiveEffectSet)
    (ht : t ≠ ActiveEffectType.None) (h : WellFormed s) :
    WellFormed (AddOrResetDuration t d s) := by
  unfold WellFormed at *
  rw [types_AddOrResetDuration]
  by_cases hm : t ∈ types s
  · rw [if_pos hm]
    exact h
  · rw [if_neg hm]
    refine ⟨?_, ?_⟩
    · rw [List.nodup_append]
      refine ⟨h.1, List.nodup_singleton t, ?_⟩
      intro a ha hb
      rw [List.mem_singleton] at hb
      exact hm (hb ▸ ha)
    · intro hn
      rcases List.mem_append.mp hn with hn | hn
      · exact h.2 hn
      · rw [List.mem_singleton] at hn
        exact ht hn.symm

theorem WellFormed_AddActiveEffect (t : ActiveEffectType) (s : ActiveEffectSet)
    (h : WellFormed s) : WellFormed (AddActiveEffect t s) := by
  cases t with
  | None => exact h
  | Chilled => exact h
  | Poisoned => exact WellFormed_AddOrResetDuration _ _ _ (by decide) h
  | Burning =>
    simp only [AddActiveEffect]
    split_ifs
    · exact WellFormed_AddOrResetDuration _ _ _ (by decide) (WellFormed_RemoveActiveEffect _ _ h)
    · exact WellFormed_AddOrResetDuration _ _ _ (by decide)
        (WellFormed_RemoveActiveEffect _ _ (WellFormed_RemoveActiveEffect _ _ h))
    · exact WellFormed_RemoveActiveEffect _ _ (WellFormed_RemoveActiveEffect _ _ h)
  | Frozen =>
    simp only [AddActiveEffect]
    split_ifs
    · exact WellFormed_AddOrResetDuration _ _ _ (by decide) (WellFormed_RemoveActiveEffect _ _ h)
    · exact WellFormed_AddOrResetDuration _ _ _ (by decide)
        (WellFormed_RemoveActiveEffect _ _ (WellFormed_RemoveActiveEffect _ _ h))

theorem WellFormed_addActiveEffects (ts : List ActiveEffectType) (s : ActiveEffectSet)
    (h : WellFormed s) : WellFormed (addActiveEffects ts s) := by
  induction ts generalizing s with
  | nil => exact h
  | cons t ts ih => exact ih _ (WellFormed_AddActiveEffect t s h)

theorem WellFormed_empty : WellFormed { container := [] } := by
  simp [WellFormed, types]

theorem resetFirst_has (t : ActiveEffectType) (d : ℚ) (l : List ActiveEffect)
    (h : ∃ e ∈ l, e.type = t) :
    ∃ e ∈ resetFirst t d l, e.type = t ∧ e.remainingDuration = d := by
  induction l with
  | nil => simp at h
  | cons a l ih =>
    by_cases ha : t = a.type
    · refine ⟨{ a with remainingDuration := d }, ?_, ha.symm, rfl⟩
      simp [resetFirst, ha]
    · obtain ⟨e, he, het⟩ := h
      have hel : e ∈ l := by
        rcases List.mem_cons.mp he with rfl | hel
        · exact absurd het.symm ha
        · exact hel
      obtain ⟨e', he', h'⟩ := ih ⟨e, hel, het⟩
      refine ⟨e', ?_, h'⟩
      simp [resetFirst, ha, he']

theorem resetFirst_filter_other (t u : ActiveEffectType) (d : ℚ) (l : List ActiveEffect)
    (hu : u ≠ t) :
    (resetFirst t d l).filter (fun e => e.type == u) = l.filter (fun e => e.type == u) := by
  induction l with
  | nil => rfl
  | cons a l ih =>
    by_cases ha : t = a.type
    · have hau : (a.type == u) = false := by
        rw [← ha]
        simpa using hu.symm
      simp [resetFirst, ha, List.filter_cons, hau]
    · simp [resetFirst, ha, List.filter_cons, ih]

theorem resetFirst_filter_same (t : ActiveEffectType) (d : ℚ) (l : List ActiveEffect)
    (hnd : (l.map (fun e => e.type)).Nodup) (e : ActiveEffect) (he : e ∈ l) (het : e.type = t) :
    (resetFirst t d l).filter (fun x => x.type == t) = [{ e with remainingDuration := d }] := by
  induction l with
  | nil => simp at he
  | cons a l ih =>
    rw [List.map_cons, List.nodup_cons] at hnd
    by_cases ha : t = a.type
    · have hea : e = a := by
        rcases List.mem_cons.mp he with h | h
        · exact h
        · exact absurd (List.mem_map.mpr ⟨e, h, by rw [het, ha]⟩) hnd.1
      have hnil : l.filter (fun x => x.type == t) = [] := by
        rw [List.filter_eq_nil_iff]
        intro x hx hxt
        have hxt' : x.type = t := by simpa using hxt
        exact hnd.1 (List.mem_map.mpr ⟨x, hx, by rw [hxt', ha]⟩)
      subst hea
      have hr : resetFirst t d (e :: l) = { e with remainingDuration := d } :: l := by
        simp [resetFirst, ha]
      rw [hr, List.filter_cons_of_pos (by simp [het]), hnil]
    · have hel : e ∈ l := by
        rcases List.mem_cons.mp he with h | h
        · exact absurd (by rw [← h, het]) ha
        · exact h
      have hat : (a.type == t) = false := by simpa using fun h => ha h.symm
      simp only [resetFirst, ha, if_false, List.filter_cons, hat]
      exact ih hnd.2 hel

theorem AddOrResetDuration_has (t : ActiveEffectType) (d : ℚ) (s : ActiveEffectSet) :
    ∃ e ∈ (AddOrResetDuration t d s).container, e.type = t ∧ e.remainingDuration = d := by
  by_cases h : ∃ e ∈ s.container, e.type = t
  · rw [AddOrResetDuration_present t d s h]
    exact resetFirst_has t d _ h
  · push_neg at h
    rw [AddOrResetDuration_absent t d s h]
    exact ⟨{ type := t, remainingDuration := d, runningDuration := 0 }, by simp, rfl, rfl⟩

theorem AddOrResetDuration_filter_other (t u : ActiveEffectType) (d : ℚ) (s : ActiveEffectSet)
    (hu : u ≠ t) :
    (AddOrResetDuration t d s).container.filter (fun e => e.type == u) =
      s.container.filter (fun e => e.type == u) := by
  by_cases h : ∃ e ∈ s.container, e.type = t
  · rw [AddOrResetDuration_present t d s h]
    exact resetFirst_filter_other t u d _ hu
  · push_neg at h
    rw [AddOrResetDuration_absent t d s h]
    have : (t == u) = false := by simpa using hu.symm
    simp [List.filter_append, List.filter_cons, this]

theorem RemoveActiveEffect_filter_other (t u : ActiveEffectType) (s : ActiveEffectSet)
    (hu : u ≠ t) :
    (RemoveActiveEffect t s).2.container.filter (fun e => e.type == u) =
      s.container.filter (fun e => e.type == u) := by
  rw [RemoveActiveEffect_container, List.filter_filter]
  apply List.filter_congr
  intro x _
  by_cases hx : x.type = u
  · have : ¬ x.type = t := fun h => hu (hx ▸ h)
    simp [hx, this, hu]
  · simp [hx]

theorem not_mem_types_iff (t : ActiveEffectType) (s : ActiveEffectSet) :
    t ∉ types s ↔ ∀ e ∈ s.container, e.type ≠ t := by
  simp [types]

theorem RemoveActiveEffect_absent (t : ActiveEffectType) (s : ActiveEffectSet) :
    t ∉ types (RemoveActiveEffect t s).2 := by
  rw [types_RemoveActiveEffect]
  simp [List.mem_filter]

theorem mem_types_AddOrResetDuration (t u : ActiveEffectType) (d : ℚ) (s : ActiveEffectSet)
    (hu : u ≠ t) : u ∈ types (AddOrResetDuration t d s) ↔ u ∈ types s := by
  rw [types_AddOrResetDuration]
  split_ifs
  · rfl
  · simp [hu]

theorem mem_types_RemoveActiveEffect (t u : ActiveEffectType) (s : ActiveEffectSet)
    (hu : u ≠ t) : u ∈ types (RemoveActiveEffect t s).2 ↔ u ∈ types s := by
  rw [types_RemoveActiveEffect]
  simp [List.mem_filter, hu]

theorem AddOrResetDuration_all (t : ActiveEffectType) (d : ℚ) (s : ActiveEffectSet)
    (hnd : (types s).Nodup) :
    ∀ e ∈ (AddOrResetDuration t d s).container, e.type = t → e.remainingDuration = d := by
  intro e he het
  have hf : e ∈ (AddOrResetDuration t d s).container.filter (fun x => x.type == t) :=
    List.mem_filter.mpr ⟨he, by simp [het]⟩
  by_cases h : ∃ e ∈ s.container, e.type = t
  · obtain ⟨e0, he0, het0⟩ := h
    rw [AddOrResetDuration_present t d s ⟨e0, he0, het0⟩,
      resetFirst_filter_same t d _ hnd e0 he0 het0, List.mem_singleton] at hf
    rw [hf]
  · push_neg at h
    rw [AddOrResetDuration_absent t d s h] at he
    rcases List.mem_append.mp he with h1 | h1
    · exact absurd het (h e h1)
    · rw [List.mem_singleton] at h1
      rw [h1]

theorem AddActiveEffect_Burning_of_frozen (s : ActiveEffectSet)
    (h : ∃ e ∈ s.container, e.type = ActiveEffectType.Frozen) :
    AddActiveEffect .Burning s =
      AddOrResetDuration .Chilled 5 (RemoveActiveEffect .Frozen s).2 := by
  simp only [AddActiveEffect, (RemoveActiveEffect_removed _ s).mpr h, if_true]

theorem AddActiveEffect_Frozen_of_burning (s : ActiveEffectSet)
    (h : ∃ e ∈ s.container, e.type = ActiveEffectType.Burning) :
    AddActiveEffect .Frozen s =
      AddOrResetDuration .Chilled 5 (RemoveActiveEffect .Burning s).2 := by
  simp only [AddActiveEffect, (RemoveActiveEffect_removed _ s).mpr h, if_true]

theorem AddActiveEffect_Frozen_of_no_burning (s : ActiveEffectSet)
    (h : ∀ e ∈ s.container, e.type ≠ ActiveEffectType.Burning) :
    AddActiveEffect .Frozen s =
      AddOrResetDuration .Frozen 10 (RemoveActiveEffect .Chilled s).2 := by
  obtain ⟨h1, h2⟩ := RemoveActiveEffect_not_removed _ s h
  simp [AddActiveEffect, h1, h2]

theorem AddActiveEffect_Burning_of_chilled (s : ActiveEffectSet)
    (hc : ∃ e ∈ s.container, e.type = ActiveEffectType.Chilled)
    (hf : ∀ e ∈ s.container, e.type ≠ ActiveEffectType.Frozen) :
    AddActiveEffect .Burning s = (RemoveActiveEffect .Chilled s).2 := by
  obtain ⟨h1, h2⟩ := RemoveActiveEffect_not_removed _ s hf
  have h3 := (RemoveActiveEffect_removed .Chilled s).mpr hc
  simp [AddActiveEffect, h1, h2, h3]

/-! ## Ticks -/

theorem F32.add_exact (a b : ℚ) (n k : ℤ) (hn : |n| < 2 ^ 24) (h : a + b = (n : ℚ) * 2 ^ k) :
    F32.add a b = a + b := by
  unfold F32.add
  rw [h]
  exact F32.round24_exact n k hn

theorem F32.sub_exact (a b : ℚ) (n k : ℤ) (hn : |n| < 2 ^ 24) (h : a - b = (n : ℚ) * 2 ^ k) :
    F32.sub a b = a - b := by
  unfold F32.sub
  rw [h]
  exact F32.round24_exact n k hn

theorem F32.isNearest24_round24 (q : ℚ) : F32.IsNearest24 (F32.round24 q) q :=
  ⟨F32.round24_form q, fun n k hn => F32.round24_nearest q n k hn⟩

theorem F32.isF32_of_form (n k : ℤ) (hn : |n| < 2 ^ 24) (hk : -149 ≤ k) (hk2 : k ≤ 104) :
    F32.IsF32 ((n : ℚ) * 2 ^ k) := by
  refine ⟨F32.round_exact n k hn hk, ?_⟩
  have hn' : |(n : ℚ)| < 2 ^ 24 := by exact_mod_cast hn
  rw [abs_mul, abs_of_pos (F32.two_zpow_pos k)]
  have h1 : |(n : ℚ)| * 2 ^ k < 2 ^ 24 * 2 ^ k :=
    mul_lt_mul_of_pos_right hn' (F32.two_zpow_pos k)
  have h2 : (2 : ℚ) ^ 24 * 2 ^ k = 2 ^ (24 + k) := by
    rw [zpow_add₀ (by norm_num : (2 : ℚ) ≠ 0)]
    norm_num
  have h3 : (2 : ℚ) ^ (24 + k) ≤ 2 ^ (128 : ℤ) := by
    apply zpow_le_zpow_right₀ (by norm_num)
    omega
  have h4 : (2 : ℚ) ^ (128 : ℤ) = 2 ^ 128 := by norm_num
  linarith

/-- Every whole number from 0 to `2^24` is a binary32 value. -/
theorem F32.round24_int (m : ℤ) (h0 : 0 ≤ m) (h1 : m ≤ 2 ^ 24) :
    F32.round24 (m : ℚ) = (m : ℚ) := by
  rcases eq_or_lt_of_le h1 with h | h
  · have := F32.round24_exact 1 24 (by norm_num)
    rw [h]
    norm_num at this ⊢
    exact this
  · have := F32.round24_exact m 0 (by rw [abs_lt]; constructor <;> omega)
    simpa using this

/-- The sum `2^24 + 1` lies half-way between the binary32 values `2^24` and `2^24 + 2`
and goes to the one with the even significand. -/
theorem F32.round24_top : F32.round24 (2 ^ 24 + 1) = 2 ^ 24 := by
  have hz : F32.roundHalfEven ((2 ^ 24 + 1 : ℚ) / 2 ^ ((24 : ℤ) - 23)) = 2 ^ 23 := by
    have h := F32.roundHalfEven_tie (2 ^ 23)
    have e : (2 ^ 24 + 1 : ℚ) / 2 ^ ((24 : ℤ) - 23) = ((2 ^ 23 : ℤ) : ℚ) + 1 / 2 := by
      norm_num
    rw [e, h]
    norm_num
  have h := F32.round24_eval (2 ^ 24 + 1) 24 (2 ^ 23)
    (by rw [abs_of_pos (by norm_num)]; norm_num)
    (by rw [abs_of_pos (by norm_num)]; norm_num) hz
  rw [h]
  norm_num

/-- A running duration that repeated additions of steps of at most a second can reach
from 0: a binary32 value from 0 to `2^24`. -/
theorem F32.add_tame (r dt : ℚ) (hr0 : 0 ≤ r) (hr1 : r ≤ 2 ^ 24) (hr : F32.round24 r = r)
    (h0 : 0 ≤ dt) (h1 : dt ≤ 1) :
    (0 ≤ F32.add r dt ∧ F32.add r dt ≤ 2 ^ 24 ∧ F32.round24 (F32.add r dt) = F32.add r dt) ∧
    r ≤ F32.add r dt ∧ F32.add r dt ≤ ((⌈r⌉ : ℤ) : ℚ) + 1 := by
  have htop : F32.add r dt ≤ 2 ^ 24 := by
    have := F32.round24_mono (show r + dt ≤ 2 ^ 24 + 1 by linarith)
    rw [F32.round24_top] at this
    exact this
  have hge : r ≤ F32.add r dt := by
    have := F32.round24_mono (show r ≤ r + dt by linarith)
    rw [hr] at this
    exact this
  refine ⟨⟨le_trans hr0 hge, htop, F32.round24_idem _⟩, hge, ?_⟩
  have hc0 : 0 ≤ ⌈r⌉ := Int.ceil_nonneg hr0
  have hc1 : ⌈r⌉ ≤ 2 ^ 24 := by
    rw [Int.ceil_le]
    push_cast
    exact hr1
  rcases eq_or_lt_of_le hc1 with hc | hc
  · have : ((⌈r⌉ : ℤ) : ℚ) = 2 ^ 24 := by
      rw [hc]
      norm_num
    linarith
  · have hle : r + dt ≤ ((⌈r⌉ + 1 : ℤ) : ℚ) := by
      push_cast
      have := Int.le_ceil r
      linarith
    have := F32.round24_mono hle
    rw [F32.round24_int (⌈r⌉ + 1) (by omega) (by omega)] at this
    push_cast at this
    exact this

theorem UpdateEffect_flag (e : ActiveEffect) (dt : ℚ) :
    (UpdateEffect e dt).1 = true ↔
      ((⌈e.runningDuration⌉ : ℤ) : ℚ) < (UpdateEffect e dt).2.runningDuration := by
  simp [UpdateEffect, Int.le_ceil]

theorem UpdateEffect_flag_iff_boundary (e : ActiveEffect) (dt : ℚ) :
    (UpdateEffect e dt).1 = true ↔
      ∃ n : ℤ, e.runningDuration ≤ (n : ℚ) ∧ (n : ℚ) < (UpdateEffect e dt).2.runningDuration := by
  rw [UpdateEffect_flag]
  constructor
  · intro h
    exact ⟨⌈e.runningDuration⌉, Int.le_ceil _, h⟩
  · rintro ⟨n, h1, h2⟩
    have hc : ⌈e.runningDuration⌉ ≤ n := Int.ceil_le.mpr h1
    have hc' : ((⌈e.runningDuration⌉ : ℤ) : ℚ) ≤ (n : ℚ) := by exact_mod_cast hc
    exact lt_of_le_of_lt hc' h2

theorem UpdateEffect_first_tick (e : ActiveEffect) (dt : ℚ) (h0 : e.runningDuration = 0)
    (hdt : 0 < dt) : (UpdateEffect e dt).1 = true := by
  rw [UpdateEffect_flag, h0]
  have h : (UpdateEffect e dt).2.runningDuration = F32.round24 dt := by
    show F32.add e.runningDuration dt = F32.round24 dt
    rw [h0, F32.add, zero_add]
  rw [h]
  simpa using F32.round24_pos hdt

/-- The running durations reachable from 0 by steps of at most a second. -/
theorem UpdateEffect_tame (e : ActiveEffect) (dt : ℚ)
    (he : 0 ≤ e.runningDuration ∧ e.runningDuration ≤ 2 ^ 24 ∧
      F32.round24 e.runningDuration = e.runningDuration)
    (h0 : 0 ≤ dt) (h1 : dt ≤ 1) :
    (0 ≤ (UpdateEffect e dt).2.runningDuration ∧
      (UpdateEffect e dt).2.runningDuration ≤ 2 ^ 24 ∧
      F32.round24 (UpdateEffect e dt).2.runningDuration =
        (UpdateEffect e dt).2.runningDuration) ∧
    e.runningDuration ≤ (UpdateEffect e dt).2.runningDuration ∧
    (UpdateEffect e dt).2.runningDuration ≤ ((⌈e.runningDuration⌉ : ℤ) : ℚ) + 1 :=
  F32.add_tame e.runningDuration dt he.1 he.2.1 he.2.2 h0 h1

theorem ceil_step (e : ActiveEffect) (dt : ℚ)
    (he : 0 ≤ e.runningDuration ∧ e.runningDuration ≤ 2 ^ 24 ∧
      F32.round24 e.runningDuration = e.runningDuration)
    (h0 : 0 ≤ dt) (h1 : dt ≤ 1) :
    ⌈(UpdateEffect e dt).2.runningDuration⌉ =
      ⌈e.runningDuration⌉ + if (UpdateEffect e dt).1 = true then 1 else 0 := by
  obtain ⟨-, hge, hle⟩ := UpdateEffect_tame e dt he h0 h1
  split_ifs with h
  · rw [UpdateEffect_flag] at h
    apply le_antisymm
    · rw [Int.ceil_le]
      push_cast
      exact hle
    · have : ⌈e.runningDuration⌉ < ⌈(UpdateEffect e dt).2.runningDuration⌉ := Int.lt_ceil.mpr h
      omega
  · rw [UpdateEffect_flag] at h
    push_neg at h
    apply le_antisymm
    · rw [add_zero, Int.ceil_le]
      exact h
    · rw [add_zero]
      exact Int.ceil_mono hge

theorem updateCalls_mem (e : ActiveEffect) (dts : List ℚ)
    (he : 0 ≤ e.runningDuration ∧ e.runningDuration ≤ 2 ^ 24 ∧
      F32.round24 e.runningDuration = e.runningDuration)
    (hdt : ∀ dt ∈ dts, 0 ≤ dt ∧ dt ≤ 1)
    (c : ActiveEffect × Bool × ActiveEffect) (hc : c ∈ updateCalls e dts) :
    e.runningDuration ≤ c.1.runningDuration ∧
      (0 ≤ c.1.runningDuration ∧ c.1.runningDuration ≤ 2 ^ 24 ∧
        F32.round24 c.1.runningDuration = c.1.runningDuration) ∧
      ∃ dt ∈ dts, c.2.1 = (UpdateEffect c.1 dt).1 ∧ c.2.2 = (UpdateEffect c.1 dt).2 := by
  induction dts generalizing e with
  | nil => simp [updateCalls] at hc
  | cons d dts ih =>
    rw [updateCalls, List.mem_cons] at hc
    have hd := hdt d (List.mem_cons_self _ _)
    rcases hc with rfl | hc
    · exact ⟨le_refl _, he, d, List.mem_cons_self _ _, rfl, rfl⟩
    · obtain ⟨ht, hge, -⟩ := UpdateEffect_tame e d he hd.1 hd.2
      obtain ⟨h1, h2, dt, hmem, h3⟩ :=
        ih (UpdateEffect e d).2 ht (fun x hx => hdt x (List.mem_cons_of_mem _ hx)) hc
      exact ⟨le_trans hge h1, h2, dt, List.mem_cons_of_mem _ hmem, h3⟩

theorem updateCalls_boundary_once (e : ActiveEffect) (dts : List ℚ)
    (he : 0 ≤ e.runningDuration ∧ e.runningDuration ≤ 2 ^ 24 ∧
      F32.round24 e.runningDuration = e.runningDuration)
    (hdt : ∀ dt ∈ dts, 0 ≤ dt ∧ dt ≤ 1) (n : ℤ) (h1 : e.runningDuration ≤ (n : ℚ))
    (h2 : (n : ℚ) < (updateFinal e dts).runningDuration) :
    ((updateCalls e dts).filter (fun c => decide (passesBoundary c n))).length = 1 := by
  induction dts generalizing e with
  | nil =>
    simp only [updateFinal] at h2
    linarith
  | cons d dts ih =>
    have hdts : ∀ dt ∈ dts, 0 ≤ dt ∧ dt ≤ 1 := fun x hx => hdt x (List.mem_cons_of_mem _ hx)
    have hd := hdt d (List.mem_cons_self _ _)
    obtain ⟨ht, -, -⟩ := UpdateEffect_tame e d he hd.1 hd.2
    rw [updateCalls]
    by_cases hn : (n : ℚ) < (UpdateEffect e d).2.runningDuration
    · have hp : passesBoundary
          (e, (UpdateEffect e d).1, (UpdateEffect e d).2) n := ⟨h1, hn⟩
      rw [List.filter_cons_of_pos (by simpa using hp)]
      have hnil : (updateCalls (UpdateEffect e d).2 dts).filter
          (fun c => decide (passesBoundary c n)) = [] := by
        rw [List.filter_eq_nil_iff]
        intro c hc hpc
        have hpc' : passesBoundary c n := by simpa using hpc
        have := (updateCalls_mem _ dts ht hdts c hc).1
        have := hpc'.1
        linarith
      rw [hnil]
      rfl
    · have hp : ¬ passesBoundary
          (e, (UpdateEffect e d).1, (UpdateEffect e d).2) n := by
        rintro ⟨-, h⟩
        exact hn h
      rw [List.filter_cons_of_neg (by simpa using hp)]
      apply ih _ ht hdts
      · exact not_lt.mp hn
      · simpa [updateFinal] using h2

theorem updateCalls_count (e : ActiveEffect) (dts : List ℚ)
    (he : 0 ≤ e.runningDuration ∧ e.runningDuration ≤ 2 ^ 24 ∧
      F32.round24 e.runningDuration = e.runningDuration)
    (hdt : ∀ dt ∈ dts, 0 ≤ dt ∧ dt ≤ 1) :
    ((((updateCalls e dts).map (fun c => c.2.1)).count true : ℕ) : ℤ) =
      ⌈(updateFinal e dts).runningDuration⌉ - ⌈e.runningDuration⌉ := by
  induction dts generalizing e with
  | nil => simp [updateCalls, updateFinal]
  | cons d dts ih =>
    have hdts : ∀ dt ∈ dts, 0 ≤ dt ∧ dt ≤ 1 := fun x hx => hdt x (List.mem_cons_of_mem _ hx)
    have hd := hdt d (List.mem_cons_self _ _)
    obtain ⟨ht, -, -⟩ := UpdateEffect_tame e d he hd.1 hd.2
    have hstep := ceil_step e d he hd.1 hd.2
    have ih' := ih (UpdateEffect e d).2 ht hdts
    rw [updateCalls, updateFinal, List.map_cons, List.count_cons]
    push_cast
    rw [ih', hstep]
    by_cases hf : (UpdateEffect e d).1 = true
    · simp only [hf, if_true]
      simp
      omega
    · have hflag : (UpdateEffect e d).1 = false := by
        cases hb : (UpdateEffect e d).1
        · rfl
        · exact absurd hb hf
      simp only [hflag]
      simp

theorem updateCalls_flag_iff (e : ActiveEffect) (dts : List ℚ)
    (he : 0 ≤ e.runningDuration ∧ e.runningDuration ≤ 2 ^ 24 ∧
      F32.round24 e.runningDuration = e.runningDuration)
    (hdt : ∀ dt ∈ dts, 0 ≤ dt ∧ dt ≤ 1)
    (c : ActiveEffect × Bool × ActiveEffect) (hc : c ∈ updateCalls e dts) :
    c.2.1 = true ↔ ∃ n : ℤ, passesBoundary c n := by
  obtain ⟨-, -, dt, -, h1, h2⟩ := updateCalls_mem e dts he hdt c hc
  rw [h1, UpdateEffect_flag_iff_boundary]
  unfold passesBoundary
  rw [h2]

theorem updateCalls_boundary_unique (e : ActiveEffect) (dts : List ℚ)
    (he : 0 ≤ e.runningDuration ∧ e.runningDuration ≤ 2 ^ 24 ∧
      F32.round24 e.runningDuration = e.runningDuration)
    (hdt : ∀ dt ∈ dts, 0 ≤ dt ∧ dt ≤ 1)
    (c : ActiveEffect × Bool × ActiveEffect) (hc : c ∈ updateCalls e dts) (n m : ℤ)
    (hn : passesBoundary c n) (hm : passesBoundary c m) : n = m := by
  obtain ⟨-, ht, dt, hmem, -, h2⟩ := updateCalls_mem e dts he hdt c hc
  have hd := hdt dt hmem
  obtain ⟨-, -, hle⟩ := UpdateEffect_tame c.1 dt ht hd.1 hd.2
  unfold passesBoundary at hn hm
  rw [h2] at hn hm
  have hcn : ⌈c.1.runningDuration⌉ ≤ n := Int.ceil_le.mpr hn.1
  have hcm : ⌈c.1.runningDuration⌉ ≤ m := Int.ceil_le.mpr hm.1
  have h1 : (n : ℚ) < ((⌈c.1.runningDuration⌉ + 1 : ℤ) : ℚ) := by
    push_cast
    linarith [hn.2]
  have h2 : (m : ℚ) < ((⌈c.1.runningDuration⌉ + 1 : ℤ) : ℚ) := by
    push_cast
    linarith [hm.2]
  have h1' : n < ⌈c.1.runningDuration⌉ + 1 := by exact_mod_cast h1
  have h2' : m < ⌈c.1.runningDuration⌉ + 1 := by exact_mod_cast h2
  omega

/-! ## The interaction rules -/

/-- C1: after any finite sequence of `AddActiveEffect` calls (any types, `None` and
`Chilled` included) on the empty set, no two entries of the set have the same type and
no entry has type `None`. -/
theorem C1_addActiveEffects_invariant (effectTypes : List ActiveEffectType) :
    (addActiveEffects effectTypes { container := [] }).container.Pairwise
        (fun a b => a.type ≠ b.type) ∧
      ∀ e ∈ (addActiveEffects effectTypes { container := [] }).container,
        e.type ≠ ActiveEffectType.None := by
  have h := WellFormed_addActiveEffects effectTypes _ WellFormed_empty
  refine ⟨?_, ?_⟩
  · have h1 := h.1
    unfold types List.Nodup at h1
    exact (List.pairwise_map.mp h1)
  · intro e he heq
    exact h.2 (List.mem_map.mpr ⟨e, he, heq⟩)

/-- C2: on a set that holds a `Frozen` entry, `AddActiveEffect(Burning)` removes every
`Frozen` entry, leaves a `Chilled` entry whose `remainingDuration` is 5 (the only
`Chilled` entry when the set had at most one entry per type), and leaves the
`Burning` entries as they were, adding none; from the empty set, `Frozen` then
`Burning` gives exactly `{Chilled(5s)}`. -/
theorem C2_burning_on_frozen (s : ActiveEffectSet)
    (h : ∃ e ∈ s.container, e.type = ActiveEffectType.Frozen) :
    (∀ e ∈ (AddActiveEffect .Burning s).container, e.type ≠ ActiveEffectType.Frozen) ∧
    (∃ e ∈ (AddActiveEffect .Burning s).container,
      e.type = ActiveEffectType.Chilled ∧ e.remainingDuration = 5) ∧
    ((types s).Nodup → ∀ e ∈ (AddActiveEffect .Burning s).container,
      e.type = ActiveEffectType.Chilled → e.remainingDuration = 5) ∧
    (AddActiveEffect .Burning s).container.filter (fun e => e.type == ActiveEffectType.Burning) =
      s.container.filter (fun e => e.type == ActiveEffectType.Burning) ∧
    addActiveEffects [.Frozen, .Burning] { container := [] } =
      { container := [{ type := .Chilled, remainingDuration := 5, runningDuration := 0 }] } := by
  rw [AddActiveEffect_Burning_of_frozen s h]
  refine ⟨?_, AddOrResetDuration_has _ _ _, ?_, ?_, rfl⟩
  · rw [← not_mem_types_iff, mem_types_AddOrResetDuration _ _ _ _ (by decide)]
    exact RemoveActiveEffect_absent _ s
  · intro hnd
    apply AddOrResetDuration_all
    rw [types_RemoveActiveEffect]
    exact hnd.filter _
  · rw [AddOrResetDuration_filter_other _ _ _ _ (by decide),
      RemoveActiveEffect_filter_other _ _ _ (by decide)]

theorem C2_burning_on_frozen_witness :
    (∃ e ∈ (ActiveEffectSet.mk [⟨.Frozen, 7, 3⟩, ⟨.Poisoned, 2, 8⟩]).container,
        e.type = ActiveEffectType.Frozen) ∧
      (types ⟨[⟨.Frozen, 7, 3⟩, ⟨.Poisoned, 2, 8⟩]⟩).Nodup ∧
      (∀ e ∈ (AddActiveEffect .Burning ⟨[⟨.Frozen, 7, 3⟩, ⟨.Poisoned, 2, 8⟩]⟩).container,
        e.type = ActiveEffectType.Chilled → e.remainingDuration = 5) ∧
      addActiveEffects [.Frozen, .Burning] { container := [] } =
        { container := [{ type := .Chilled, remainingDuration := 5, runningDuration := 0 }] } :=
  ⟨⟨⟨.Frozen, 7, 3⟩, by simp, rfl⟩, by decide,
    (C2_burning_on_frozen ⟨[⟨.Frozen, 7, 3⟩, ⟨.Poisoned, 2, 8⟩]⟩
      ⟨⟨.Frozen, 7, 3⟩, by simp, rfl⟩).2.2.1 (by decide),
    (C2_burning_on_frozen ⟨[⟨.Frozen, 7, 3⟩, ⟨.Poisoned, 2, 8⟩]⟩
      ⟨⟨.Frozen, 7, 3⟩, by simp, rfl⟩).2.2.2.2⟩

/-- C3: on a set that holds a `Burning` entry, `AddActiveEffect(Frozen)` removes every
`Burning` entry, leaves a `Chilled` entry whose `remainingDuration` is 5 (the only
`Chilled` entry when the set had at most one entry per type), and leaves the
`Frozen` entries as they were, adding none; from the empty set, `Burning` then
`Frozen` gives exactly `{Chilled(5s)}`. -/
theorem C3_frozen_on_burning (s : ActiveEffectSet)
    (h : ∃ e ∈ s.container, e.type = ActiveEffectType.Burning) :
    (∀ e ∈ (AddActiveEffect .Frozen s).container, e.type ≠ ActiveEffectType.Burning) ∧
    (∃ e ∈ (AddActiveEffect .Frozen s).container,
      e.type = ActiveEffectType.Chilled ∧ e.remainingDuration = 5) ∧
    ((types s).Nodup → ∀ e ∈ (AddActiveEffect .Frozen s).container,
      e.type = ActiveEffectType.Chilled → e.remainingDuration = 5) ∧
    (AddActiveEffect .Frozen s).container.filter (fun e => e.type == ActiveEffectType.Frozen) =
      s.container.filter (fun e => e.type == ActiveEffectType.Frozen) ∧
    addActiveEffects [.Burning, .Frozen] { container := [] } =
      { container := [{ type := .Chilled, remainingDuration := 5, runningDuration := 0 }] } := by
  rw [AddActiveEffect_Frozen_of_burning s h]
  refine ⟨?_, AddOrResetDuration_has _ _ _, ?_, ?_, rfl⟩
  · rw [← not_mem_types_iff, mem_types_AddOrResetDuration _ _ _ _ (by decide)]
    exact RemoveActiveEffect_absent _ s
  · intro hnd
    apply AddOrResetDuration_all
    rw [types_RemoveActiveEffect]
    exact hnd.filter _
  · rw [AddOrResetDuration_filter_other _ _ _ _ (by decide),
      RemoveActiveEffect_filter_other _ _ _ (by decide)]

theorem C3_frozen_on_burning_witness :
    (∃ e ∈ (ActiveEffectSet.mk [⟨.Poisoned, 2, 8⟩, ⟨.Burning, 9, 1⟩]).container,
        e.type = ActiveEffectType.Burning) ∧
      (types ⟨[⟨.Poisoned, 2, 8⟩, ⟨.Burning, 9, 1⟩]⟩).Nodup ∧
      (∀ e ∈ (AddActiveEffect .Frozen ⟨[⟨.Poisoned, 2, 8⟩, ⟨.Burning, 9, 1⟩]⟩).container,
        e.type = ActiveEffectType.Chilled → e.remainingDuration = 5) ∧
      addActiveEffects [.Burning, .Frozen] { container := [] } =
        { container := [{ type := .Chilled, remainingDuration := 5, runningDuration := 0 }] } :=
  ⟨⟨⟨.Burning, 9, 1⟩, by simp, rfl⟩, by decide,
    (C3_frozen_on_burning ⟨[⟨.Poisoned, 2, 8⟩, ⟨.Burning, 9, 1⟩]⟩
      ⟨⟨.Burning, 9, 1⟩, by simp, rfl⟩).2.2.1 (by decide),
    (C3_frozen_on_burning ⟨[⟨.Poisoned, 2, 8⟩, ⟨.Burning, 9, 1⟩]⟩
      ⟨⟨.Burning, 9, 1⟩, by simp, rfl⟩).2.2.2.2⟩

/-- C4: on a set that holds a `Chilled` entry and no `Frozen` entry,
`AddActiveEffect(Burning)` yields exactly the entries that are not `Chilled`, unchanged
and in order: no `Chilled` entry is left, nothing is added (the `Burning` entries are
the ones that were there), and every other entry is kept as it was. -/
theorem C4_burning_on_chilled (s : ActiveEffectSet)
    (hc : ∃ e ∈ s.container, e.type = ActiveEffectType.Chilled)
    (hf : ∀ e ∈ s.container, e.type ≠ ActiveEffectType.Frozen) :
    (AddActiveEffect .Burning s).container =
      s.container.filter (fun e => !(e.type == ActiveEffectType.Chilled)) ∧
    (∀ e ∈ (AddActiveEffect .Burning s).container, e.type ≠ ActiveEffectType.Chilled) ∧
    (AddActiveEffect .Burning s).container.filter (fun e => e.type == ActiveEffectType.Burning) =
      s.container.filter (fun e => e.type == ActiveEffectType.Burning) ∧
    (∀ e, e.type ≠ ActiveEffectType.Chilled →
      (e ∈ (AddActiveEffect .Burning s).container ↔ e ∈ s.container)) := by
  rw [AddActiveEffect_Burning_of_chilled s hc hf]
  refine ⟨rfl, ?_, RemoveActiveEffect_filter_other _ _ _ (by decide), ?_⟩
  · rw [← not_mem_types_iff]
    exact RemoveActiveEffect_absent _ s
  · intro e he
    rw [RemoveActiveEffect_container, List.mem_filter]
    simp [he]

theorem C4_burning_on_chilled_witness :
    (∃ e ∈ (ActiveEffectSet.mk [⟨.Poisoned, 2, 8⟩, ⟨.Chilled, 3, 2⟩]).container,
        e.type = ActiveEffectType.Chilled) ∧
      (AddActiveEffect .Burning ⟨[⟨.Poisoned, 2, 8⟩, ⟨.Chilled, 3, 2⟩]⟩).container =
        [⟨.Poisoned, 2, 8⟩] :=
  ⟨⟨⟨.Chilled, 3, 2⟩, by simp, rfl⟩,
    (C4_burning_on_chilled ⟨[⟨.Poisoned, 2, 8⟩, ⟨.Chilled, 3, 2⟩]⟩
      ⟨⟨.Chilled, 3, 2⟩, by simp, rfl⟩ (by simp)).1⟩

/-- C5: on a set that holds no `Burning` entry, `AddActiveEffect(Frozen)` leaves no
`Chilled` entry and leaves a `Frozen` entry whose `remainingDuration` is 10 (the only
`Frozen` entry when the set had at most one entry per type); a set that is one
`Chilled` entry becomes exactly `{Frozen(10s)}`. -/
theorem C5_frozen_without_burning (s : ActiveEffectSet)
    (h : ∀ e ∈ s.container, e.type ≠ ActiveEffectType.Burning) :
    (∀ e ∈ (AddActiveEffect .Frozen s).container, e.type ≠ ActiveEffectType.Chilled) ∧
    (∃ e ∈ (AddActiveEffect .Frozen s).container,
      e.type = ActiveEffectType.Frozen ∧ e.remainingDuration = 10) ∧
    ((types s).Nodup → ∀ e ∈ (AddActiveEffect .Frozen s).container,
      e.type = ActiveEffectType.Frozen → e.remainingDuration = 10) ∧
    (∀ remaining running : ℚ,
      AddActiveEffect .Frozen
          { container := [{ type := .Chilled, remainingDuration := remaining,
                            runningDuration := running }] } =
        { container := [{ type := .Frozen, remainingDuration := 10, runningDuration := 0 }] }) := by
  rw [AddActiveEffect_Frozen_of_no_burning s h]
  refine ⟨?_, AddOrResetDuration_has _ _ _, ?_, fun _ _ => rfl⟩
  · rw [← not_mem_types_iff, mem_types_AddOrResetDuration _ _ _ _ (by decide)]
    exact RemoveActiveEffect_absent _ s
  · intro hnd
    apply AddOrResetDuration_all
    rw [types_RemoveActiveEffect]
    exact hnd.filter _

theorem C5_frozen_without_burning_witness :
    (∀ e ∈ (ActiveEffectSet.mk [⟨.Chilled, 3, 2⟩, ⟨.Frozen, 1, 9⟩]).container,
        e.type ≠ ActiveEffectType.Burning) ∧
      (types ⟨[⟨.Chilled, 3, 2⟩, ⟨.Frozen, 1, 9⟩]⟩).Nodup ∧
      (∀ e ∈ (AddActiveEffect .Frozen ⟨[⟨.Chilled, 3, 2⟩, ⟨.Frozen, 1, 9⟩]⟩).container,
        e.type = ActiveEffectType.Frozen → e.remainingDuration = 10) ∧
      (∀ e ∈ (AddActiveEffect .Frozen ⟨[⟨.Chilled, 3, 2⟩, ⟨.Frozen, 1, 9⟩]⟩).container,
        e.type ≠ ActiveEffectType.Chilled) :=
  ⟨by simp, by decide,
    (C5_frozen_without_burning ⟨[⟨.Chilled, 3, 2⟩, ⟨.Frozen, 1, 9⟩]⟩ (by simp)).2.2.1 (by decide),
    (C5_frozen_without_burning ⟨[⟨.Chilled, 3, 2⟩, ⟨.Frozen, 1, 9⟩]⟩ (by simp)).1⟩

/-- C6 (as stated, refuted): re-adding `Poisoned` to the set `{Poisoned(remaining 4s,
running 6s)}` gives `{Poisoned(remaining 10s, running 6s)}`: `runningDuration` is not
reset, so no `Poisoned` entry with `runningDuration` 0 is left. -/
theorem C6_poisoned_running_not_reset :
    AddActiveEffect .Poisoned
        { container := [{ type := .Poisoned, remainingDuration := 4, runningDuration := 6 }] } =
      { container := [{ type := .Poisoned, remainingDuration := 10, runningDuration := 6 }] } ∧
    ¬ ∃ e ∈ (AddActiveEffect .Poisoned
        { container := [{ type := .Poisoned, remainingDuration := 4,
                          runningDuration := 6 }] }).container,
      e.type = ActiveEffectType.Poisoned ∧ e.remainingDuration = 10 ∧ e.runningDuration = 0 := by
  have h : AddActiveEffect .Poisoned
        { container := [{ type := .Poisoned, remainingDuration := 4, runningDuration := 6 }] } =
      { container := [{ type := .Poisoned, remainingDuration := 10, runningDuration := 6 }] } :=
    rfl
  refine ⟨h, ?_⟩
  rw [h]
  rintro ⟨e, he, -, -, h0⟩
  rw [List.mem_singleton] at he
  rw [he] at h0
  norm_num at h0

/-- C6 (amended): on a set with at most one entry per type, `AddActiveEffect(Poisoned)`
leaves exactly one `Poisoned` entry, and its `remainingDuration` is 10; its
`runningDuration` is 0 when the set held no `Poisoned` entry, and is the
`runningDuration` of the `Poisoned` entry that was already there, unchanged, when it
held one. -/
theorem C6_poisoned_adds_or_resets_remaining (s : ActiveEffectSet) (hnd : (types s).Nodup) :
    (∃ e, (AddActiveEffect .Poisoned s).container.filter
        (fun x => x.type == ActiveEffectType.Poisoned) = [e] ∧ e.remainingDuration = 10) ∧
    ((∀ e ∈ s.container, e.type ≠ ActiveEffectType.Poisoned) →
      (AddActiveEffect .Poisoned s).container.filter
          (fun x => x.type == ActiveEffectType.Poisoned) =
        [{ type := .Poisoned, remainingDuration := 10, runningDuration := 0 }]) ∧
    (∀ e ∈ s.container, e.type = ActiveEffectType.Poisoned →
      (AddActiveEffect .Poisoned s).container.filter
          (fun x => x.type == ActiveEffectType.Poisoned) =
        [{ type := .Poisoned, remainingDuration := 10, runningDuration := e.runningDuration }]) := by
  have hadd : AddActiveEffect .Poisoned s = AddOrResetDuration .Poisoned 10 s := rfl
  have habs : (∀ e ∈ s.container, e.type ≠ ActiveEffectType.Poisoned) →
      (AddActiveEffect .Poisoned s).container.filter
          (fun x => x.type == ActiveEffectType.Poisoned) =
        [{ type := .Poisoned, remainingDuration := 10, runningDuration := 0 }] := by
    intro h
    rw [hadd, AddOrResetDuration_absent _ _ s h, List.filter_append]
    have hnil : s.container.filter (fun x => x.type == ActiveEffectType.Poisoned) = [] := by
      rw [List.filter_eq_nil_iff]
      intro x hx hxt
      exact h x hx (by simpa using hxt)
    rw [hnil]
    rfl
  have hpres : ∀ e ∈ s.container, e.type = ActiveEffectType.Poisoned →
      (AddActiveEffect .Poisoned s).container.filter
          (fun x => x.type == ActiveEffectType.Poisoned) =
        [{ type := .Poisoned, remainingDuration := 10, runningDuration := e.runningDuration }] := by
    intro e he het
    rw [hadd, AddOrResetDuration_present _ _ s ⟨e, he, het⟩,
      resetFirst_filter_same _ _ _ hnd e he het, het]
  refine ⟨?_, habs, hpres⟩
  by_cases h : ∃ e ∈ s.container, e.type = ActiveEffectType.Poisoned
  · obtain ⟨e, he, het⟩ := h
    exact ⟨_, hpres e he het, rfl⟩
  · push_neg at h
    exact ⟨_, habs h, rfl⟩

theorem C6_poisoned_adds_or_resets_remaining_witness :
    (types ⟨[⟨.Burning, 3, 7⟩, ⟨.Poisoned, 4, 6⟩]⟩).Nodup ∧
      (AddActiveEffect .Poisoned ⟨[⟨.Burning, 3, 7⟩, ⟨.Poisoned, 4, 6⟩]⟩).container.filter
          (fun x => x.type == ActiveEffectType.Poisoned) =
        [{ type := .Poisoned, remainingDuration := 10, runningDuration := 6 }] ∧
      (AddActiveEffect .Poisoned ⟨[]⟩).container.filter
          (fun x => x.type == ActiveEffectType.Poisoned) =
        [{ type := .Poisoned, remainingDuration := 10, runningDuration := 0 }] :=
  ⟨by decide,
    (C6_poisoned_adds_or_resets_remaining ⟨[⟨.Burning, 3, 7⟩, ⟨.Poisoned, 4, 6⟩]⟩
      (by decide)).2.2 ⟨.Poisoned, 4, 6⟩ (by simp) rfl,
    (C6_poisoned_adds_or_resets_remaining ⟨[]⟩ (by decide)).2.1 (by simp)⟩

/-! ## Ticking and expiry -/

theorem F32.round_ceil {q : ℚ} (h : F32.round q = q) :
    F32.round ((⌈q⌉ : ℤ) : ℚ) = ((⌈q⌉ : ℤ) : ℚ) := by
  obtain ⟨n, k, hn, hk149, hf⟩ := F32.form_of_fixed h
  by_cases hk : 0 ≤ k
  · obtain ⟨j, hj⟩ := Int.eq_ofNat_of_zero_le hk
    have hq : q = ((n * 2 ^ j : ℤ) : ℚ) := by
      rw [hf, hj, zpow_natCast]
      push_cast
      ring
    rw [hq, Int.ceil_intCast, ← hq, hf]
    exact F32.round_exact n k hn hk149
  · push_neg at hk
    have hn' : |(n : ℚ)| < 2 ^ 24 := by exact_mod_cast hn
    have hpk := F32.two_zpow_pos k
    have hk2 : (2 : ℚ) ^ k ≤ 2 ^ (-1 : ℤ) := by
      apply zpow_le_zpow_right₀ (by norm_num)
      omega
    have hq : |q| < 2 ^ 23 := by
      rw [hf, abs_mul, abs_of_pos hpk]
      have h1 : |(n : ℚ)| * 2 ^ k ≤ |(n : ℚ)| * 2 ^ (-1 : ℤ) :=
        mul_le_mul_of_nonneg_left hk2 (abs_nonneg _)
      have h2 : |(n : ℚ)| * 2 ^ (-1 : ℤ) < 2 ^ 24 * 2 ^ (-1 : ℤ) :=
        mul_lt_mul_of_pos_right hn' (F32.two_zpow_pos _)
      have h3 : (2 : ℚ) ^ 24 * 2 ^ (-1 : ℤ) = 2 ^ 23 := by norm_num
      linarith
    have hc : |⌈q⌉| < 2 ^ 24 := by
      rw [abs_lt] at hq ⊢
      have c1 := Int.le_ceil q
      have c2 := Int.ceil_lt_add_one q
      constructor
      · have : ((-(2 ^ 24) : ℤ) : ℚ) < (⌈q⌉ : ℚ) := by
          push_cast
          linarith
        exact_mod_cast this
      · have : (⌈q⌉ : ℚ) < ((2 ^ 24 : ℤ) : ℚ) := by
          push_cast
          linarith
        exact_mod_cast this
    have := F32.round_exact ⌈q⌉ 0 hc (by norm_num)
    simpa using this

/-- C7 (the failing input): an effect that has run for `2^24` seconds, updated with
`dt = 0.5` (all binary32 values): `runningDuration` stays `2^24`, which is not the old
value plus `dt`, and the call returns false although the sum `2^24 + 0.5` is above
`x = ceil(2^24)` and the old value is not above `x`. -/
theorem C7_running_is_not_the_sum :
    F32.IsF32 (2 ^ 24) ∧ F32.IsF32 (1 / 2) ∧ F32.IsF32 10 ∧
    (UpdateEffect ⟨.Burning, 10, 2 ^ 24⟩ (1 / 2)).2.runningDuration = 2 ^ 24 ∧
    (UpdateEffect ⟨.Burning, 10, 2 ^ 24⟩ (1 / 2)).2.runningDuration ≠ 2 ^ 24 + 1 / 2 ∧
    (UpdateEffect ⟨.Burning, 10, 2 ^ 24⟩ (1 / 2)).1 = false ∧
    ((2 ^ 24 + 1 / 2 : ℚ) > ((⌈(2 ^ 24 : ℚ)⌉ : ℤ) : ℚ) ∧
      (2 ^ 24 : ℚ) ≤ ((⌈(2 ^ 24 : ℚ)⌉ : ℤ) : ℚ)) := by
  have hz : F32.roundHalfEven ((2 ^ 24 + 1 / 2 : ℚ) / 2 ^ ((24 : ℤ) - 23)) = 2 ^ 23 := by
    apply F32.roundHalfEven_eq_of_lt
    norm_num [abs_lt]
  have hsum : F32.add (2 ^ 24) (1 / 2) = 2 ^ 24 := by
    have h := F32.round24_eval (2 ^ 24 + 1 / 2) 24 (2 ^ 23)
      (by rw [abs_of_pos (by norm_num)]; norm_num)
      (by rw [abs_of_pos (by norm_num)]; norm_num) hz
    unfold F32.add
    rw [h]
    norm_num
  have hrun : (UpdateEffect ⟨.Burning, 10, 2 ^ 24⟩ (1 / 2)).2.runningDuration = 2 ^ 24 := hsum
  have hceil : ⌈(2 ^ 24 : ℚ)⌉ = 2 ^ 24 := by
    have := Int.ceil_intCast (α := ℚ) (2 ^ 24)
    norm_num at this ⊢
  have f1 : F32.IsF32 (2 ^ 24) := by
    have := F32.isF32_of_form 1 24 (by norm_num) (by norm_num) (by norm_num)
    norm_num at this ⊢
    exact this
  have f2 : F32.IsF32 (1 / 2) := by
    have := F32.isF32_of_form 1 (-1) (by norm_num) (by norm_num) (by norm_num)
    norm_num at this ⊢
    exact this
  have f3 : F32.IsF32 10 := by
    have := F32.isF32_of_form 10 0 (by norm_num) (by norm_num) (by norm_num)
    norm_num at this ⊢
    exact this
  refine ⟨f1, f2, f3, hrun, ?_, ?_, ?_⟩
  · rw [hrun]
    norm_num
  · have hflag := UpdateEffect_flag ⟨.Burning, 10, 2 ^ 24⟩ (1 / 2)
    rw [hrun] at hflag
    cases hb : (UpdateEffect ⟨.Burning, 10, 2 ^ 24⟩ (1 / 2)).1
    · rfl
    · have := hflag.mp hb
      simp only [hceil] at this
      norm_num at this
  · rw [hceil]
    norm_num

/-- C7: `UpdateEffect` sets `remainingDuration` to the value with a 24-bit significand
nearest to the old value minus `dt`, and `runningDuration` to the one nearest to the old
value plus `dt`: for binary32 arguments these are the binary32 roundings of the
difference and of the sum, and they are the difference and the sum themselves where
those have a 24-bit significand. It returns true exactly when the new `runningDuration`
is above `x` and the old one is at most `x`, where `x = ceil(old runningDuration)` is a
binary32 value; the type is kept. -/
theorem C7_UpdateEffect_result (activeEffect : ActiveEffect) (dt : ℚ) :
    F32.IsNearest24 (UpdateEffect activeEffect dt).2.remainingDuration
      (activeEffect.remainingDuration - dt) ∧
    F32.IsNearest24 (UpdateEffect activeEffect dt).2.runningDuration
      (activeEffect.runningDuration + dt) ∧
    (F32.IsF32 activeEffect.remainingDuration → F32.IsF32 dt →
      (UpdateEffect activeEffect dt).2.remainingDuration =
        F32.round (activeEffect.remainingDuration - dt)) ∧
    (F32.IsF32 activeEffect.runningDuration → F32.IsF32 dt →
      (UpdateEffect activeEffect dt).2.runningDuration =
          F32.round (activeEffect.runningDuration + dt) ∧
        F32.round ((⌈activeEffect.runningDuration⌉ : ℤ) : ℚ) =
          ((⌈activeEffect.runningDuration⌉ : ℤ) : ℚ)) ∧
    ((∃ n k : ℤ, |n| < 2 ^ 24 ∧ activeEffect.remainingDuration - dt = (n : ℚ) * 2 ^ k) →
      (UpdateEffect activeEffect dt).2.remainingDuration =
        activeEffect.remainingDuration - dt) ∧
    ((∃ n k : ℤ, |n| < 2 ^ 24 ∧ activeEffect.runningDuration + dt = (n : ℚ) * 2 ^ k) →
      (UpdateEffect activeEffect dt).2.runningDuration =
        activeEffect.runningDuration + dt) ∧
    ((UpdateEffect activeEffect dt).1 = true ↔
      ((UpdateEffect activeEffect dt).2.runningDuration >
          ((⌈activeEffect.runningDuration⌉ : ℤ) : ℚ) ∧
        activeEffect.runningDuration ≤ ((⌈activeEffect.runningDuration⌉ : ℤ) : ℚ))) ∧
    (UpdateEffect activeEffect dt).2.type = activeEffect.type := by
  refine ⟨F32.isNearest24_round24 _, F32.isNearest24_round24 _, ?_, ?_, ?_, ?_, ?_, rfl⟩
  · intro h1 h2
    exact F32.sub_eq_round h1.1 h2.1
  · intro h1 h2
    exact ⟨F32.add_eq_round h1.1 h2.1, F32.round_ceil h1.1⟩
  · rintro ⟨n, k, hn, h⟩
    exact F32.sub_exact _ _ n k hn h
  · rintro ⟨n, k, hn, h⟩
    exact F32.add_exact _ _ n k hn h
  · simp [UpdateEffect]

theorem C7_UpdateEffect_result_witness :
    (F32.IsF32 10 ∧ F32.IsF32 (3 / 4) ∧ F32.IsF32 (1 / 2)) ∧
    (UpdateEffect ⟨.Burning, 10, 3 / 4⟩ (1 / 2)).2.remainingDuration = F32.round (10 - 1 / 2) ∧
    (UpdateEffect ⟨.Burning, 10, 3 / 4⟩ (1 / 2)).2.runningDuration = F32.round (3 / 4 + 1 / 2) ∧
    (UpdateEffect ⟨.Burning, 10, 3 / 4⟩ (1 / 2)).2.remainingDuration = 10 - 1 / 2 ∧
    (UpdateEffect ⟨.Burning, 10, 3 / 4⟩ (1 / 2)).2.runningDuration = 3 / 4 + 1 / 2 := by
  have f1 : F32.IsF32 10 := by
    have := F32.isF32_of_form 10 0 (by norm_num) (by norm_num) (by norm_num)
    norm_num at this ⊢
    exact this
  have f2 : F32.IsF32 (3 / 4) := by
    have := F32.isF32_of_form 3 (-2) (by norm_num) (by norm_num) (by norm_num)
    norm_num at this ⊢
    exact this
  have f3 : F32.IsF32 (1 / 2) := by
    have := F32.isF32_of_form 1 (-1) (by norm_num) (by norm_num) (by norm_num)
    norm_num at this ⊢
    exact this
  have h := C7_UpdateEffect_result ⟨.Burning, 10, 3 / 4⟩ (1 / 2)
  refine ⟨⟨f1, f2, f3⟩, h.2.2.1 f1 f3, (h.2.2.2.1 f2 f3).1, ?_, ?_⟩
  · exact h.2.2.2.2.1 ⟨19, -1, by norm_num, by norm_num⟩
  · exact h.2.2.2.2.2.1 ⟨5, -2, by norm_num, by norm_num⟩

/-- C8: for successive `UpdateEffect` calls on one effect that starts at
`runningDuration = 0`, with every `dt` in `(0, 1]`: a call returns true exactly when
it passes a whole-second boundary `n >= 0` (`old <= n < new`); a call passes at most
one boundary; every boundary `n` with `0 <= n < final runningDuration` is passed by
exactly one call, and that is the one call returning true for it; so the number of
true returns is the number of integers `n` with `0 <= n < final runningDuration`.
A single call with `dt > 1` that passes several boundaries returns true once. The old,
new and final `runningDuration` are the stored binary32 values. -/
theorem C8_one_tick_per_boundary (activeEffect : ActiveEffect) (dts : List ℚ)
    (h0 : activeEffect.runningDuration = 0) (hdt : ∀ dt ∈ dts, 0 < dt ∧ dt ≤ 1) :
    (∀ c ∈ updateCalls activeEffect dts,
      (c.2.1 = true ↔ ∃ n : ℤ, 0 ≤ n ∧ passesBoundary c n)) ∧
    (∀ c ∈ updateCalls activeEffect dts, ∀ n m : ℤ,
      passesBoundary c n → passesBoundary c m → n = m) ∧
    (∀ n : ℤ, 0 ≤ n → (n : ℚ) < (updateFinal activeEffect dts).runningDuration →
      ((updateCalls activeEffect dts).filter
          (fun c => decide (passesBoundary c n))).length = 1 ∧
      ((updateCalls activeEffect dts).filter
          (fun c => c.2.1 && decide (passesBoundary c n))).length = 1) ∧
    (∃ S : Finset ℤ,
      (∀ n : ℤ, n ∈ S ↔ 0 ≤ n ∧ (n : ℚ) < (updateFinal activeEffect dts).runningDuration) ∧
      ((updateCalls activeEffect dts).map (fun c => c.2.1)).count true = S.card) ∧
    (∀ (other : ActiveEffect) (dt : ℚ) (n m : ℤ), 1 < dt → n ≠ m →
      passesBoundary (other, (UpdateEffect other dt).1, (UpdateEffect other dt).2) n →
      passesBoundary (other, (UpdateEffect other dt).1, (UpdateEffect other dt).2) m →
      (updateCalls other [dt]).map (fun c => c.2.1) = [true]) := by
  have hnn : ∀ dt ∈ dts, 0 ≤ dt ∧ dt ≤ 1 := fun x hx => ⟨le_of_lt (hdt x hx).1, (hdt x hx).2⟩
  have he : 0 ≤ activeEffect.runningDuration ∧ activeEffect.runningDuration ≤ 2 ^ 24 ∧
      F32.round24 activeEffect.runningDuration = activeEffect.runningDuration := by
    rw [h0]
    exact ⟨le_refl _, by norm_num, F32.round24_zero⟩
  refine ⟨?_, ?_, ?_, ?_, ?_⟩
  · intro c hc
    rw [updateCalls_flag_iff activeEffect dts he hnn c hc]
    constructor
    · rintro ⟨n, hn⟩
      refine ⟨n, ?_, hn⟩
      have h1 := (updateCalls_mem activeEffect dts he hnn c hc).1
      rw [h0] at h1
      have h2 : (0 : ℚ) ≤ (n : ℚ) := le_trans h1 hn.1
      exact_mod_cast h2
    · rintro ⟨n, -, hn⟩
      exact ⟨n, hn⟩
  · intro c hc n m
    exact updateCalls_boundary_unique activeEffect dts he hnn c hc n m
  · intro n hn hlt
    have hone := updateCalls_boundary_once activeEffect dts he hnn n
      (by rw [h0]; exact_mod_cast hn) hlt
    refine ⟨hone, ?_⟩
    rw [← hone]
    congr 1
    apply List.filter_congr
    intro c hc
    by_cases hp : passesBoundary c n
    · have := (updateCalls_flag_iff activeEffect dts he hnn c hc).mpr ⟨n, hp⟩
      simp [this, hp]
    · simp [hp]
  · refine ⟨Finset.Ico 0 ⌈(updateFinal activeEffect dts).runningDuration⌉, ?_, ?_⟩
    · intro n
      rw [Finset.mem_Ico, Int.lt_ceil]
    · have hc := updateCalls_count activeEffect dts he hnn
      rw [h0, Int.ceil_zero, sub_zero] at hc
      rw [Int.card_Ico, sub_zero, ← hc, Int.toNat_ofNat]
  · intro other dt n m _ _ hn _
    have hflag : (UpdateEffect other dt).1 = true :=
      (UpdateEffect_flag_iff_boundary other dt).mpr ⟨n, hn.1, hn.2⟩
    simp [updateCalls, hflag]

theorem C8_one_tick_per_boundary_witness :
    (∀ dt ∈ [(1 / 2 : ℚ), 1 / 2, 1, 1 / 4], 0 < dt ∧ dt ≤ 1) ∧
      ((updateCalls ⟨.Burning, 10, 0⟩ [1 / 2, 1 / 2, 1, 1 / 4]).filter
          (fun c => c.2.1 && decide (passesBoundary c 1))).length = 1 ∧
      (∃ S : Finset ℤ,
        (∀ n : ℤ, n ∈ S ↔ 0 ≤ n ∧
          (n : ℚ) < (updateFinal ⟨.Burning, 10, 0⟩ [1 / 2, 1 / 2, 1, 1 / 4]).runningDuration) ∧
        ((updateCalls ⟨.Burning, 10, 0⟩ [1 / 2, 1 / 2, 1, 1 / 4]).map
          (fun c => c.2.1)).count true = S.card) ∧
      (0 : ℤ) = 0 ∧
      (updateCalls ⟨.Burning, 10, 1 / 2⟩ [5 / 2]).map (fun c => c.2.1) = [true] := by
  have hdts : ∀ dt ∈ [(1 / 2 : ℚ), 1 / 2, 1, 1 / 4], 0 < dt ∧ dt ≤ 1 := by
    intro dt hdt
    simp only [List.mem_cons, List.mem_singleton, List.not_mem_nil, or_false] at hdt
    rcases hdt with rfl | rfl | rfl | rfl <;> norm_num
  have e1 : F32.add 0 (1 / 2) = 1 / 2 := by
    rw [F32.add_exact 0 (1 / 2) 1 (-1) (by norm_num) (by norm_num)]
    norm_num
  have e2 : F32.add (1 / 2) (1 / 2) = 1 := by
    rw [F32.add_exact (1 / 2) (1 / 2) 1 0 (by norm_num) (by norm_num)]
    norm_num
  have e3 : F32.add 1 1 = 2 := by
    rw [F32.add_exact 1 1 2 0 (by norm_num) (by norm_num)]
    norm_num
  have e4 : F32.add 2 (1 / 4) = 9 / 4 := by
    rw [F32.add_exact 2 (1 / 4) 9 (-2) (by norm_num) (by norm_num)]
    norm_num
  have e5 : F32.add (1 / 2) (5 / 2) = 3 := by
    rw [F32.add_exact (1 / 2) (5 / 2) 3 0 (by norm_num) (by norm_num)]
    norm_num
  have h := C8_one_tick_per_boundary ⟨.Burning, 10, 0⟩ [1 / 2, 1 / 2, 1, 1 / 4] rfl hdts
  refine ⟨hdts, ?_, h.2.2.2.1, ?_, ?_⟩
  · refine (h.2.2.1 1 (by decide) ?_).2
    simp only [updateFinal, UpdateEffect, e1, e2, e3, e4]
    norm_num
  · refine h.2.1 (⟨.Burning, 10, 0⟩, (UpdateEffect ⟨.Burning, 10, 0⟩ (1 / 2)).1,
      (UpdateEffect ⟨.Burning, 10, 0⟩ (1 / 2)).2) (List.mem_cons_self _ _) 0 0 ?_ ?_ <;>
    (simp only [passesBoundary, UpdateEffect, e1]; norm_num)
  · refine h.2.2.2.2 ⟨.Burning, 10, 1 / 2⟩ (5 / 2) 1 2 (by norm_num) (by decide) ?_ ?_ <;>
    (simp only [passesBoundary, UpdateEffect, e5]; norm_num)

/-- C9: `RemoveExpiredEffects` yields exactly the entries whose `remainingDuration`
is above 0, unchanged and in their original order; a set without an entry of
`remainingDuration <= 0` is returned as it is; and running it twice gives what
running it once gives. -/
theorem C9_RemoveExpiredEffects_filter (effects : ActiveEffectSet) :
    (RemoveExpiredEffects effects).container =
      effects.container.filter (fun e => decide (0 < e.remainingDuration)) ∧
    ((∀ e ∈ effects.container, ¬ e.remainingDuration ≤ 0) →
      RemoveExpiredEffects effects = effects) ∧
    RemoveExpiredEffects (RemoveExpiredEffects effects) = RemoveExpiredEffects effects := by
  have hf : ∀ s : ActiveEffectSet, (RemoveExpiredEffects s).container =
      s.container.filter (fun e => decide (0 < e.remainingDuration)) := by
    intro s
    simp only [RemoveExpiredEffects]
    apply List.filter_congr
    intro x _
    by_cases h : 0 < x.remainingDuration
    · simp [h, not_le.mpr h]
    · simp [h, not_lt.mp h]
  refine ⟨hf effects, ?_, ?_⟩
  · intro h
    cases effects with
    | mk l =>
      simp only [RemoveExpiredEffects, ActiveEffectSet.mk.injEq]
      apply List.filter_eq_self.mpr
      intro a ha
      simpa using h a ha
  · cases effects with
    | mk l =>
      simp only [RemoveExpiredEffects, ActiveEffectSet.mk.injEq, List.filter_filter, Bool.and_self]

theorem C9_RemoveExpiredEffects_filter_witness :
    (∀ e ∈ (ActiveEffectSet.mk [⟨.Burning, 3, 7⟩, ⟨.Poisoned, 1 / 2, 19 / 2⟩]).container,
        ¬ e.remainingDuration ≤ 0) ∧
      RemoveExpiredEffects ⟨[⟨.Burning, 3, 7⟩, ⟨.Poisoned, 1 / 2, 19 / 2⟩]⟩ =
        ⟨[⟨.Burning, 3, 7⟩, ⟨.Poisoned, 1 / 2, 19 / 2⟩]⟩ := by
  have hyp : ∀ e ∈ (ActiveEffectSet.mk [⟨.Burning, 3, 7⟩, ⟨.Poisoned, 1 / 2, 19 / 2⟩]).container,
      ¬ e.remainingDuration ≤ 0 := by
    intro e he
    simp only [List.mem_cons, List.mem_singleton, List.not_mem_nil, or_false] at he
    rcases he with rfl | rfl <;> norm_num
  exact ⟨hyp, (C9_RemoveExpiredEffects_filter _).2.1 hyp⟩

/-- C10: `ApplyEffect(effect, damage)` on a `Burning` or `Poisoned` effect is one
`AddDamage(damage, 1)`, which adds exactly 1 point to a counter whose damage is not
negative; on a `Frozen` or `Chilled` effect it returns the counter unchanged; and
whenever it returns, `max` is what it was. -/
theorem C10_ApplyEffect_damage (activeEffect : ActiveEffect) (damage : DamageCount) :
    ((activeEffect.type = ActiveEffectType.Burning ∨
        activeEffect.type = ActiveEffectType.Poisoned) →
      ApplyEffect activeEffect damage = some (AddDamage damage 1) ∧
      (0 ≤ damage.damage → (AddDamage damage 1).damage = damage.damage + 1)) ∧
    ((activeEffect.type = ActiveEffectType.Frozen ∨
        activeEffect.type = ActiveEffectType.Chilled) →
      ApplyEffect activeEffect damage = some damage) ∧
    (∀ result, ApplyEffect activeEffect damage = some result → result.max = damage.max) := by
  refine ⟨?_, ?_, ?_⟩
  · intro h
    refine ⟨?_, ?_⟩
    · rcases h with h | h <;> simp [ApplyEffect, ApplyEffect_compiled, cassert, h]
    · intro hd
      simp only [AddDamage]
      omega
  · intro h
    rcases h with h | h <;> simp [ApplyEffect, ApplyEffect_compiled, cassert, h]
  · intro result h
    unfold ApplyEffect ApplyEffect_compiled at h
    split at h <;> first | (cases h; rfl) | cases h

theorem C10_ApplyEffect_damage_witness :
    ApplyEffect ⟨.Burning, 10, 0⟩ ⟨90, 100⟩ = some ⟨91, 100⟩ ∧
      ApplyEffect ⟨.Frozen, 10, 0⟩ ⟨90, 100⟩ = some ⟨90, 100⟩ ∧
      (⟨91, 100⟩ : DamageCount).max = 100 := by
  have h := C10_ApplyEffect_damage ⟨.Burning, 10, 0⟩ ⟨90, 100⟩
  have h1 := h.1 (Or.inl rfl)
  refine ⟨h1.1.trans ?_, (C10_ApplyEffect_damage ⟨.Frozen, 10, 0⟩ ⟨90, 100⟩).2.1 (Or.inl rfl),
    h.2.2 ⟨91, 100⟩ ?_⟩
  · rfl
  · rfl

/-! ## Assertions of effect application -/

/-- C11 (the failing input): compiled with `NDEBUG`, each of the three `ApplyEffect`
overloads returns normally on an effect of type `None` and leaves its argument as it
was: no assertion fails. -/
theorem C11_release_build_returns_on_None :
    ApplyEffect_compiled true ⟨.None, 3, 0⟩ ⟨0, 10⟩ = some ⟨0, 10⟩ ∧
    ApplyEffect_MovementSpeed_compiled true ⟨.None, 3, 0⟩ ⟨4, 1⟩ = some ⟨4, 1⟩ ∧
    ApplyEffect_RenderComponent_compiled true ⟨.None, 3, 0⟩ ⟨Color.rgb 1 2 3⟩ =
      some ⟨Color.rgb 1 2 3⟩ := by
  refine ⟨rfl, ?_, rfl⟩
  simp [ApplyEffect_MovementSpeed_compiled, cassert]

/-- C11: compiled with assertions enabled (`NDEBUG` not defined), applying an effect of
type `None` fails the assertion in each of the three `ApplyEffect` overloads (damage,
movement speed, presentation); compiled with `NDEBUG`, each of them returns normally on
such an effect and leaves its argument as it was; and in either build, for an effect of
any other type none of the three fails: each returns a result. -/
theorem C11_ApplyEffect_asserts_on_None (NDEBUG : Bool) (effect : ActiveEffect)
    (damage : DamageCount) (speed : MovementSpeed) (renderComponent : RenderComponent) :
    (effect.type = ActiveEffectType.None → NDEBUG = false →
      ApplyEffect_compiled NDEBUG effect damage = none ∧
      ApplyEffect_MovementSpeed_compiled NDEBUG effect speed = none ∧
      ApplyEffect_RenderComponent_compiled NDEBUG effect renderComponent = none) ∧
    (effect.type = ActiveEffectType.None → NDEBUG = true →
      ApplyEffect_compiled NDEBUG effect damage = some damage ∧
      ApplyEffect_MovementSpeed_compiled NDEBUG effect speed = some speed ∧
      ApplyEffect_RenderComponent_compiled NDEBUG effect renderComponent =
        some renderComponent) ∧
    (effect.type ≠ ActiveEffectType.None →
      (ApplyEffect_compiled NDEBUG effect damage).isSome = true ∧
      (ApplyEffect_MovementSpeed_compiled NDEBUG effect speed).isSome = true ∧
      (ApplyEffect_RenderComponent_compiled NDEBUG effect renderComponent).isSome = true) := by
  refine ⟨?_, ?_, ?_⟩
  · intro h hb
    subst hb
    simp [ApplyEffect_compiled, ApplyEffect_MovementSpeed_compiled,
      ApplyEffect_RenderComponent_compiled, cassert, h]
  · intro h hb
    subst hb
    simp [ApplyEffect_compiled, ApplyEffect_MovementSpeed_compiled,
      ApplyEffect_RenderComponent_compiled, cassert, h]
  · intro h
    refine ⟨?_, ?_, ?_⟩
    · cases ht : effect.type <;> simp_all [ApplyEffect_compiled]
    · unfold ApplyEffect_MovementSpeed_compiled cassert
      simp only [h, ne_eq, not_false_eq_true, decide_True, Bool.or_true, if_true,
        Option.some_bind]
      split_ifs <;> rfl
    · cases ht : effect.type <;> simp_all [ApplyEffect_RenderComponent_compiled]

theorem C11_ApplyEffect_asserts_on_None_witness :
    (ApplyEffect_compiled false ⟨.None, 3, 0⟩ ⟨0, 10⟩ = none ∧
      ApplyEffect_MovementSpeed_compiled false ⟨.None, 3, 0⟩ ⟨4, 1⟩ = none ∧
      ApplyEffect_RenderComponent_compiled false ⟨.None, 3, 0⟩ ⟨Color.rgb 1 2 3⟩ = none) ∧
    (ApplyEffect_compiled true ⟨.None, 3, 0⟩ ⟨0, 10⟩ = some ⟨0, 10⟩ ∧
      ApplyEffect_MovementSpeed_compiled true ⟨.None, 3, 0⟩ ⟨4, 1⟩ = some ⟨4, 1⟩ ∧
      ApplyEffect_RenderComponent_compiled true ⟨.None, 3, 0⟩ ⟨Color.rgb 1 2 3⟩ =
        some ⟨Color.rgb 1 2 3⟩) ∧
    ((ApplyEffect_compiled true ⟨.Chilled, 3, 0⟩ ⟨0, 10⟩).isSome = true ∧
      (ApplyEffect_MovementSpeed_compiled true ⟨.Chilled, 3, 0⟩ ⟨4, 1⟩).isSome = true ∧
      (ApplyEffect_RenderComponent_compiled true ⟨.Chilled, 3, 0⟩ ⟨Color.rgb 1 2 3⟩).isSome =
        true) :=
  ⟨(C11_ApplyEffect_asserts_on_None false ⟨.None, 3, 0⟩ ⟨0, 10⟩ ⟨4, 1⟩ ⟨Color.rgb 1 2 3⟩).1
      rfl rfl,
    (C11_ApplyEffect_asserts_on_None true ⟨.None, 3, 0⟩ ⟨0, 10⟩ ⟨4, 1⟩ ⟨Color.rgb 1 2 3⟩).2.1
      rfl rfl,
    (C11_ApplyEffect_asserts_on_None true ⟨.Chilled, 3, 0⟩ ⟨0, 10⟩ ⟨4, 1⟩
      ⟨Color.rgb 1 2 3⟩).2.2 (by decide)⟩

/-! ## The quiver -/

theorem set_eq_self_of_getElem? {α : Type} (l : List α) (i : Nat) (a : α)
    (h : l[i]? = some a) : l.set i a = l := by
  apply List.ext_getElem?
  intro j
  by_cases hij : i = j
  · subst hij
    rw [List.getElem?_set_self (List.getElem?_eq_some.mp h).1, h]
  · rw [List.getElem?_set_ne hij]

theorem QuarrelSlot.TakeQuarrel_cooling (slot : QuarrelSlot) (h : slot.cooldownRemaining > 0) :
    slot.TakeQuarrel = (none, slot) := by
  simp [QuarrelSlot.TakeQuarrel, CanTakeQuarrel, h]

theorem QuarrelSlot.TakeQuarrel_ready (slot : QuarrelSlot) (h : ¬ slot.cooldownRemaining > 0) :
    slot.TakeQuarrel = (some slot.type,
      { type := slot.type, cooldownTime := slot.type.cooldownTime,
        cooldownRemaining := slot.type.cooldownTime }) := by
  simp [QuarrelSlot.TakeQuarrel, CanTakeQuarrel, h]

theorem QuarrelSlot.TakeQuarrel_cooldown_ready (slot : QuarrelSlot) (cooldown : ℚ)
    (h : ¬ slot.cooldownRemaining > 0) :
    slot.TakeQuarrel_cooldown cooldown = (some slot.type,
      { type := slot.type, cooldownTime := cooldown, cooldownRemaining := cooldown }) := by
  simp [QuarrelSlot.TakeQuarrel_cooldown, CanTakeQuarrel, h]

theorem QuarrelSlot.TakeQuarrel_fst_eq_none (slot : QuarrelSlot) :
    (slot.TakeQuarrel).1 = none ↔ slot.cooldownRemaining > 0 := by
  by_cases h : slot.cooldownRemaining > 0
  · simp [QuarrelSlot.TakeQuarrel_cooling slot h, h]
  · simp [QuarrelSlot.TakeQuarrel_ready slot h, h]

theorem TakeQuarrel_in_range (quiver : PlayerQuiver) (i : Nat)
    (hi : i < quiver.MaxEquippedQuarrelTypes) :
    TakeQuarrel quiver (i : Int) =
      match quiver.quarrelSlots[i]? with
      | some (some slot) =>
        some ((slot.TakeQuarrel).1,
          { quarrelSlots := quiver.quarrelSlots.set i (some (slot.TakeQuarrel).2) })
      | _ => some (none, quiver) := by
  have h1 : ((i : Int) ≥ 0) := Int.natCast_nonneg i
  have h2 : ((i : Int) < (quiver.MaxEquippedQuarrelTypes : Int)) := by exact_mod_cast hi
  simp only [TakeQuarrel, h1, h2, not_true_eq_false, if_false, Int.toNat_ofNat]

theorem TakeQuarrel_of_slot (quiver : PlayerQuiver) (i : Nat) (slot : QuarrelSlot)
    (h : quiver.quarrelSlots[i]? = some (some slot)) :
    TakeQuarrel quiver (i : Int) =
      some ((slot.TakeQuarrel).1,
        { quarrelSlots := quiver.quarrelSlots.set i (some (slot.TakeQuarrel).2) }) := by
  rw [TakeQuarrel_in_range quiver i (List.getElem?_eq_some.mp h).1, h]

theorem TakeQuarrel_of_empty (quiver : PlayerQuiver) (i : Nat)
    (hi : i < quiver.MaxEquippedQuarrelTypes) (h : quiver.quarrelSlots[i]? = some none) :
    TakeQuarrel quiver (i : Int) = some (none, quiver) := by
  rw [TakeQuarrel_in_range quiver i hi, h]

/-- C12: for a slot index within the capacity, `TakeQuarrel` returns (no assertion
fails), and it returns empty exactly when the slot is unequipped or its
`cooldownRemaining` is above 0; when it returns empty the quiver is unchanged. -/
theorem C12_TakeQuarrel_empty_iff (quiver : PlayerQuiver) (i : Nat)
    (hi : i < quiver.MaxEquippedQuarrelTypes) :
    ∃ r, TakeQuarrel quiver (i : Int) = some r ∧
      (r.1 = none ↔
        (quiver.quarrelSlots[i]? = some none ∨
          ∃ slot, quiver.quarrelSlots[i]? = some (some slot) ∧ slot.cooldownRemaining > 0)) ∧
      (r.1 = none → r.2 = quiver) := by
  have hlen : i < quiver.quarrelSlots.length := hi
  rcases hs : quiver.quarrelSlots[i]? with _ | (_ | slot)
  · rw [List.getElem?_eq_none_iff] at hs
    omega
  · exact ⟨_, TakeQuarrel_of_empty quiver i hi hs, by simp, fun _ => rfl⟩
  · refine ⟨_, TakeQuarrel_of_slot quiver i slot hs, ?_, ?_⟩
    · simp [QuarrelSlot.TakeQuarrel_fst_eq_none]
    · intro hnone
      have hcool := (QuarrelSlot.TakeQuarrel_fst_eq_none slot).mp hnone
      simp only [QuarrelSlot.TakeQuarrel_cooling slot hcool, set_eq_self_of_getElem? _ _ _ hs]

theorem C12_TakeQuarrel_empty_iff_witness :
    (1 : Nat) < (PlayerQuiver.mk [none, some ⟨⟨"fire", 1 / 2, Color.Red, ⟨1, .Burning, .None⟩⟩,
        1 / 2, 1 / 4⟩]).MaxEquippedQuarrelTypes ∧
      ∃ r, TakeQuarrel ⟨[none, some ⟨⟨"fire", 1 / 2, Color.Red, ⟨1, .Burning, .None⟩⟩,
          1 / 2, 1 / 4⟩]⟩ ((1 : Nat) : Int) = some r ∧
        (r.1 = none → r.2 = ⟨[none, some ⟨⟨"fire", 1 / 2, Color.Red, ⟨1, .Burning, .None⟩⟩,
          1 / 2, 1 / 4⟩]⟩) := by
  have hi : (1 : Nat) < (PlayerQuiver.mk [none,
      some ⟨⟨"fire", 1 / 2, Color.Red, ⟨1, .Burning, .None⟩⟩,
        1 / 2, 1 / 4⟩]).MaxEquippedQuarrelTypes := by decide
  obtain ⟨r, h1, -, h3⟩ := C12_TakeQuarrel_empty_iff _ 1 hi
  exact ⟨hi, r, h1, h3⟩

theorem QuarrelSlot.TakeQuarrel_some (slot : QuarrelSlot) (q : QuarrelTypeInfo)
    (h : (slot.TakeQuarrel).1 = some q) :
    q = slot.type ∧ (slot.TakeQuarrel).2 =
      { type := slot.type, cooldownTime := slot.type.cooldownTime,
        cooldownRemaining := slot.type.cooldownTime } := by
  by_cases hc : slot.cooldownRemaining > 0
  · rw [QuarrelSlot.TakeQuarrel_cooling slot hc] at h
    cases h
  · rw [QuarrelSlot.TakeQuarrel_ready slot hc] at h ⊢
    exact ⟨(Option.some.inj h).symm, rfl⟩

theorem QuarrelSlot.TakeQuarrel_cooldown_some (slot : QuarrelSlot) (cooldown : ℚ)
    (q : QuarrelTypeInfo) (h : (slot.TakeQuarrel_cooldown cooldown).1 = some q) :
    q = slot.type ∧ (slot.TakeQuarrel_cooldown cooldown).2 =
      { type := slot.type, cooldownTime := cooldown, cooldownRemaining := cooldown } := by
  by_cases hc : slot.cooldownRemaining > 0
  · simp [QuarrelSlot.TakeQuarrel_cooldown, CanTakeQuarrel, hc] at h
  · rw [QuarrelSlot.TakeQuarrel_cooldown_ready slot cooldown hc] at h ⊢
    exact ⟨(Option.some.inj h).symm, rfl⟩

theorem TakeQuarrel_success (quiver quiver' : PlayerQuiver) (i : Nat) (slot : QuarrelSlot)
    (q : QuarrelTypeInfo) (hs : quiver.quarrelSlots[i]? = some (some slot))
    (hr : TakeQuarrel quiver (i : Int) = some (some q, quiver')) :
    q = slot.type ∧ quiver' =
      { quarrelSlots := quiver.quarrelSlots.set i
          (some { type := slot.type, cooldownTime := slot.type.cooldownTime,
                  cooldownRemaining := slot.type.cooldownTime }) } := by
  rw [TakeQuarrel_of_slot quiver i slot hs] at hr
  have hr' := Option.some.inj hr
  have h1 : (slot.TakeQuarrel).1 = some q := congrArg Prod.fst hr'
  have h2 : ({ quarrelSlots := quiver.quarrelSlots.set i (some (slot.TakeQuarrel).2) } :
      PlayerQuiver) = quiver' := congrArg Prod.snd hr'
  obtain ⟨hq, hslot⟩ := QuarrelSlot.TakeQuarrel_some slot q h1
  refine ⟨hq, ?_⟩
  rw [← h2, hslot]

/-- C13: a successful `TakeQuarrel` on an equipped slot returns that slot's type
descriptor and leaves the slot with the same type and with `cooldownTime` and
`cooldownRemaining` both equal to the type's own `cooldownTime`; every other slot of
the quiver is as it was. The overload `QuarrelSlot::TakeQuarrel(cooldown)`, when it
succeeds, returns the type and sets both to the supplied cooldown, keeping the type. -/
theorem C13_TakeQuarrel_success (quiver quiver' : PlayerQuiver) (i : Nat) (slot : QuarrelSlot)
    (q : QuarrelTypeInfo) (hs : quiver.quarrelSlots[i]? = some (some slot))
    (hr : TakeQuarrel quiver (i : Int) = some (some q, quiver')) :
    q = slot.type ∧
    quiver'.quarrelSlots[i]? =
      some (some { type := slot.type, cooldownTime := slot.type.cooldownTime,
                   cooldownRemaining := slot.type.cooldownTime }) ∧
    (∀ j, j ≠ i → quiver'.quarrelSlots[j]? = quiver.quarrelSlots[j]?) ∧
    quiver'.quarrelSlots.length = quiver.quarrelSlots.length ∧
    (∀ (cooldown : ℚ) (q2 : QuarrelTypeInfo),
      (slot.TakeQuarrel_cooldown cooldown).1 = some q2 →
      q2 = slot.type ∧ (slot.TakeQuarrel_cooldown cooldown).2 =
        { type := slot.type, cooldownTime := cooldown, cooldownRemaining := cooldown }) := by
  obtain ⟨hq, hq'⟩ := TakeQuarrel_success quiver quiver' i slot q hs hr
  have hi : i < quiver.quarrelSlots.length := (List.getElem?_eq_some.mp hs).1
  subst hq'
  refine ⟨hq, List.getElem?_set_self hi, ?_, List.length_set _ _ _, ?_⟩
  · intro j hj
    exact List.getElem?_set_ne (Ne.symm hj)
  · intro cooldown q2 h
    exact QuarrelSlot.TakeQuarrel_cooldown_some slot cooldown q2 h

theorem C13_TakeQuarrel_success_witness :
    TakeQuarrel ⟨[none, some ⟨fireType, 3, 0⟩]⟩ ((1 : Nat) : Int) =
      some (some fireType, ⟨[none, some ⟨fireType, 1 / 2, 1 / 2⟩]⟩) ∧
      (PlayerQuiver.mk [none, some ⟨fireType, 1 / 2, 1 / 2⟩]).quarrelSlots[0]? = some none ∧
      (QuarrelSlot.TakeQuarrel_cooldown ⟨fireType, 3, 0⟩ 2).2 = ⟨fireType, 2, 2⟩ := by
  have hr : TakeQuarrel ⟨[none, some ⟨fireType, 3, 0⟩]⟩ ((1 : Nat) : Int) =
      some (some fireType, ⟨[none, some ⟨fireType, 1 / 2, 1 / 2⟩]⟩) := by
    rw [TakeQuarrel_of_slot ⟨[none, some ⟨fireType, 3, 0⟩]⟩ 1 ⟨fireType, 3, 0⟩ rfl,
      QuarrelSlot.TakeQuarrel_ready ⟨fireType, 3, 0⟩ (by norm_num)]
    rfl
  have h := C13_TakeQuarrel_success ⟨[none, some ⟨fireType, 3, 0⟩]⟩
    ⟨[none, some ⟨fireType, 1 / 2, 1 / 2⟩]⟩ 1 ⟨fireType, 3, 0⟩ fireType rfl hr
  refine ⟨hr, h.2.2.1 0 (by decide), ?_⟩
  have hc : (QuarrelSlot.TakeQuarrel_cooldown ⟨fireType, 3, 0⟩ 2).1 = some fireType := by
    rw [QuarrelSlot.TakeQuarrel_cooldown_ready ⟨fireType, 3, 0⟩ 2 (by norm_num)]
  exact (h.2.2.2.2 2 fireType hc).2

/-- C14 (as stated, refuted): on a ready slot whose type has `cooldownTime` 0,
`TakeQuarrel` succeeds and leaves `cooldownRemaining` 0, so a second `TakeQuarrel`
right afterwards succeeds again instead of returning empty. -/
theorem C14_retake_succeeds_with_zero_cooldown :
    TakeQuarrel ⟨[some ⟨quickType, 0, 0⟩]⟩ ((0 : Nat) : Int) =
        some (some quickType, ⟨[some ⟨quickType, 0, 0⟩]⟩) ∧
      ¬ ∃ quiver', TakeQuarrel ⟨[some ⟨quickType, 0, 0⟩]⟩ ((0 : Nat) : Int) =
          some (some quickType, quiver') ∧
        ∃ quiver'', TakeQuarrel quiver' ((0 : Nat) : Int) = some (none, quiver'') := by
  have h : TakeQuarrel ⟨[some ⟨quickType, 0, 0⟩]⟩ ((0 : Nat) : Int) =
      some (some quickType, ⟨[some ⟨quickType, 0, 0⟩]⟩) := by
    rw [TakeQuarrel_of_slot ⟨[some ⟨quickType, 0, 0⟩]⟩ 0 ⟨quickType, 0, 0⟩ rfl,
      QuarrelSlot.TakeQuarrel_ready ⟨quickType, 0, 0⟩ (by norm_num)]
    rfl
  refine ⟨h, ?_⟩
  rintro ⟨quiver', h1, quiver'', h2⟩
  rw [h] at h1
  have hq : (⟨[some ⟨quickType, 0, 0⟩]⟩ : PlayerQuiver) = quiver' :=
    congrArg Prod.snd (Option.some.inj h1)
  rw [← hq, h] at h2
  have := congrArg Prod.fst (Option.some.inj h2)
  cases this

/-- C14 (amended): on an equipped slot with `cooldownRemaining = 0` whose type has a
`cooldownTime` above 0, `TakeQuarrel` succeeds, returning the slot's type, and a second
`TakeQuarrel` on the same slot right afterwards returns empty and leaves the quiver as
the first call left it. -/
theorem C14_take_then_retake_fails (quiver : PlayerQuiver) (i : Nat) (slot : QuarrelSlot)
    (hs : quiver.quarrelSlots[i]? = some (some slot))
    (h0 : slot.cooldownRemaining = 0) (hpos : slot.type.cooldownTime > 0) :
    ∃ quiver', TakeQuarrel quiver (i : Int) = some (some slot.type, quiver') ∧
      TakeQuarrel quiver' (i : Int) = some (none, quiver') := by
  have hi : i < quiver.quarrelSlots.length := (List.getElem?_eq_some.mp hs).1
  have hready : ¬ slot.cooldownRemaining > 0 := by rw [h0]; norm_num
  refine ⟨PlayerQuiver.mk (quiver.quarrelSlots.set i
      (some ⟨slot.type, slot.type.cooldownTime, slot.type.cooldownTime⟩)), ?_, ?_⟩
  · rw [TakeQuarrel_of_slot quiver i slot hs, QuarrelSlot.TakeQuarrel_ready slot hready]
  · have hs' : (PlayerQuiver.mk (quiver.quarrelSlots.set i
        (some { type := slot.type, cooldownTime := slot.type.cooldownTime,
                cooldownRemaining := slot.type.cooldownTime }))).quarrelSlots[i]? =
        some (some { type := slot.type, cooldownTime := slot.type.cooldownTime,
                     cooldownRemaining := slot.type.cooldownTime }) :=
      List.getElem?_set_self hi
    rw [TakeQuarrel_of_slot _ i _ hs', QuarrelSlot.TakeQuarrel_cooling _ hpos]
    simp only [set_eq_self_of_getElem? _ _ _ hs']

theorem C14_take_then_retake_fails_witness :
    (PlayerQuiver.mk [none, some ⟨fireType, 3, 0⟩]).quarrelSlots[1]? =
        some (some ⟨fireType, 3, 0⟩) ∧
      ∃ quiver', TakeQuarrel ⟨[none, some ⟨fireType, 3, 0⟩]⟩ ((1 : Nat) : Int) =
          some (some fireType, quiver') ∧
        TakeQuarrel quiver' ((1 : Nat) : Int) = some (none, quiver') :=
  ⟨rfl, C14_take_then_retake_fails ⟨[none, some ⟨fireType, 3, 0⟩]⟩ 1 ⟨fireType, 3, 0⟩ rfl rfl
    (by norm_num [fireType])⟩

theorem putQuarrelBackSlots_no_match (quarrel : QuarrelTypeInfo)
    (slots : List (Option QuarrelSlot))
    (h : ∀ slot, some slot ∈ slots → slot.type.effect ≠ quarrel.effect) :
    putQuarrelBackSlots quarrel slots = slots := by
  induction slots with
  | nil => rfl
  | cons a rest ih =>
    have ih' := ih (fun slot hm => h slot (List.mem_cons_of_mem _ hm))
    cases a with
    | none => simp [putQuarrelBackSlots, ih']
    | some slot =>
      have hne := h slot (List.mem_cons_self _ _)
      simp [putQuarrelBackSlots, hne, ih']

theorem putQuarrelBackSlots_first_match (quarrel : QuarrelTypeInfo)
    (slots : List (Option QuarrelSlot)) (i : Nat) (slot : QuarrelSlot)
    (hs : slots[i]? = some (some slot)) (he : slot.type.effect = quarrel.effect)
    (hfirst : ∀ j, j < i → ∀ s, slots[j]? = some (some s) → s.type.effect ≠ quarrel.effect) :
    putQuarrelBackSlots quarrel slots =
      slots.set i (some { slot with cooldownRemaining := 0 }) := by
  induction slots generalizing i with
  | nil => simp at hs
  | cons a rest ih =>
    cases i with
    | zero =>
      simp only [List.getElem?_cons_zero, Option.some.injEq] at hs
      subst hs
      simp [putQuarrelBackSlots, he, QuarrelSlot.ResetCooldown]
    | succ k =>
      simp only [List.getElem?_cons_succ] at hs
      have ih' := ih k hs (fun j hj s hjs => hfirst (j + 1) (by omega) s (by simpa using hjs))
      cases a with
      | none => simp [putQuarrelBackSlots, ih']
      | some s0 =>
        have hne := hfirst 0 (by omega) s0 (by simp)
        simp [putQuarrelBackSlots, hne, ih']

/-- C15 (as stated, refuted): with two cooling slots whose types share one effect and
differ in name and cooldown, `PutQuarrelBack` with the descriptor of the second slot
resets the first slot, whose type is not that descriptor, and leaves the second slot,
the only one whose type equals the descriptor, still cooling. -/
theorem C15_PutQuarrelBack_matches_effect_only :
    fireType ≠ emberType ∧
    PutQuarrelBack ⟨[some ⟨fireType, 1 / 2, 1 / 4⟩, some ⟨emberType, 2, 1⟩]⟩ emberType =
      ⟨[some ⟨fireType, 1 / 2, 0⟩, some ⟨emberType, 2, 1⟩]⟩ := by
  constructor
  · intro h
    have := congrArg QuarrelTypeInfo.name h
    simp [fireType, emberType] at this
  · rfl

/-- C15 (amended): `PutQuarrelBack` resets to 0 the `cooldownRemaining` of exactly the
first (lowest-index) equipped slot whose type has the same effect descriptor as the
given descriptor (name, cooldown time and colour are not compared), and changes no
other slot; if no equipped slot's type has that effect, the quiver is unchanged. -/
theorem C15_PutQuarrelBack_first_effect_match (quiver : PlayerQuiver)
    (quarrel : QuarrelTypeInfo) :
    (∀ (i : Nat) (slot : QuarrelSlot),
      quiver.quarrelSlots[i]? = some (some slot) →
      slot.type.effect = quarrel.effect →
      (∀ j, j < i → ∀ s, quiver.quarrelSlots[j]? = some (some s) →
        s.type.effect ≠ quarrel.effect) →
      PutQuarrelBack quiver quarrel =
          { quarrelSlots := quiver.quarrelSlots.set i
              (some { slot with cooldownRemaining := 0 }) } ∧
        (PutQuarrelBack quiver quarrel).quarrelSlots[i]? =
          some (some { slot with cooldownRemaining := 0 }) ∧
        ∀ j, j ≠ i →
          (PutQuarrelBack quiver quarrel).quarrelSlots[j]? = quiver.quarrelSlots[j]?) ∧
    ((∀ slot, some slot ∈ quiver.quarrelSlots → slot.type.effect ≠ quarrel.effect) →
      PutQuarrelBack quiver quarrel = quiver) := by
  constructor
  · intro i slot hs he hfirst
    have h := putQuarrelBackSlots_first_match quarrel quiver.quarrelSlots i slot hs he hfirst
    have hi : i < quiver.quarrelSlots.length := (List.getElem?_eq_some.mp hs).1
    refine ⟨?_, ?_, ?_⟩
    · simp only [PutQuarrelBack, h]
    · simp only [PutQuarrelBack, h]
      exact List.getElem?_set_self hi
    · intro j hj
      simp only [PutQuarrelBack, h]
      exact List.getElem?_set_ne (Ne.symm hj)
  · intro h
    simp only [PutQuarrelBack, putQuarrelBackSlots_no_match quarrel _ h]

theorem C15_PutQuarrelBack_first_effect_match_witness :
    PutQuarrelBack ⟨[none, some ⟨quickType, 0, 0⟩, some ⟨emberType, 2, 1⟩]⟩ fireType =
        ⟨[none, some ⟨quickType, 0, 0⟩, some ⟨emberType, 2, 0⟩]⟩ ∧
      PutQuarrelBack ⟨[none, some ⟨quickType, 0, 0⟩]⟩ fireType =
        ⟨[none, some ⟨quickType, 0, 0⟩]⟩ := by
  refine ⟨((C15_PutQuarrelBack_first_effect_match
      ⟨[none, some ⟨quickType, 0, 0⟩, some ⟨emberType, 2, 1⟩]⟩ fireType).1 2
      ⟨emberType, 2, 1⟩ rfl rfl ?_).1,
    (C15_PutQuarrelBack_first_effect_match ⟨[none, some ⟨quickType, 0, 0⟩]⟩ fireType).2 ?_⟩
  · intro j hj s hs
    have hj' : j = 0 ∨ j = 1 := by omega
    rcases hj' with rfl | rfl
    · simp at hs
    · simp only [List.getElem?_cons_succ, List.getElem?_cons_zero, Option.some.injEq] at hs
      subst hs
      decide
  · intro slot hm
    simp only [List.mem_cons, List.mem_singleton, List.not_mem_nil, or_false,
      Option.some.injEq] at hm
    rcases hm with hm | hm
    · cases hm
    · subst hm
      decide

/-- C16 (as stated, refuted): with the same type equipped in slots 0 and 1, both ready,
`TakeQuarrel` on slot 1 succeeds, and the following `PutQuarrelBack` of the returned
descriptor resets slot 0, the first slot with that effect: slot 1 keeps its
`cooldownRemaining` of half a second and `TakeQuarrel` on it returns empty. -/
theorem C16_refund_resets_an_earlier_slot :
    TakeQuarrel ⟨[some ⟨fireType, 1 / 2, 0⟩, some ⟨fireType, 1 / 2, 0⟩]⟩ ((1 : Nat) : Int) =
      some (some fireType, ⟨[some ⟨fireType, 1 / 2, 0⟩, some ⟨fireType, 1 / 2, 1 / 2⟩]⟩) ∧
    PutQuarrelBack ⟨[some ⟨fireType, 1 / 2, 0⟩, some ⟨fireType, 1 / 2, 1 / 2⟩]⟩ fireType =
      ⟨[some ⟨fireType, 1 / 2, 0⟩, some ⟨fireType, 1 / 2, 1 / 2⟩]⟩ ∧
    TakeQuarrel ⟨[some ⟨fireType, 1 / 2, 0⟩, some ⟨fireType, 1 / 2, 1 / 2⟩]⟩ ((1 : Nat) : Int) =
      some (none, ⟨[some ⟨fireType, 1 / 2, 0⟩, some ⟨fireType, 1 / 2, 1 / 2⟩]⟩) := by
  refine ⟨?_, rfl, ?_⟩
  · rw [TakeQuarrel_of_slot ⟨[some ⟨fireType, 1 / 2, 0⟩, some ⟨fireType, 1 / 2, 0⟩]⟩ 1
        ⟨fireType, 1 / 2, 0⟩ rfl,
      QuarrelSlot.TakeQuarrel_ready ⟨fireType, 1 / 2, 0⟩ (by norm_num)]
    rfl
  · rw [TakeQuarrel_of_slot ⟨[some ⟨fireType, 1 / 2, 0⟩, some ⟨fireType, 1 / 2, 1 / 2⟩]⟩ 1
        ⟨fireType, 1 / 2, 1 / 2⟩ rfl,
      QuarrelSlot.TakeQuarrel_cooling ⟨fireType, 1 / 2, 1 / 2⟩ (by norm_num)]
    rfl

/-- C16 (amended): when `TakeQuarrel` succeeds on slot `i` returning the descriptor `q`,
and no equipped slot of lower index has the same effect descriptor as slot `i`, the
following `PutQuarrelBack(quiver, q)` leaves slot `i` with its type and with
`cooldownRemaining = 0`, and `TakeQuarrel` on slot `i` then succeeds again returning
`q`, whichever index `i` is. -/
theorem C16_refund_round_trip (quiver quiver' : PlayerQuiver) (i : Nat) (slot : QuarrelSlot)
    (q : QuarrelTypeInfo) (hs : quiver.quarrelSlots[i]? = some (some slot))
    (hr : TakeQuarrel quiver (i : Int) = some (some q, quiver'))
    (hfirst : ∀ j, j < i → ∀ s, quiver.quarrelSlots[j]? = some (some s) →
      s.type.effect ≠ slot.type.effect) :
    (PutQuarrelBack quiver' q).quarrelSlots[i]? =
      some (some { type := q, cooldownTime := q.cooldownTime, cooldownRemaining := 0 }) ∧
    ∃ quiver'', TakeQuarrel (PutQuarrelBack quiver' q) (i : Int) = some (some q, quiver'') := by
  obtain ⟨hq, hq'⟩ := TakeQuarrel_success quiver quiver' i slot q hs hr
  have hi : i < quiver.quarrelSlots.length := (List.getElem?_eq_some.mp hs).1
  subst hq
  have hs' : quiver'.quarrelSlots[i]? =
      some (some ⟨slot.type, slot.type.cooldownTime, slot.type.cooldownTime⟩) := by
    rw [hq']
    exact List.getElem?_set_self hi
  have hfirst' : ∀ j, j < i → ∀ s, quiver'.quarrelSlots[j]? = some (some s) →
      s.type.effect ≠ slot.type.effect := by
    intro j hj s hjs
    rw [hq'] at hjs
    have hne : i ≠ j := by omega
    have hjs' : quiver.quarrelSlots[j]? = some (some s) := by
      rw [← hjs]
      exact (List.getElem?_set_ne hne).symm
    exact hfirst j hj s hjs'
  have hput := (putQuarrelBackSlots_first_match slot.type quiver'.quarrelSlots i
    ⟨slot.type, slot.type.cooldownTime, slot.type.cooldownTime⟩ hs' rfl hfirst')
  have hi' : i < quiver'.quarrelSlots.length := (List.getElem?_eq_some.mp hs').1
  have hslot : (PutQuarrelBack quiver' slot.type).quarrelSlots[i]? =
      some (some ⟨slot.type, slot.type.cooldownTime, 0⟩) := by
    simp only [PutQuarrelBack, hput]
    exact List.getElem?_set_self hi'
  refine ⟨hslot, ?_⟩
  rw [TakeQuarrel_of_slot _ i _ hslot,
    QuarrelSlot.TakeQuarrel_ready ⟨slot.type, slot.type.cooldownTime, 0⟩ (by norm_num)]
  exact ⟨_, rfl⟩

theorem C16_refund_round_trip_witness :
    TakeQuarrel ⟨[some ⟨quickType, 0, 0⟩, some ⟨fireType, 1 / 2, 0⟩]⟩ ((1 : Nat) : Int) =
      some (some fireType, ⟨[some ⟨quickType, 0, 0⟩, some ⟨fireType, 1 / 2, 1 / 2⟩]⟩) ∧
    (PutQuarrelBack ⟨[some ⟨quickType, 0, 0⟩, some ⟨fireType, 1 / 2, 1 / 2⟩]⟩
        fireType).quarrelSlots[1]? =
      some (some { type := fireType, cooldownTime := fireType.cooldownTime,
                   cooldownRemaining := 0 }) := by
  have hr : TakeQuarrel ⟨[some ⟨quickType, 0, 0⟩, some ⟨fireType, 1 / 2, 0⟩]⟩
      ((1 : Nat) : Int) =
      some (some fireType, ⟨[some ⟨quickType, 0, 0⟩, some ⟨fireType, 1 / 2, 1 / 2⟩]⟩) := by
    rw [TakeQuarrel_of_slot ⟨[some ⟨quickType, 0, 0⟩, some ⟨fireType, 1 / 2, 0⟩]⟩ 1
        ⟨fireType, 1 / 2, 0⟩ rfl,
      QuarrelSlot.TakeQuarrel_ready ⟨fireType, 1 / 2, 0⟩ (by norm_num)]
    rfl
  refine ⟨hr, (C16_refund_round_trip ⟨[some ⟨quickType, 0, 0⟩, some ⟨fireType, 1 / 2, 0⟩]⟩
    ⟨[some ⟨quickType, 0, 0⟩, some ⟨fireType, 1 / 2, 1 / 2⟩]⟩ 1 ⟨fireType, 1 / 2, 0⟩ fireType
    rfl hr ?_).1⟩
  intro j hj s hjs
  have hj0 : j = 0 := by omega
  subst hj0
  simp only [List.getElem?_cons_zero, Option.some.injEq] at hjs
  subst hjs
  decide

/-! ## Documents -/

theorem from_json_to_json_CrossbowBoltEffect (conv : JsonConversions) (h : conv.RoundTrip)
    (effect : CrossbowBoltEffect) :
    from_json_CrossbowBoltEffect conv (to_json_CrossbowBoltEffect conv effect) = some effect := by
  have e1 : ("immediateDamage" == "appliesEffect") = false := by decide
  have e2 : ("immediateDamage" == "specialEffect") = false := by decide
  have e3 : ("appliesEffect" == "specialEffect") = false := by decide
  have e4 : ("appliesEffect" == "immediateDamage") = false := by decide
  have e5 : ("specialEffect" == "immediateDamage") = false := by decide
  have e6 : ("specialEffect" == "appliesEffect") = false := by decide
  simp [from_json_CrossbowBoltEffect, to_json_CrossbowBoltEffect, Json.atKey, List.lookup,
    Json.get_int, h.2.1 effect.appliesEffect, h.2.2 effect.specialEffect, e1, e2, e3, e4, e5, e6]

theorem from_json_to_json_QuarrelTypeInfo (conv : JsonConversions) (h : conv.RoundTrip)
    (quarrelType : QuarrelTypeInfo) :
    from_json_QuarrelTypeInfo conv (to_json_QuarrelTypeInfo conv quarrelType) =
      some quarrelType := by
  have e1 : ("cooldownTime" == "name") = false := by decide
  have e2 : ("colour" == "name") = false := by decide
  have e3 : ("colour" == "cooldownTime") = false := by decide
  have e4 : ("effect" == "name") = false := by decide
  have e5 : ("effect" == "cooldownTime") = false := by decide
  have e6 : ("effect" == "colour") = false := by decide
  simp [from_json_QuarrelTypeInfo, to_json_QuarrelTypeInfo, Json.atKey, Json.value_float,
    List.lookup, Json.get_string, Json.get_float, h.1 quarrelType.colour,
    from_json_to_json_CrossbowBoltEffect conv h quarrelType.effect, e1, e2, e3, e4, e5, e6]

theorem set_length_append {α : Type} (pre : List α) (x y : α) (tl : List α) :
    (pre ++ x :: tl).set pre.length y = pre ++ y :: tl := by
  induction pre with
  | nil => rfl
  | cons a pre ih => simp [ih]

theorem from_json_slots_to_json (conv : JsonConversions) (h : conv.RoundTrip)
    (slots pre : List (Option QuarrelSlot)) :
    from_json_slots conv (slots.map (slotJson conv)) pre.length
        (pre ++ List.replicate slots.length none) =
      .ok { quarrelSlots :=
        pre ++ slots.map (Option.map (fun s => QuarrelSlot.ofType s.type)) } := by
  induction slots generalizing pre with
  | nil => simp [from_json_slots]
  | cons a rest ih =>
    have ih' := ih (pre ++ [a.map (fun s => QuarrelSlot.ofType s.type)])
    simp only [List.length_append, List.length_singleton, List.append_assoc,
      List.singleton_append] at ih'
    cases a with
    | none =>
      simp only [List.map_cons, slotJson, List.length_cons, List.replicate_succ,
        from_json_slots, Json.empty, Bool.not_true, Bool.false_eq_true, if_false, Option.map_none']
      exact ih'
    | some s =>
      have hlt : pre.length < (pre ++ none :: List.replicate rest.length none).length := by
        simp
      simp only [List.map_cons, slotJson, List.length_cons, List.replicate_succ,
        from_json_slots, Json.empty, List.isEmpty_cons, Bool.not_false, if_true, Json.atKey,
        List.lookup, beq_self_eq_true, Option.some_bind,
        from_json_to_json_QuarrelTypeInfo conv h s.type, hlt, set_length_append,
        Option.map_some']
      exact ih'

theorem from_json_to_json_PlayerQuiver (conv : JsonConversions) (h : conv.RoundTrip)
    (quiver : PlayerQuiver) :
    from_json_PlayerQuiver conv (to_json_PlayerQuiver conv quiver)
        (PlayerQuiver.default quiver.MaxEquippedQuarrelTypes) =
      .ok { quarrelSlots :=
        quiver.quarrelSlots.map (Option.map (fun s => QuarrelSlot.ofType s.type)) } := by
  cases quiver with
  | mk slots =>
    cases slots with
    | nil => rfl
    | cons a rest =>
      have := from_json_slots_to_json conv h (a :: rest) []
      simpa [to_json_PlayerQuiver, from_json_PlayerQuiver, PlayerQuiver.default,
        PlayerQuiver.MaxEquippedQuarrelTypes] using this

theorem QuarrelSlot.TakeQuarrel_keeps_valid (slot : QuarrelSlot) (hv : slot.Valid)
    (h0 : 0 ≤ slot.type.cooldownTime) : (slot.TakeQuarrel).2.Valid := by
  by_cases hc : slot.cooldownRemaining > 0
  · rw [QuarrelSlot.TakeQuarrel_cooling slot hc]
    exact hv
  · rw [QuarrelSlot.TakeQuarrel_ready slot hc]
    exact ⟨h0, le_refl _⟩

theorem QuarrelSlot.TakeQuarrel_type (slot : QuarrelSlot) :
    (slot.TakeQuarrel).2.type = slot.type := by
  by_cases hc : slot.cooldownRemaining > 0
  · rw [QuarrelSlot.TakeQuarrel_cooling slot hc]
  · rw [QuarrelSlot.TakeQuarrel_ready slot hc]

theorem TakeQuarrel_valid (quiver quiver' : PlayerQuiver) (slotIndex : Int)
    (r : Option QuarrelTypeInfo) (hv : quiver.Valid)
    (hr : TakeQuarrel quiver slotIndex = some (r, quiver')) :
    ∀ slot, some slot ∈ quiver'.quarrelSlots → 0 ≤ slot.type.cooldownTime → slot.Valid := by
  intro slot hm h0
  unfold TakeQuarrel at hr
  split_ifs at hr
  split at hr
  · rename_i s hs
    have hq : PlayerQuiver.mk (quiver.quarrelSlots.set slotIndex.toNat
        (some (s.TakeQuarrel).2)) = quiver' :=
      congrArg Prod.snd (Option.some.inj hr)
    rw [← hq] at hm
    rcases List.mem_or_eq_of_mem_set hm with hm' | hm'
    · exact hv slot hm'
    · have hsl : slot = (s.TakeQuarrel).2 := Option.some.inj hm'
      have hs_mem : some s ∈ quiver.quarrelSlots := List.getElem?_mem hs
      rw [hsl] at h0 ⊢
      rw [QuarrelSlot.TakeQuarrel_type] at h0
      exact QuarrelSlot.TakeQuarrel_keeps_valid s (hv s hs_mem) h0
  · have hq : quiver = quiver' := congrArg Prod.snd (Option.some.inj hr)
    rw [← hq] at hm
    exact hv slot hm

theorem putQuarrelBackSlots_cons_match (quarrel : QuarrelTypeInfo) (s : QuarrelSlot)
    (rest : List (Option QuarrelSlot)) (h : s.type.effect = quarrel.effect) :
    putQuarrelBackSlots quarrel (some s :: rest) = some s.ResetCooldown :: rest := by
  simp [putQuarrelBackSlots, h]

theorem putQuarrelBackSlots_cons_skip (quarrel : QuarrelTypeInfo) (s : QuarrelSlot)
    (rest : List (Option QuarrelSlot)) (h : s.type.effect ≠ quarrel.effect) :
    putQuarrelBackSlots quarrel (some s :: rest) =
      some s :: putQuarrelBackSlots quarrel rest := by
  simp [putQuarrelBackSlots, h]

theorem putQuarrelBackSlots_valid (quarrel : QuarrelTypeInfo)
    (slots : List (Option QuarrelSlot))
    (hv : ∀ slot, some slot ∈ slots → slot.Valid) :
    ∀ slot, some slot ∈ putQuarrelBackSlots quarrel slots → slot.Valid := by
  induction slots with
  | nil => simp [putQuarrelBackSlots]
  | cons a rest ih =>
    have hrest : ∀ slot, some slot ∈ rest → slot.Valid :=
      fun slot hm => hv slot (List.mem_cons_of_mem _ hm)
    intro slot hm
    cases a with
    | none =>
      simp only [putQuarrelBackSlots, List.mem_cons] at hm
      rcases hm with hm | hm
      · cases hm
      · exact ih hrest slot hm
    | some s =>
      have hs : s.Valid := hv s (List.mem_cons_self _ _)
      by_cases he : s.type.effect = quarrel.effect
      · rw [putQuarrelBackSlots_cons_match quarrel s rest he, List.mem_cons] at hm
        rcases hm with hm | hm
        · rw [Option.some.inj hm]
          exact ⟨le_refl _, le_trans hs.1 hs.2⟩
        · exact hrest slot hm
      · rw [putQuarrelBackSlots_cons_skip quarrel s rest he, List.mem_cons] at hm
        rcases hm with hm | hm
        · rw [Option.some.inj hm]
          exact hs
        · exact ih hrest slot hm

theorem from_json_slots_valid (conv : JsonConversions) (elements : List Json) (slotIndex : Nat)
    (slots : List (Option QuarrelSlot)) (loaded : PlayerQuiver)
    (hv : ∀ slot, some slot ∈ slots → 0 ≤ slot.type.cooldownTime → slot.Valid)
    (hr : from_json_slots conv elements slotIndex slots = .ok loaded) :
    ∀ slot, some slot ∈ loaded.quarrelSlots → 0 ≤ slot.type.cooldownTime → slot.Valid := by
  induction elements generalizing slotIndex slots with
  | nil =>
    simp only [from_json_slots, FromJsonResult.ok.injEq] at hr
    rw [← hr]
    exact hv
  | cons element rest ih =>
    rw [from_json_slots] at hr
    by_cases hempty : element.empty = true
    · simp only [hempty, Bool.not_true, Bool.false_eq_true, if_false] at hr
      exact ih _ _ hv hr
    · have hne : element.empty = false := by simpa using hempty
      simp only [hne, Bool.not_false, if_true] at hr
      cases ht : (element.atKey "quarrelType").bind (from_json_QuarrelTypeInfo conv) with
      | none =>
        rw [ht] at hr
        cases hr
      | some type =>
        rw [ht] at hr
        by_cases hlt : slotIndex < slots.length
        · simp only [hlt, if_true] at hr
          refine ih _ _ ?_ hr
          intro slot hm h0
          rcases List.mem_or_eq_of_mem_set hm with hm' | hm'
          · exact hv slot hm' h0
          · have hsl : slot = QuarrelSlot.ofType type := Option.some.inj hm'
            rw [hsl] at h0 ⊢
            exact ⟨le_refl _, h0⟩
        · simp only [hlt, if_false] at hr
          cases hr

/-- C17 (as stated, refuted): `QuarrelSlot::TakeQuarrel(cooldown)` with the supplied
cooldown -1 on a ready slot that satisfies `0 <= cooldownRemaining <= cooldownTime`
leaves `cooldownRemaining = -1`; and so does `TakeQuarrel` with the per-type cooldown
on a ready slot whose type has `cooldownTime = -1`. -/
theorem C17_negative_cooldown_breaks_invariant :
    (QuarrelSlot.Valid ⟨fireType, 1 / 2, 0⟩ ∧
      (QuarrelSlot.TakeQuarrel_cooldown ⟨fireType, 1 / 2, 0⟩ (-1)).2 = ⟨fireType, -1, -1⟩ ∧
      ¬ QuarrelSlot.Valid (QuarrelSlot.TakeQuarrel_cooldown ⟨fireType, 1 / 2, 0⟩ (-1)).2) ∧
    (PlayerQuiver.Valid ⟨[some ⟨hastyType, 0, 0⟩]⟩ ∧
      TakeQuarrel ⟨[some ⟨hastyType, 0, 0⟩]⟩ ((0 : Nat) : Int) =
        some (some hastyType, ⟨[some ⟨hastyType, -1, -1⟩]⟩) ∧
      ¬ PlayerQuiver.Valid ⟨[some ⟨hastyType, -1, -1⟩]⟩) := by
  have h1 : (QuarrelSlot.TakeQuarrel_cooldown ⟨fireType, 1 / 2, 0⟩ (-1)).2 =
      ⟨fireType, -1, -1⟩ := by
    rw [QuarrelSlot.TakeQuarrel_cooldown_ready ⟨fireType, 1 / 2, 0⟩ (-1) (by norm_num)]
  refine ⟨⟨?_, h1, ?_⟩, ?_, ?_, ?_⟩
  · norm_num [QuarrelSlot.Valid]
  · rw [h1]
    norm_num [QuarrelSlot.Valid]
  · intro slot hm
    simp only [List.mem_singleton, Option.some.injEq] at hm
    rw [hm]
    norm_num [QuarrelSlot.Valid]
  · rw [TakeQuarrel_of_slot ⟨[some ⟨hastyType, 0, 0⟩]⟩ 0 ⟨hastyType, 0, 0⟩ rfl,
      QuarrelSlot.TakeQuarrel_ready ⟨hastyType, 0, 0⟩ (by norm_num)]
    rfl
  · intro h
    have := h ⟨hastyType, -1, -1⟩ (by simp)
    norm_num [QuarrelSlot.Valid] at this

/-- C17 (amended): the quiver operations preserve the invariant
`0 <= cooldownRemaining <= cooldownTime` for every equipped slot whose type has a
non-negative `cooldownTime`: `TakeQuarrel` (per-type cooldown), `PutQuarrelBack` (for
every slot), and loading a quiver from a document; `QuarrelSlot::TakeQuarrel(cooldown)`
preserves it when the supplied cooldown is non-negative. -/
theorem C17_quiver_operations_keep_invariant (quiver : PlayerQuiver) (hv : quiver.Valid) :
    (∀ (slotIndex : Int) (r : Option QuarrelTypeInfo) (quiver' : PlayerQuiver),
      TakeQuarrel quiver slotIndex = some (r, quiver') →
      ∀ slot, some slot ∈ quiver'.quarrelSlots → 0 ≤ slot.type.cooldownTime → slot.Valid) ∧
    (∀ (slot : QuarrelSlot) (cooldown : ℚ), slot.Valid → 0 ≤ cooldown →
      (slot.TakeQuarrel_cooldown cooldown).2.Valid) ∧
    (∀ quarrel : QuarrelTypeInfo, (PutQuarrelBack quiver quarrel).Valid) ∧
    (∀ (conv : JsonConversions) (j : Json) (loaded : PlayerQuiver),
      from_json_PlayerQuiver conv j quiver = .ok loaded →
      ∀ slot, some slot ∈ loaded.quarrelSlots → 0 ≤ slot.type.cooldownTime → slot.Valid) := by
  refine ⟨?_, ?_, ?_, ?_⟩
  · intro slotIndex r quiver' hr
    exact TakeQuarrel_valid quiver quiver' slotIndex r hv hr
  · intro slot cooldown hs hc
    by_cases hcool : slot.cooldownRemaining > 0
    · simp only [QuarrelSlot.TakeQuarrel_cooldown, CanTakeQuarrel, hcool, decide_True,
        Bool.not_true, Bool.not_false, if_true]
      exact hs
    · rw [QuarrelSlot.TakeQuarrel_cooldown_ready slot cooldown hcool]
      exact ⟨hc, le_refl _⟩
  · intro quarrel
    exact putQuarrelBackSlots_valid quarrel quiver.quarrelSlots hv
  · intro conv j loaded hr
    unfold from_json_PlayerQuiver at hr
    split at hr
    · exact from_json_slots_valid conv _ 0 quiver.quarrelSlots loaded
        (fun slot hm _ => hv slot hm) hr
    · simp only [FromJsonResult.ok.injEq] at hr
      rw [← hr]
      exact fun slot hm _ => hv slot hm

theorem C17_quiver_operations_keep_invariant_witness :
    PlayerQuiver.Valid ⟨[some ⟨fireType, 1 / 2, 0⟩, none]⟩ ∧
      QuarrelSlot.Valid ⟨fireType, 1 / 2, 1 / 2⟩ ∧
      (QuarrelSlot.TakeQuarrel_cooldown ⟨fireType, 1 / 2, 0⟩ 2).2.Valid ∧
      (PutQuarrelBack ⟨[some ⟨fireType, 1 / 2, 0⟩, none]⟩ emberType).Valid ∧
      (QuarrelSlot.ofType emberType).Valid := by
  have hslot : QuarrelSlot.Valid ⟨fireType, 1 / 2, 0⟩ := by norm_num [QuarrelSlot.Valid]
  have hv : PlayerQuiver.Valid ⟨[some ⟨fireType, 1 / 2, 0⟩, none]⟩ := by
    intro slot hm
    simp only [List.mem_cons, Option.some.injEq, List.mem_singleton, List.not_mem_nil,
      or_false] at hm
    rcases hm with hm | hm
    · rw [hm]
      exact hslot
    · cases hm
  have h := C17_quiver_operations_keep_invariant ⟨[some ⟨fireType, 1 / 2, 0⟩, none]⟩ hv
  have htake : TakeQuarrel ⟨[some ⟨fireType, 1 / 2, 0⟩, none]⟩ ((0 : Nat) : Int) =
      some (some fireType, ⟨[some ⟨fireType, 1 / 2, 1 / 2⟩, none]⟩) := by
    rw [TakeQuarrel_of_slot ⟨[some ⟨fireType, 1 / 2, 0⟩, none]⟩ 0 ⟨fireType, 1 / 2, 0⟩ rfl,
      QuarrelSlot.TakeQuarrel_ready ⟨fireType, 1 / 2, 0⟩ (by norm_num)]
    rfl
  have hload : from_json_PlayerQuiver sampleConversions
      (.array [.object [("quarrelType", to_json_QuarrelTypeInfo sampleConversions emberType)]])
      ⟨[some ⟨fireType, 1 / 2, 0⟩, none]⟩ =
      .ok ⟨[some (QuarrelSlot.ofType emberType), none]⟩ := by
    rfl
  refine ⟨hv, ?_, h.2.1 ⟨fireType, 1 / 2, 0⟩ 2 hslot (by norm_num), h.2.2.1 emberType, ?_⟩
  · exact h.1 _ _ _ htake ⟨fireType, 1 / 2, 1 / 2⟩ (by simp) (by norm_num [fireType])
  · exact h.2.2.2 sampleConversions _ _ hload (QuarrelSlot.ofType emberType) (by simp)
      (by norm_num [QuarrelSlot.ofType, emberType])

theorem sampleConversions_RoundTrip : sampleConversions.RoundTrip := by
  refine ⟨?_, ?_, ?_⟩
  · intro c
    simp [sampleConversions]
  · intro t
    cases t <;> rfl
  · intro t
    cases t <;> rfl

/-- C18: with external conversions (colour, enumerations) that read back what they
write, reading the document written by `to_json(q)` into a default-constructed quiver
succeeds and yields a quiver of the same capacity in which slot `i` is empty when
`q`'s slot `i` is empty, and is otherwise equipped with the type descriptor of `q`'s
slot `i` and with `cooldownRemaining = 0`, whatever the cooldowns of `q`. -/
theorem C18_quiver_document_round_trip (conv : JsonConversions) (h : conv.RoundTrip)
    (quiver : PlayerQuiver) :
    ∃ loaded, from_json_PlayerQuiver conv (to_json_PlayerQuiver conv quiver)
        (PlayerQuiver.default quiver.MaxEquippedQuarrelTypes) = .ok loaded ∧
      loaded.quarrelSlots.length = quiver.quarrelSlots.length ∧
      ∀ i, i < quiver.quarrelSlots.length →
        (quiver.quarrelSlots[i]? = some none → loaded.quarrelSlots[i]? = some none) ∧
        (∀ slot, quiver.quarrelSlots[i]? = some (some slot) →
          ∃ slot', loaded.quarrelSlots[i]? = some (some slot') ∧
            slot'.type = slot.type ∧ slot'.cooldownRemaining = 0) := by
  refine ⟨_, from_json_to_json_PlayerQuiver conv h quiver, by simp, ?_⟩
  intro i _
  constructor
  · intro hs
    simp [List.getElem?_map, hs]
  · intro slot hs
    exact ⟨QuarrelSlot.ofType slot.type, by simp [List.getElem?_map, hs], rfl, rfl⟩

theorem C18_quiver_document_round_trip_witness :
    sampleConversions.RoundTrip ∧
      ∃ loaded, from_json_PlayerQuiver sampleConversions
          (to_json_PlayerQuiver sampleConversions
            ⟨[some ⟨fireType, 1 / 2, 1 / 4⟩, none, some ⟨emberType, 2, 2⟩]⟩)
          (PlayerQuiver.default 3) = .ok loaded ∧
        loaded.quarrelSlots[1]? = some none ∧
        ∃ slot', loaded.quarrelSlots[2]? = some (some slot') ∧
          slot'.type = emberType ∧ slot'.cooldownRemaining = 0 := by
  obtain ⟨loaded, h1, -, h3⟩ := C18_quiver_document_round_trip sampleConversions
    sampleConversions_RoundTrip ⟨[some ⟨fireType, 1 / 2, 1 / 4⟩, none, some ⟨emberType, 2, 2⟩]⟩
  exact ⟨sampleConversions_RoundTrip, loaded, h1, (h3 1 (by decide)).1 rfl,
    (h3 2 (by decide)).2 ⟨emberType, 2, 2⟩ rfl⟩

/-! ## The enemy -/

theorem Enemy.tickEffects_fields (enemy : Enemy) (graphics : RenderComponent) (timestep : ℚ)
    (ticked : Enemy × RenderComponent)
    (h : enemy.tickEffects graphics timestep = some ticked) :
    ticked.1.m_Awakeness = enemy.m_Awakeness ∧
    ticked.1.m_LastShootTime = enemy.m_LastShootTime ∧
    ticked.1.m_DieAnim = enemy.m_DieAnim ∧
    ticked.1.m_Sensor = enemy.m_Sensor ∧
    ticked.1.m_Target = enemy.m_Target := by
  simp only [Enemy.tickEffects] at h
  cases hu : updateEffects timestep
      (ApplyFires enemy.m_FiresInContact enemy.m_ActiveEffects).container enemy.m_Damage
      graphics with
  | none =>
    rw [hu] at h
    cases h
  | some r =>
    rw [hu] at h
    simp only [Option.some_bind, Option.some.injEq] at h
    rw [← h]
    exact ⟨rfl, rfl, rfl, rfl, rfl⟩

/-- C19 (as stated, refuted): a newly constructed enemy (no death clip configured:
`m_DieAnim` is `Invalid`) whose damage has reached its maximum takes the death
transition without asking for any clip: the only calls are the destruction of the
sensor fixture and the detachment of the behaviour. -/
theorem C19_death_without_clip :
    (Enemy.OnStep { Enemy.new 7 with m_Damage := { damage := 10, max := 10 } }
        { color := Color.rgb 9 9 9 } (1 / 60)
        { time := 5, animatorExists := true, animatorAnimation := 3, targetExists := true,
          visiblePlayerPosition := some ⟨1, 1⟩, currentAnimation := 3, hasAudio := true,
          position := ⟨0, 0⟩ }).map (fun r => (r.actions, r.detached)) =
      some ([.DestroyFixture 7, .AddCustomComponent_nullptr], true) ∧
    (Enemy.new 7).m_DieAnim = AnimationId.Invalid := by
  constructor
  · rfl
  · rfl

/-- C19 (amended): in any awakeness state, if after this step's effect ticks and purge
the accumulated damage is at least the maximum, `OnStep` asks the render component for
the death clip once, with repeat setting `Never`, when a death clip is configured
(`m_DieAnim` is not `Invalid`) and for no clip otherwise, then destroys the sensor
fixture and sets the entity's behaviour to none, and does nothing else: the awakeness
state and the last shot time are as before the step and no projectile is made. -/
theorem C19_death_transition (enemy : Enemy) (graphics : RenderComponent) (timestep : ℚ)
    (input : StepInput) (ticked : Enemy × RenderComponent)
    (ht : enemy.tickEffects graphics timestep = some ticked)
    (hd : ticked.1.m_Damage.damage ≥ ticked.1.m_Damage.max) :
    ∃ r, enemy.OnStep graphics timestep input = some r ∧
      r.actions =
        (if enemy.m_DieAnim ≠ AnimationId.Invalid
          then [Action.SetAnimation enemy.m_DieAnim .Never] else []) ++
        [Action.DestroyFixture enemy.m_Sensor, Action.AddCustomComponent_nullptr] ∧
      r.detached = true ∧
      r.enemy = ticked.1 ∧
      r.graphics = ticked.2 ∧
      r.enemy.m_Awakeness = enemy.m_Awakeness ∧
      r.enemy.m_LastShootTime = enemy.m_LastShootTime ∧
      (∀ position target, Action.MakeProjectile position target ∉ r.actions) := by
  obtain ⟨h1, h2, h3, h4, -⟩ := Enemy.tickEffects_fields enemy graphics timestep ticked ht
  have hex : HasExceededLimit ticked.1.m_Damage = true := by
    simp [HasExceededLimit, hd]
  have hstep : enemy.OnStep graphics timestep input =
      some { enemy := ticked.1
             graphics := ticked.2
             actions := Enemy.SetAnimation ticked.1.m_DieAnim .Never ++
               [.DestroyFixture ticked.1.m_Sensor, .AddCustomComponent_nullptr]
             detached := true } := by
    simp only [Enemy.OnStep, ht, Option.some_bind, hex, if_true]
  refine ⟨_, hstep, ?_, rfl, rfl, rfl, h1, h2, ?_⟩
  · simp only [Enemy.SetAnimation, h3, h4]
  · intro position target hm
    simp only [Enemy.SetAnimation, List.mem_append, List.mem_cons, List.mem_singleton,
      List.not_mem_nil, or_false] at hm
    rcases hm with hm | hm | hm
    · split_ifs at hm
      · simp at hm
      · simp at hm
    · cases hm
    · cases hm

theorem C19_death_transition_witness :
    ∃ r, Enemy.OnStep
        { Enemy.new 7 with m_Damage := { damage := 12, max := 10 }, m_DieAnim := 4,
                           m_Awakeness := .Awake, m_Target := some 1 }
        { color := Color.rgb 9 9 9 } (1 / 60)
        { time := 5, animatorExists := true, animatorAnimation := 3, targetExists := true,
          visiblePlayerPosition := some ⟨1, 1⟩, currentAnimation := 3, hasAudio := true,
          position := ⟨0, 0⟩ } = some r ∧
      r.actions = [Action.SetAnimation 4 .Never, Action.DestroyFixture 7,
        Action.AddCustomComponent_nullptr] ∧
      r.detached = true := by
  obtain ⟨r, h1, h2, h3, -⟩ := C19_death_transition
    { Enemy.new 7 with m_Damage := { damage := 12, max := 10 }, m_DieAnim := 4,
                       m_Awakeness := .Awake, m_Target := some 1 }
    { color := Color.rgb 9 9 9 } (1 / 60)
    { time := 5, animatorExists := true, animatorAnimation := 3, targetExists := true,
      visiblePlayerPosition := some ⟨1, 1⟩, currentAnimation := 3, hasAudio := true,
      position := ⟨0, 0⟩ }
    ({ Enemy.new 7 with m_Damage := { damage := 12, max := 10 }, m_DieAnim := 4,
                        m_Awakeness := .Awake, m_Target := some 1 },
      { color := Color.rgb 9 9 9 })
    rfl (by decide)
  exact ⟨r, h1, h2, h3⟩

/-- C20: for a dormant enemy (`Awakeness::None`), `OnBeginContact` on its sensor fixture
moves it to waking (`Awakening`) and sets the target to the other entity, and
`OnBeginContact` with a crossbow-bolt fixture moves it to waking; a contact that is
neither leaves the awakeness state unchanged; and an enemy that is already waking or
awake keeps its state in every `OnBeginContact`. -/
theorem C20_wake_up_on_contact (enemy : Enemy) (other : ContactEntity)
    (myFixture otherFixture : Fixture) :
    (enemy.m_Awakeness = Awakeness.None → myFixture.id = enemy.m_Sensor →
      (enemy.OnBeginContact other myFixture otherFixture).m_Awakeness = Awakeness.Awakening ∧
      (enemy.OnBeginContact other myFixture otherFixture).m_Target = some other.id) ∧
    (enemy.m_Awakeness = Awakeness.None → otherFixture.isCrossbowBolt = true →
      (enemy.OnBeginContact other myFixture otherFixture).m_Awakeness = Awakeness.Awakening) ∧
    (myFixture.id ≠ enemy.m_Sensor → otherFixture.isCrossbowBolt = false →
      (enemy.OnBeginContact other myFixture otherFixture).m_Awakeness = enemy.m_Awakeness) ∧
    (enemy.m_Awakeness ≠ Awakeness.None →
      (enemy.OnBeginContact other myFixture otherFixture).m_Awakeness = enemy.m_Awakeness) := by
  refine ⟨?_, ?_, ?_, ?_⟩
  · intro ha hs
    simp [Enemy.OnBeginContact, hs, ha]
  · intro ha hb
    by_cases hs : myFixture.id = enemy.m_Sensor
    · simp [Enemy.OnBeginContact, hs, ha]
    · cases hf : other.firer <;> simp [Enemy.OnBeginContact, hs, hb, ha, hf]
  · intro hs hb
    simp [Enemy.OnBeginContact, hs, hb]
  · intro ha
    by_cases hs : myFixture.id = enemy.m_Sensor
    · simp [Enemy.OnBeginContact, hs, ha]
    · by_cases hb : otherFixture.isCrossbowBolt = true
      · cases hf : other.firer <;> simp [Enemy.OnBeginContact, hs, hb, ha, hf]
      · simp [Enemy.OnBeginContact, hs, hb]

theorem C20_wake_up_on_contact_witness :
    ((Enemy.new 7).OnBeginContact ⟨1, none, none⟩ ⟨7, false, false⟩
        ⟨20, false, false⟩).m_Awakeness = Awakeness.Awakening ∧
      ((Enemy.new 7).OnBeginContact ⟨1, none, none⟩ ⟨7, false, false⟩
        ⟨20, false, false⟩).m_Target = some 1 ∧
      ((Enemy.new 7).OnBeginContact ⟨2, some fireType.effect, some 1⟩ ⟨8, false, false⟩
        ⟨21, true, false⟩).m_Awakeness = Awakeness.Awakening ∧
      ((Enemy.new 7).OnBeginContact ⟨3, none, none⟩ ⟨8, false, false⟩
        ⟨22, false, true⟩).m_Awakeness = Awakeness.None ∧
      (({ Enemy.new 7 with m_Awakeness := .Awake }).OnBeginContact ⟨1, none, none⟩
        ⟨7, false, false⟩ ⟨20, false, false⟩).m_Awakeness = Awakeness.Awake := by
  have h1 := (C20_wake_up_on_contact (Enemy.new 7) ⟨1, none, none⟩ ⟨7, false, false⟩
    ⟨20, false, false⟩).1 rfl rfl
  have h2 := (C20_wake_up_on_contact (Enemy.new 7) ⟨2, some fireType.effect, some 1⟩
    ⟨8, false, false⟩ ⟨21, true, false⟩).2.1 rfl rfl
  have h3 := (C20_wake_up_on_contact (Enemy.new 7) ⟨3, none, none⟩ ⟨8, false, false⟩
    ⟨22, false, true⟩).2.2.1 (by decide) rfl
  have h4 := (C20_wake_up_on_contact { Enemy.new 7 with m_Awakeness := .Awake }
    ⟨1, none, none⟩ ⟨7, false, false⟩ ⟨20, false, false⟩).2.2.2 (by decide)
  exact ⟨h1.1, h1.2, h2, h3, h4⟩

/-! ## The enemy's step -/

theorem Enemy.SetAnimation_chain_pair (a b : AnimatorStartSetting) :
    Enemy.SetAnimation_chain [a, b] =
      some (Enemy.SetAnimation a.m_AnimationId a.m_RepeatSetting ++ [.QueueAnimation b]) := by
  rfl

theorem Enemy.Shoot_eq (enemy : Enemy) (input : StepInput) (target : b2Vec2) :
    enemy.Shoot input target =
      some ({ enemy with m_LastShootTime := input.time }, enemy.shootActions input target) := by
  simp [Enemy.Shoot, Enemy.SetAnimation_chain_pair, Enemy.shootActions]

theorem Enemy.OnStep_dead (enemy : Enemy) (graphics : RenderComponent) (timestep : ℚ)
    (input : StepInput) (ticked : Enemy × RenderComponent)
    (ht : enemy.tickEffects graphics timestep = some ticked)
    (hd : HasExceededLimit ticked.1.m_Damage = true) :
    enemy.OnStep graphics timestep input =
      some { enemy := ticked.1
             graphics := ticked.2
             actions := Enemy.SetAnimation ticked.1.m_DieAnim .Never ++
               [.DestroyFixture ticked.1.m_Sensor, .AddCustomComponent_nullptr]
             detached := true } := by
  simp only [Enemy.OnStep, ht, Option.some_bind, hd, if_true]

theorem Enemy.OnStep_alive (enemy : Enemy) (graphics : RenderComponent) (timestep : ℚ)
    (input : StepInput) (ticked : Enemy × RenderComponent)
    (ht : enemy.tickEffects graphics timestep = some ticked)
    (hd : HasExceededLimit ticked.1.m_Damage = false) :
    enemy.OnStep graphics timestep input =
      some { enemy :=
               match ticked.1.awakened.shotTarget input with
               | some _ => { ticked.1.awakened with m_LastShootTime := input.time }
               | none => ticked.1.awakened
             graphics := ticked.2
             actions := ticked.1.wakeActions input ++
               match ticked.1.awakened.shotTarget input with
               | some target => ticked.1.awakened.shootActions input target
               | none => []
             detached := false } := by
  simp only [Enemy.OnStep, ht, Option.some_bind, hd, Bool.false_eq_true, if_false]
  have hwake : (if ticked.1.m_Awakeness = Awakeness.Awakening then
        (if ((!input.animatorExists) || (input.animatorAnimation != ticked.1.m_AwakeAnim)) = true
          then Enemy.SetAnimation_chain
            [{ m_AnimationId := ticked.1.m_AwakeAnim, m_RepeatSetting := .Never },
             { m_AnimationId := ticked.1.m_StandAnim, m_RepeatSetting := .Forever }]
          else some []).bind fun acts =>
        some ({ ticked.1 with m_Awakeness := .Awake }, acts)
      else some (ticked.1, [])) =
      some (ticked.1.awakened, ticked.1.wakeActions input) := by
    by_cases hw : ticked.1.m_Awakeness = Awakeness.Awakening
    · by_cases hc : ((!input.animatorExists) ||
          (input.animatorAnimation != ticked.1.m_AwakeAnim)) = true
      · simp [hw, hc, Enemy.awakened, Enemy.wakeActions, Enemy.SetAnimation_chain_pair]
      · simp [hw, hc, Enemy.awakened, Enemy.wakeActions]
    · simp [hw, Enemy.awakened, Enemy.wakeActions]
  rw [hwake]
  simp only [Option.some_bind]
  cases htgt : ticked.1.awakened.m_Target with
  | none => simp [Enemy.shotTarget, htgt]
  | some tgt =>
    by_cases hex : input.targetExists = true
    · cases hvis : input.visiblePlayerPosition with
      | none => simp [Enemy.shotTarget, htgt, hex, hvis]
      | some p =>
        by_cases hcan : ticked.1.awakened.CanShoot input = true
        · simp [Enemy.shotTarget, htgt, hex, hvis, hcan, Enemy.Shoot_eq]
        · simp [Enemy.shotTarget, htgt, hex, hvis, hcan]
    · simp [Enemy.shotTarget, htgt, hex]

theorem Enemy.tickEffects_anims (enemy : Enemy) (graphics : RenderComponent) (timestep : ℚ)
    (ticked : Enemy × RenderComponent)
    (h : enemy.tickEffects graphics timestep = some ticked) :
    ticked.1.m_AwakeAnim = enemy.m_AwakeAnim ∧
    ticked.1.m_ShootAnim = enemy.m_ShootAnim ∧
    ticked.1.m_StandAnim = enemy.m_StandAnim := by
  simp only [Enemy.tickEffects] at h
  cases hu : updateEffects timestep
      (ApplyFires enemy.m_FiresInContact enemy.m_ActiveEffects).container enemy.m_Damage
      graphics with
  | none =>
    rw [hu] at h
    cases h
  | some r =>
    rw [hu] at h
    simp only [Option.some_bind, Option.some.injEq] at h
    rw [← h]
    exact ⟨rfl, rfl, rfl⟩

theorem Enemy.awakened_fields (enemy : Enemy) :
    enemy.awakened.m_Target = enemy.m_Target ∧
    enemy.awakened.m_LastShootTime = enemy.m_LastShootTime ∧
    enemy.awakened.m_AwakeAnim = enemy.m_AwakeAnim ∧
    enemy.awakened.m_ShootAnim = enemy.m_ShootAnim ∧
    enemy.awakened.m_StandAnim = enemy.m_StandAnim ∧
    (enemy.m_Awakeness = Awakeness.None → enemy.awakened.m_Awakeness = Awakeness.None) ∧
    (enemy.m_Awakeness ≠ Awakeness.None → enemy.awakened.m_Awakeness = Awakeness.Awake) := by
  unfold Enemy.awakened
  split_ifs with h
  · simp [h]
  · refine ⟨rfl, rfl, rfl, rfl, rfl, fun h0 => h0, ?_⟩
    intro h0
    cases ha : enemy.m_Awakeness with
    | None => exact absurd ha h0
    | Awakening => exact absurd ha h
    | Awake => rfl

/-- C21 (as stated, refuted): a newly constructed enemy (no clip configured) that a
sensor contact has put in the waking state becomes awake in its next `OnStep`, but the
only animation call of that step queues the idle clip: the wake clip, being `Invalid`,
is not requested. -/
theorem C21_wake_clip_not_requested :
    ((Enemy.new 7).OnBeginContact ⟨1, none, none⟩ ⟨7, false, false⟩
        ⟨20, false, false⟩).m_Awakeness = Awakeness.Awakening ∧
    (Enemy.OnStep ((Enemy.new 7).OnBeginContact ⟨1, none, none⟩ ⟨7, false, false⟩
          ⟨20, false, false⟩)
        { color := Color.rgb 9 9 9 } (1 / 60)
        { time := 5, animatorExists := false, animatorAnimation := 3, targetExists := true,
          visiblePlayerPosition := none, currentAnimation := 3, hasAudio := true,
          position := ⟨0, 0⟩ }).map (fun r => (r.enemy.m_Awakeness, r.actions)) =
      some (Awakeness.Awake,
        [.QueueAnimation { m_AnimationId := AnimationId.Invalid, m_RepeatSetting := .Forever }]) := by
  constructor
  · rfl
  · rfl

/-- C21 (amended): for every enemy in the waking state, an `OnStep` that does not take
the death transition leaves it awake, whatever its target, line of sight or current
animation; and unless the wake clip is already the animator's clip, that step first
asks the render component for the wake clip with repeat `Never` when a wake clip is
configured (`m_AwakeAnim` is not `Invalid`; no such call otherwise) and queues the idle
clip with repeat `Forever`; the only other calls of the step are those of a shot. -/
theorem C21_waking_becomes_awake (enemy : Enemy) (graphics : RenderComponent) (timestep : ℚ)
    (input : StepInput) (ticked : Enemy × RenderComponent)
    (hw : enemy.m_Awakeness = Awakeness.Awakening)
    (ht : enemy.tickEffects graphics timestep = some ticked)
    (hd : ¬ ticked.1.m_Damage.damage ≥ ticked.1.m_Damage.max) :
    ∃ r rest, enemy.OnStep graphics timestep input = some r ∧
      r.enemy.m_Awakeness = Awakeness.Awake ∧
      r.detached = false ∧
      r.actions =
        (if input.animatorExists = true ∧ input.animatorAnimation = enemy.m_AwakeAnim then []
         else
          (if enemy.m_AwakeAnim ≠ AnimationId.Invalid
            then [Action.SetAnimation enemy.m_AwakeAnim .Never] else []) ++
          [Action.QueueAnimation
            { m_AnimationId := enemy.m_StandAnim, m_RepeatSetting := .Forever }]) ++ rest ∧
      (rest = [] ∨ ∃ target, rest = ticked.1.awakened.shootActions input target) := by
  obtain ⟨h1, -, -, -, -⟩ := Enemy.tickEffects_fields enemy graphics timestep ticked ht
  obtain ⟨a1, -, a3⟩ := Enemy.tickEffects_anims enemy graphics timestep ticked ht
  have hex : HasExceededLimit ticked.1.m_Damage = false := by
    simp only [HasExceededLimit, decide_eq_false_iff_not]
    exact hd
  have hne : ticked.1.m_Awakeness ≠ Awakeness.None := by
    rw [h1, hw]
    decide
  have haw := (Enemy.awakened_fields ticked.1).2.2.2.2.2.2 hne
  refine ⟨_, (match ticked.1.awakened.shotTarget input with
      | some target => ticked.1.awakened.shootActions input target
      | none => []), Enemy.OnStep_alive enemy graphics timestep input ticked ht hex, ?_, rfl, ?_, ?_⟩
  · cases hs : ticked.1.awakened.shotTarget input with
    | none => simpa [hs] using haw
    | some p => simpa [hs] using haw
  · have hw' : ticked.1.m_Awakeness = Awakeness.Awakening := h1.trans hw
    have hwk : ticked.1.wakeActions input =
        (if input.animatorExists = true ∧ input.animatorAnimation = enemy.m_AwakeAnim then []
         else
          (if enemy.m_AwakeAnim ≠ AnimationId.Invalid
            then [Action.SetAnimation enemy.m_AwakeAnim .Never] else []) ++
          [Action.QueueAnimation
            { m_AnimationId := enemy.m_StandAnim, m_RepeatSetting := .Forever }]) := by
      rw [← a1, ← a3]
      by_cases hc : ((!input.animatorExists) ||
          (input.animatorAnimation != ticked.1.m_AwakeAnim)) = true
      · have hn : ¬ (input.animatorExists = true ∧
            input.animatorAnimation = ticked.1.m_AwakeAnim) := by
          rintro ⟨h1', h2'⟩
          simp [h1', h2'] at hc
        rw [if_neg hn]
        simp only [Enemy.wakeActions, hw', hc, and_self, if_true, Enemy.SetAnimation]
      · have hy : input.animatorExists = true ∧
            input.animatorAnimation = ticked.1.m_AwakeAnim := by
          simpa using hc
        rw [if_pos hy]
        simp [Enemy.wakeActions, hw', hc]
    rw [← hwk]
  · cases hs : ticked.1.awakened.shotTarget input with
    | none => exact Or.inl rfl
    | some p => exact Or.inr ⟨p, rfl⟩

theorem C21_waking_becomes_awake_witness :
    ∃ r rest, Enemy.OnStep
        { Enemy.new 7 with m_Awakeness := .Awakening, m_AwakeAnim := 2, m_StandAnim := 5 }
        { color := Color.rgb 9 9 9 } (1 / 60)
        { time := 5, animatorExists := true, animatorAnimation := 3, targetExists := true,
          visiblePlayerPosition := none, currentAnimation := 3, hasAudio := true,
          position := ⟨0, 0⟩ } = some r ∧
      r.enemy.m_Awakeness = Awakeness.Awake ∧
      r.actions = [Action.SetAnimation 2 .Never,
        Action.QueueAnimation { m_AnimationId := 5, m_RepeatSetting := .Forever }] ++ rest := by
  obtain ⟨r, rest, h1, h2, -, h4, -⟩ := C21_waking_becomes_awake
    { Enemy.new 7 with m_Awakeness := .Awakening, m_AwakeAnim := 2, m_StandAnim := 5 }
    { color := Color.rgb 9 9 9 } (1 / 60)
    { time := 5, animatorExists := true, animatorAnimation := 3, targetExists := true,
      visiblePlayerPosition := none, currentAnimation := 3, hasAudio := true,
      position := ⟨0, 0⟩ }
    ({ Enemy.new 7 with m_Awakeness := .Awakening, m_AwakeAnim := 2, m_StandAnim := 5 },
      { color := Color.rgb 9 9 9 })
    rfl rfl (by decide)
  exact ⟨r, rest, h1, h2, h4⟩

theorem Enemy.OnStep_ticked (enemy : Enemy) (graphics : RenderComponent) (timestep : ℚ)
    (input : StepInput) (r : StepResult)
    (h : enemy.OnStep graphics timestep input = some r) :
    ∃ ticked, enemy.tickEffects graphics timestep = some ticked := by
  cases ht : enemy.tickEffects graphics timestep with
  | none => simp [Enemy.OnStep, ht] at h
  | some ticked => exact ⟨ticked, rfl⟩

theorem Enemy.SetAnimation_no_projectile (animationId : AnimationId)
    (repeatSetting : AnimatorRepeatSetting) (position target : b2Vec2) :
    Action.MakeProjectile position target ∉ Enemy.SetAnimation animationId repeatSetting := by
  unfold Enemy.SetAnimation
  split_ifs <;> simp

theorem Enemy.wakeActions_no_projectile (enemy : Enemy) (input : StepInput)
    (position target : b2Vec2) :
    Action.MakeProjectile position target ∉ enemy.wakeActions input := by
  unfold Enemy.wakeActions
  split_ifs
  · simp [Enemy.SetAnimation_no_projectile]
  · simp

theorem Enemy.OnStep_keeps (enemy : Enemy) (graphics : RenderComponent) (timestep : ℚ)
    (input : StepInput) (r : StepResult)
    (h : enemy.OnStep graphics timestep input = some r) :
    r.enemy.m_Target = enemy.m_Target ∧
    (enemy.m_Awakeness ≠ Awakeness.None → r.enemy.m_Awakeness ≠ Awakeness.None) := by
  obtain ⟨ticked, ht⟩ := Enemy.OnStep_ticked enemy graphics timestep input r h
  obtain ⟨f1, -, -, -, f5⟩ := Enemy.tickEffects_fields enemy graphics timestep ticked ht
  cases hd : HasExceededLimit ticked.1.m_Damage with
  | true =>
    rw [Enemy.OnStep_dead enemy graphics timestep input ticked ht hd] at h
    have hr := Option.some.inj h
    rw [← hr]
    exact ⟨f5, fun hne => by rw [f1]; exact hne⟩
  | false =>
    rw [Enemy.OnStep_alive enemy graphics timestep input ticked ht hd] at h
    have hr := Option.some.inj h
    rw [← hr]
    obtain ⟨w1, -, -, -, -, -, w7⟩ := Enemy.awakened_fields ticked.1
    constructor
    · cases hs : ticked.1.awakened.shotTarget input with
      | none => simp only [hs]; rw [w1, f5]
      | some p => simp only [hs]; rw [w1, f5]
    · intro hne
      have hne' : ticked.1.m_Awakeness ≠ Awakeness.None := by rw [f1]; exact hne
      have haw := w7 hne'
      cases hs : ticked.1.awakened.shotTarget input with
      | none => simp only [hs]; rw [haw]; decide
      | some p => simp only [hs]; rw [haw]; decide

theorem Enemy.OnBeginContact_target_awake (enemy : Enemy) (other : ContactEntity)
    (myFixture otherFixture : Fixture)
    (h : enemy.m_Target.isSome = true → enemy.m_Awakeness ≠ Awakeness.None) :
    (enemy.OnBeginContact other myFixture otherFixture).m_Target.isSome = true →
      (enemy.OnBeginContact other myFixture otherFixture).m_Awakeness ≠ Awakeness.None := by
  by_cases hs : myFixture.id = enemy.m_Sensor
  · by_cases ha : enemy.m_Awakeness = Awakeness.None
    · simp [Enemy.OnBeginContact, hs, ha]
    · simp [Enemy.OnBeginContact, hs, ha]
  · by_cases hb : otherFixture.isCrossbowBolt = true
    · by_cases ha : enemy.m_Awakeness = Awakeness.None
      · cases hf : other.firer <;> simp [Enemy.OnBeginContact, hs, hb, ha, hf]
      · cases hf : other.firer <;> simp [Enemy.OnBeginContact, hs, hb, ha, hf]
    · simpa [Enemy.OnBeginContact, hs, hb] using h

theorem Enemy.Reachable_target_awake (enemy : Enemy) (h : enemy.Reachable) :
    enemy.m_Target.isSome = true → enemy.m_Awakeness ≠ Awakeness.None := by
  induction h with
  | construct sensor => simp [Enemy.new]
  | fromJson enemy _ _ _ _ _ _ ih => exact ih
  | beginContact enemy other myFixture otherFixture _ ih =>
    exact Enemy.OnBeginContact_target_awake enemy other myFixture otherFixture ih
  | endContact enemy otherFixture _ ih => exact ih
  | step enemy graphics timestep input r _ hstep ih =>
    obtain ⟨k1, k2⟩ := Enemy.OnStep_keeps enemy graphics timestep input r hstep
    intro htgt
    rw [k1] at htgt
    exact k2 (ih htgt)

theorem Enemy.CanShoot_iff (enemy : Enemy) (input : StepInput) :
    enemy.CanShoot input = true ↔
      input.currentAnimation ≠ enemy.m_AwakeAnim ∧
      input.currentAnimation ≠ enemy.m_ShootAnim ∧
      input.time - enemy.m_LastShootTime > 1 := by
  unfold Enemy.CanShoot
  by_cases h : input.currentAnimation = enemy.m_AwakeAnim ∨
      input.currentAnimation = enemy.m_ShootAnim
  · simp only [h, if_true, Bool.false_eq_true, false_iff]
    rintro ⟨h1, h2, -⟩
    rcases h with h | h
    · exact h1 h
    · exact h2 h
  · simp only [h, if_false, decide_eq_true_eq]
    push_neg at h
    exact ⟨fun ht => ⟨h.1, h.2, ht⟩, fun ht => ht.2.2⟩

/-- C22: in every state reachable from construction through `FromJson`,
`OnBeginContact`, `OnEndContact` and `OnStep` calls, an `OnStep` makes a projectile only
if the enemy is awake at that moment (it was not dormant when the step began), its
target resolves and the line-of-sight ray cast to it succeeded (the projectile is aimed
at the position the ray cast returned), more than 1 second separates the world time
from the last shot time, and the current clip is neither the wake clip nor the attack
clip; a dormant enemy makes no projectile. -/
theorem C22_projectile_only_when_allowed (enemy : Enemy) (hreach : enemy.Reachable)
    (graphics : RenderComponent) (timestep : ℚ) (input : StepInput) (r : StepResult)
    (hstep : enemy.OnStep graphics timestep input = some r) :
    (∀ position target, Action.MakeProjectile position target ∈ r.actions →
      r.enemy.m_Awakeness = Awakeness.Awake ∧
      enemy.m_Awakeness ≠ Awakeness.None ∧
      r.detached = false ∧
      enemy.m_Target.isSome = true ∧
      input.targetExists = true ∧
      input.visiblePlayerPosition = some target ∧
      input.time - enemy.m_LastShootTime > 1 ∧
      input.currentAnimation ≠ enemy.m_AwakeAnim ∧
      input.currentAnimation ≠ enemy.m_ShootAnim) ∧
    (enemy.m_Awakeness = Awakeness.None →
      ∀ position target, Action.MakeProjectile position target ∉ r.actions) := by
  have hinv := Enemy.Reachable_target_awake enemy hreach
  obtain ⟨ticked, ht⟩ := Enemy.OnStep_ticked enemy graphics timestep input r hstep
  obtain ⟨f1, f2, -, -, f5⟩ := Enemy.tickEffects_fields enemy graphics timestep ticked ht
  obtain ⟨a1, a2, -⟩ := Enemy.tickEffects_anims enemy graphics timestep ticked ht
  obtain ⟨w1, w2, w3, w4, -, -, w7⟩ := Enemy.awakened_fields ticked.1
  have main : ∀ position target, Action.MakeProjectile position target ∈ r.actions →
      r.enemy.m_Awakeness = Awakeness.Awake ∧
      enemy.m_Awakeness ≠ Awakeness.None ∧
      r.detached = false ∧
      enemy.m_Target.isSome = true ∧
      input.targetExists = true ∧
      input.visiblePlayerPosition = some target ∧
      input.time - enemy.m_LastShootTime > 1 ∧
      input.currentAnimation ≠ enemy.m_AwakeAnim ∧
      input.currentAnimation ≠ enemy.m_ShootAnim := by
    intro position target hm
    cases hd : HasExceededLimit ticked.1.m_Damage with
    | true =>
      rw [Enemy.OnStep_dead enemy graphics timestep input ticked ht hd] at hstep
      rw [← Option.some.inj hstep] at hm
      simp only [List.mem_append, List.mem_cons, List.mem_singleton, List.not_mem_nil,
        or_false] at hm
      rcases hm with hm | hm | hm
      · exact absurd hm (Enemy.SetAnimation_no_projectile _ _ _ _)
      · cases hm
      · cases hm
    | false =>
      rw [Enemy.OnStep_alive enemy graphics timestep input ticked ht hd] at hstep
      have hr := Option.some.inj hstep
      rw [← hr] at hm ⊢
      simp only [List.mem_append] at hm
      cases hs : ticked.1.awakened.shotTarget input with
      | none =>
        rw [hs] at hm
        rcases hm with hm | hm
        · exact absurd hm (Enemy.wakeActions_no_projectile _ _ _ _)
        · simp at hm
      | some p =>
        rw [hs] at hm
        have hp : p = target := by
          rcases hm with hm | hm
          · exact absurd hm (Enemy.wakeActions_no_projectile _ _ _ _)
          · simp only [Enemy.shootActions, List.mem_append, List.mem_cons,
              List.mem_singleton, List.not_mem_nil, or_false] at hm
            rcases hm with ((hm | hm) | hm) | hm | hm
            · exact absurd hm (Enemy.SetAnimation_no_projectile _ _ _ _)
            · cases hm
            · split_ifs at hm <;> simp at hm
            · cases hm
            · injection hm with _ h2
              exact h2.symm
        subst hp
        unfold Enemy.shotTarget at hs
        split_ifs at hs with hcond
        obtain ⟨c1, c2, c3⟩ := hcond
        rw [w1, f5] at c1
        obtain ⟨s1, s2, s3⟩ := (Enemy.CanShoot_iff _ _).mp c3
        rw [w3, a1] at s1
        rw [w4, a2] at s2
        rw [w2, f2] at s3
        have hne := hinv c1
        have hne' : ticked.1.m_Awakeness ≠ Awakeness.None := by rw [f1]; exact hne
        exact ⟨w7 hne', hne, rfl, c1, c2, hs, s3, s1, s2⟩
  refine ⟨main, ?_⟩
  intro hnone position target hm
  exact (main position target hm).2.1 hnone

theorem C22_projectile_only_when_allowed_witness :
    ∃ r, Enemy.OnStep sampleWakingEnemy { color := Color.rgb 9 9 9 } (1 / 60)
        sampleStepInput = some r ∧
      Action.MakeProjectile ⟨0, 0⟩ ⟨1, 1⟩ ∈ r.actions ∧
      r.enemy.m_Awakeness = Awakeness.Awake := by
  have hreach : sampleWakingEnemy.Reachable :=
    Enemy.Reachable.beginContact _ _ _ _ (Enemy.Reachable.construct 7)
  have hstep := Enemy.OnStep_alive sampleWakingEnemy { color := Color.rgb 9 9 9 } (1 / 60)
    sampleStepInput (sampleWakingEnemy, { color := Color.rgb 9 9 9 }) rfl rfl
  have hcan : Enemy.CanShoot (Enemy.awakened sampleWakingEnemy) sampleStepInput = true := by
    rw [Enemy.CanShoot_iff]
    refine ⟨by decide, by decide, ?_⟩
    show (5 : ℚ) - 0 > 1
    norm_num
  have htarget : Enemy.shotTarget (Enemy.awakened sampleWakingEnemy) sampleStepInput =
      some ⟨1, 1⟩ := by
    unfold Enemy.shotTarget
    rw [if_pos ⟨rfl, rfl, hcan⟩]
    rfl
  have key : ∀ r, Enemy.OnStep sampleWakingEnemy { color := Color.rgb 9 9 9 } (1 / 60)
      sampleStepInput = some r → Action.MakeProjectile ⟨0, 0⟩ ⟨1, 1⟩ ∈ r.actions := by
    intro r hr
    rw [hstep] at hr
    rw [← Option.some.inj hr]
    simp only [htarget, List.mem_append]
    right
    simp [Enemy.shootActions, sampleStepInput]
  exact ⟨_, hstep, key _ hstep,
    ((C22_projectile_only_when_allowed sampleWakingEnemy hreach _ _ _ _ hstep).1 ⟨0, 0⟩ ⟨1, 1⟩
      (key _ hstep)).1⟩

/-! ## The per-frame driver -/

theorem ApplyEffect_damage_of_nonneg (effect : ActiveEffect) (damage result : DamageCount)
    (h : ApplyEffect effect damage = some result) (h0 : 0 ≤ damage.damage) :
    result.max = damage.max ∧
    result.damage = damage.damage +
      (if (effect.type == ActiveEffectType.Burning || effect.type == ActiveEffectType.Poisoned)
        then 1 else 0) := by
  unfold ApplyEffect ApplyEffect_compiled at h
  cases ht : effect.type <;> rw [ht] at h <;> simp only [Option.some.injEq] at h
  · cases h
  · rw [← h]
    refine ⟨rfl, ?_⟩
    simp only [AddDamage]
    have : Max.max (damage.damage + 1) 0 = damage.damage + 1 := max_eq_left (by omega)
    simpa using this
  · rw [← h]
    refine ⟨rfl, ?_⟩
    simp only [AddDamage]
    have : Max.max (damage.damage + 1) 0 = damage.damage + 1 := max_eq_left (by omega)
    simpa using this
  · rw [← h]
    simp
  · rw [← h]
    simp

theorem updateEffects_result (timestep : ℚ) (effects : List ActiveEffect)
    (damage : DamageCount) (graphics : RenderComponent)
    (r : List ActiveEffect × DamageCount × RenderComponent)
    (h : updateEffects timestep effects damage graphics = some r) :
    r.1 = effects.map (fun effect => (UpdateEffect effect timestep).2) ∧
    r.2.1.max = damage.max ∧
    (0 ≤ damage.damage →
      r.2.1.damage = damage.damage + (firedDamage timestep effects : Int)) := by
  induction effects generalizing damage graphics r with
  | nil =>
    simp only [updateEffects, Option.some.injEq] at h
    rw [← h]
    simp [firedDamage]
  | cons e rest ih =>
    rw [updateEffects] at h
    cases hd : (if (UpdateEffect e timestep).1 = true
        then ApplyEffect (UpdateEffect e timestep).2 damage else some damage) with
    | none => rw [hd] at h; cases h
    | some damage' =>
      rw [hd] at h
      simp only [Option.some_bind] at h
      cases hg : ApplyEffect_RenderComponent (UpdateEffect e timestep).2 graphics with
      | none => rw [hg] at h; cases h
      | some graphics' =>
        rw [hg] at h
        simp only [Option.some_bind] at h
        cases hrest : updateEffects timestep rest damage' graphics' with
        | none => rw [hrest] at h; cases h
        | some r' =>
          rw [hrest] at h
          simp only [Option.some_bind, Option.some.injEq] at h
          obtain ⟨i1, i2, i3⟩ := ih damage' graphics' r' hrest
          have hstep : damage'.max = damage.max ∧ (0 ≤ damage.damage →
              damage'.damage = damage.damage +
                (if ((UpdateEffect e timestep).1 &&
                  (e.type == ActiveEffectType.Burning || e.type == ActiveEffectType.Poisoned))
                  then 1 else 0)) := by
            by_cases hf : (UpdateEffect e timestep).1 = true
            · rw [if_pos hf] at hd
              constructor
              · cases ht : (UpdateEffect e timestep).2.type <;>
                  simp [ApplyEffect, ApplyEffect_compiled, cassert, ht, AddDamage] at hd <;> rw [← hd]
              · intro h0
                have := (ApplyEffect_damage_of_nonneg _ _ _ hd h0).2
                have hty : (UpdateEffect e timestep).2.type = e.type := rfl
                rw [hty] at this
                simpa [hf] using this
            · rw [if_neg hf] at hd
              have hd' : damage = damage' := Option.some.inj hd
              rw [← hd']
              simp [hf]
          rw [← h]
          refine ⟨by simp [i1], by rw [i2, hstep.1], ?_⟩
          intro h0
          have hs := hstep.2 h0
          have h0' : 0 ≤ damage'.damage := by
            rw [hs]
            split_ifs <;> omega
          have hi := i3 h0'
          simp only [hi, hs, firedDamage, List.filter_cons]
          split_ifs <;> simp
          all_goals omega

theorem RemoveExpiredEffects_none_expired (effects : ActiveEffectSet) :
    ∀ e ∈ (RemoveExpiredEffects effects).container, ¬ e.remainingDuration ≤ 0 := by
  intro e he
  simp only [RemoveExpiredEffects, List.mem_filter] at he
  simpa using he.2

theorem Enemy.tickEffects_result (enemy : Enemy) (graphics : RenderComponent) (timestep : ℚ)
    (ticked : Enemy × RenderComponent)
    (h : enemy.tickEffects graphics timestep = some ticked) :
    ticked.1.m_ActiveEffects = RemoveExpiredEffects
      { container := (ApplyFires enemy.m_FiresInContact enemy.m_ActiveEffects).container.map
          (fun effect => (UpdateEffect effect timestep).2) } ∧
    ticked.1.m_Damage.max = enemy.m_Damage.max ∧
    (0 ≤ enemy.m_Damage.damage →
      ticked.1.m_Damage.damage = enemy.m_Damage.damage +
        (firedDamage timestep
          (ApplyFires enemy.m_FiresInContact enemy.m_ActiveEffects).container : Int)) := by
  simp only [Enemy.tickEffects] at h
  cases hu : updateEffects timestep
      (ApplyFires enemy.m_FiresInContact enemy.m_ActiveEffects).container enemy.m_Damage
      graphics with
  | none =>
    rw [hu] at h
    cases h
  | some r =>
    rw [hu] at h
    simp only [Option.some_bind, Option.some.injEq] at h
    obtain ⟨u1, u2, u3⟩ := updateEffects_result _ _ _ _ _ hu
    rw [← h]
    exact ⟨by simp only [u1], u2, u3⟩

theorem Enemy.OnStep_result (enemy : Enemy) (graphics : RenderComponent) (timestep : ℚ)
    (input : StepInput) (r : StepResult)
    (h : enemy.OnStep graphics timestep input = some r) :
    ∃ ticked, enemy.tickEffects graphics timestep = some ticked ∧
      r.enemy.m_ActiveEffects = ticked.1.m_ActiveEffects ∧
      r.enemy.m_Damage = ticked.1.m_Damage ∧
      r.detached = HasExceededLimit ticked.1.m_Damage := by
  obtain ⟨ticked, ht⟩ := Enemy.OnStep_ticked enemy graphics timestep input r h
  refine ⟨ticked, ht, ?_⟩
  cases hd : HasExceededLimit ticked.1.m_Damage with
  | true =>
    rw [Enemy.OnStep_dead enemy graphics timestep input ticked ht hd] at h
    rw [← Option.some.inj h]
    exact ⟨rfl, rfl, rfl⟩
  | false =>
    rw [Enemy.OnStep_alive enemy graphics timestep input ticked ht hd] at h
    rw [← Option.some.inj h]
    have ha : ticked.1.awakened.m_ActiveEffects = ticked.1.m_ActiveEffects ∧
        ticked.1.awakened.m_Damage = ticked.1.m_Damage := by
      unfold Enemy.awakened
      split_ifs <;> exact ⟨rfl, rfl⟩
    cases hs : ticked.1.awakened.shotTarget input with
    | none => exact ⟨ha.1, ha.2, rfl⟩
    | some p => exact ⟨ha.1, ha.2, rfl⟩

theorem Player.tickEffects_outcome (player : Player) (graphics : RenderComponent)
    (deltaTime : ℚ) (ticked : Player × RenderComponent)
    (h : player.tickEffects graphics deltaTime = some ticked) :
    ticked.1.m_ActiveEffects = RemoveExpiredEffects
      { container := (ApplyFires player.m_FiresInContact player.m_ActiveEffects).container.map
          (fun effect => (UpdateEffect effect deltaTime).2) } ∧
    ticked.1.mDamage.max = player.mDamage.max ∧
    ticked.1.mCannotDie = player.mCannotDie ∧
    (0 ≤ player.mDamage.damage →
      ticked.1.mDamage.damage = player.mDamage.damage +
        (firedDamage deltaTime
          (ApplyFires player.m_FiresInContact player.m_ActiveEffects).container : Int)) := by
  simp only [Player.tickEffects] at h
  cases hu : updateEffects deltaTime
      (ApplyFires player.m_FiresInContact player.m_ActiveEffects).container player.mDamage
      graphics with
  | none =>
    rw [hu] at h
    cases h
  | some r =>
    rw [hu] at h
    simp only [Option.some_bind, Option.some.injEq] at h
    obtain ⟨u1, u2, u3⟩ := updateEffects_result _ _ _ _ _ hu
    rw [← h]
    exact ⟨by simp only [u1], u2, rfl, u3⟩

theorem Player.OnStep_outcome (player : Player) (graphics : RenderComponent) (deltaTime : ℚ)
    (position : b2Vec2) (angle : ℚ) (r : PlayerStepResult)
    (h : player.OnStep graphics deltaTime position angle = some r) :
    ∃ ticked, player.tickEffects graphics deltaTime = some ticked ∧
      r.player.m_ActiveEffects = ticked.1.m_ActiveEffects ∧
      r.player.mDamage = ticked.1.mDamage ∧
      r.replaced = (ticked.1.mCannotDie == false && HasExceededLimit ticked.1.mDamage) := by
  cases ht : player.tickEffects graphics deltaTime with
  | none => simp [Player.OnStep, ht] at h
  | some ticked =>
    refine ⟨ticked, rfl, ?_⟩
    simp only [Player.OnStep, ht, Option.some_bind] at h
    cases hc : (ticked.1.mCannotDie == false && HasExceededLimit ticked.1.mDamage) with
    | true =>
      rw [hc] at h
      simp only [if_true, Option.some.injEq] at h
      rw [← h]
      exact ⟨rfl, rfl, rfl⟩
    | false =>
      rw [hc] at h
      simp only [Bool.false_eq_true, if_false, Option.some.injEq] at h
      rw [← h]
      exact ⟨rfl, rfl, rfl⟩

/-- C23 (as stated, refuted): a player at the damage limit whose debug flag `mCannotDie`
is set goes through `Player::OnStep` without the death transition: it is not replaced
by a `DeadPlayer`. -/
theorem C23_player_that_cannot_die :
    sampleUndyingPlayer.mDamage.damage ≥ sampleUndyingPlayer.mDamage.max ∧
    (Player.OnStep sampleUndyingPlayer { color := Color.rgb 9 9 9 } (1 / 60) ⟨0, 0⟩ 0).map
        (fun r => (r.replaced, r.player.mDamage)) =
      some (false, { damage := 100, max := 100 }) := by
  constructor
  · decide
  · rfl

/-- C23 (amended): in `Enemy::OnStep` and in `Player::OnStep` fire exposure is applied
first, then every effect is ticked (a point of damage is added only for a `Burning` or
`Poisoned` effect whose tick fired), then the expired effects are purged, and only then
is death evaluated: (a) after the step the effect set is the purge of the ticked set and
holds no entry with `remainingDuration <= 0`; (b) the damage after the step is the
damage before it plus the damage of this step's ticks, and the death transition fires
in this same step exactly when that total is at least `max`, for the player only if in
addition `mCannotDie` is not set. -/
theorem C23_driver_order :
    (∀ (enemy : Enemy) (graphics : RenderComponent) (timestep : ℚ) (input : StepInput)
        (r : StepResult),
      enemy.OnStep graphics timestep input = some r →
      r.enemy.m_ActiveEffects = RemoveExpiredEffects
        { container := (ApplyFires enemy.m_FiresInContact enemy.m_ActiveEffects).container.map
            (fun effect => (UpdateEffect effect timestep).2) } ∧
      (∀ e ∈ r.enemy.m_ActiveEffects.container, ¬ e.remainingDuration ≤ 0) ∧
      r.enemy.m_Damage.max = enemy.m_Damage.max ∧
      (0 ≤ enemy.m_Damage.damage →
        r.enemy.m_Damage.damage = enemy.m_Damage.damage +
          (firedDamage timestep
            (ApplyFires enemy.m_FiresInContact enemy.m_ActiveEffects).container : Int) ∧
        (r.detached = true ↔
          enemy.m_Damage.damage +
            (firedDamage timestep
              (ApplyFires enemy.m_FiresInContact enemy.m_ActiveEffects).container : Int) ≥
            enemy.m_Damage.max))) ∧
    (∀ (player : Player) (graphics : RenderComponent) (deltaTime : ℚ) (position : b2Vec2)
        (angle : ℚ) (r : PlayerStepResult),
      player.OnStep graphics deltaTime position angle = some r →
      r.player.m_ActiveEffects = RemoveExpiredEffects
        { container :=
            (ApplyFires player.m_FiresInContact player.m_ActiveEffects).container.map
              (fun effect => (UpdateEffect effect deltaTime).2) } ∧
      (∀ e ∈ r.player.m_ActiveEffects.container, ¬ e.remainingDuration ≤ 0) ∧
      r.player.mDamage.max = player.mDamage.max ∧
      (0 ≤ player.mDamage.damage →
        r.player.mDamage.damage = player.mDamage.damage +
          (firedDamage deltaTime
            (ApplyFires player.m_FiresInContact player.m_ActiveEffects).container : Int) ∧
        (r.replaced = true ↔
          player.mCannotDie = false ∧
          player.mDamage.damage +
            (firedDamage deltaTime
              (ApplyFires player.m_FiresInContact player.m_ActiveEffects).container : Int) ≥
            player.mDamage.max))) := by
  constructor
  · intro enemy graphics timestep input r h
    obtain ⟨ticked, ht, e1, e2, e3⟩ := Enemy.OnStep_result enemy graphics timestep input r h
    obtain ⟨t1, t2, t3⟩ := Enemy.tickEffects_result enemy graphics timestep ticked ht
    refine ⟨by rw [e1, t1], ?_, by rw [e2, t2], ?_⟩
    · rw [e1, t1]
      exact RemoveExpiredEffects_none_expired _
    · intro h0
      have hdmg := t3 h0
      refine ⟨by rw [e2, hdmg], ?_⟩
      rw [e3, HasExceededLimit, decide_eq_true_eq, hdmg, t2]
  · intro player graphics deltaTime position angle r h
    obtain ⟨ticked, ht, e1, e2, e3⟩ :=
      Player.OnStep_outcome player graphics deltaTime position angle r h
    obtain ⟨t1, t2, t4, t3⟩ := Player.tickEffects_outcome player graphics deltaTime ticked ht
    refine ⟨by rw [e1, t1], ?_, by rw [e2, t2], ?_⟩
    · rw [e1, t1]
      exact RemoveExpiredEffects_none_expired _
    · intro h0
      have hdmg := t3 h0
      refine ⟨by rw [e2, hdmg], ?_⟩
      rw [e3, Bool.and_eq_true, beq_iff_eq, HasExceededLimit, decide_eq_true_eq, hdmg, t2, t4]

theorem C23_driver_order_witness :
    ∃ r, Enemy.OnStep sampleBurningEnemy { color := Color.rgb 9 9 9 } (1 / 60)
        sampleStepInput = some r ∧
      (∀ e ∈ r.enemy.m_ActiveEffects.container, ¬ e.remainingDuration ≤ 0) ∧
      r.enemy.m_Damage.damage = sampleBurningEnemy.m_Damage.damage +
        (firedDamage (1 / 60) (ApplyFires sampleBurningEnemy.m_FiresInContact
          sampleBurningEnemy.m_ActiveEffects).container : Int) ∧
      ∃ p, Player.OnStep { sampleUndyingPlayer with mCannotDie := false }
          { color := Color.rgb 9 9 9 } (1 / 60) ⟨0, 0⟩ 0 = some p ∧
        (p.replaced = true ↔
          ({ sampleUndyingPlayer with mCannotDie := false } : Player).mCannotDie = false ∧
          ({ sampleUndyingPlayer with mCannotDie := false } : Player).mDamage.damage +
            (firedDamage (1 / 60)
              (ApplyFires ({ sampleUndyingPlayer with mCannotDie := false } : Player).m_FiresInContact
                ({ sampleUndyingPlayer with mCannotDie := false } : Player).m_ActiveEffects).container
              : Int) ≥
            ({ sampleUndyingPlayer with mCannotDie := false } : Player).mDamage.max) := by
  have he : ∃ r, Enemy.OnStep sampleBurningEnemy { color := Color.rgb 9 9 9 } (1 / 60)
      sampleStepInput = some r := by
    have hu : (UpdateEffect ⟨.Burning, 10, 0⟩ 60⁻¹).1 = true :=
      UpdateEffect_first_tick _ _ rfl (by norm_num)
    have ht : (UpdateEffect ⟨.Burning, 10, 0⟩ 60⁻¹).2.type = ActiveEffectType.Burning := rfl
    simp [sampleBurningEnemy, Enemy.OnStep, Enemy.tickEffects, ApplyFires, Enemy.new,
      updateEffects, hu, ht, ApplyEffect, ApplyEffect_compiled, ApplyEffect_RenderComponent,
      ApplyEffect_RenderComponent_compiled, Option.isSome_iff_exists.symm]
    split_ifs <;> simp
  have hp : ∃ p, Player.OnStep { sampleUndyingPlayer with mCannotDie := false }
      { color := Color.rgb 9 9 9 } (1 / 60) ⟨0, 0⟩ 0 = some p := ⟨_, rfl⟩
  obtain ⟨r, hr⟩ := he
  obtain ⟨p, hp'⟩ := hp
  have h1 := C23_driver_order.1 _ _ _ _ r hr
  have h2 := C23_driver_order.2 _ _ _ _ _ p hp'
  exact ⟨r, hr, h1.2.1, (h1.2.2.2 (by decide)).1, p, hp', (h2.2.2.2 (by decide)).2⟩

/-! ## Elemental effects exclude each other -/

theorem mem_types_add (t u : ActiveEffectType) (d : ℚ) (s : ActiveEffectSet) :
    u ∈ types (AddOrResetDuration t d s) ↔ u = t ∨ u ∈ types s := by
  rw [types_AddOrResetDuration]
  split_ifs with h
  · constructor
    · exact fun hu => Or.inr hu
    · rintro (rfl | hu)
      · exact h
      · exact hu
  · simp only [List.mem_append, List.mem_singleton]
    tauto

theorem mem_types_remove (t u : ActiveEffectType) (s : ActiveEffectSet) :
    u ∈ types (RemoveActiveEffect t s).2 ↔ u ∈ types s ∧ u ≠ t := by
  rw [types_RemoveActiveEffect]
  simp [List.mem_filter]

theorem removed_iff_mem_types (t : ActiveEffectType) (s : ActiveEffectSet) :
    (RemoveActiveEffect t s).1 = true ↔ t ∈ types s := by
  rw [RemoveActiveEffect_removed]
  simp [types]

theorem ElementsExclusive_AddActiveEffect (t : ActiveEffectType) (s : ActiveEffectSet)
    (h : s.ElementsExclusive) : (AddActiveEffect t s).ElementsExclusive := by
  unfold ActiveEffectSet.ElementsExclusive at h ⊢
  cases t with
  | None => exact h
  | Chilled => exact h
  | Poisoned =>
    simp only [AddActiveEffect, mem_types_add]
    simpa using h
  | Burning =>
    simp only [AddActiveEffect]
    by_cases h1 : (RemoveActiveEffect .Frozen s).1 = true
    · have hF := (removed_iff_mem_types _ _).mp h1
      simp only [h1, if_true, mem_types_add, mem_types_remove]
      simp
      tauto
    · have hF : ActiveEffectType.Frozen ∉ types s := fun hm =>
        h1 ((removed_iff_mem_types _ _).mpr hm)
      simp only [h1, Bool.false_eq_true, if_false]
      by_cases h2 : (RemoveActiveEffect .Chilled (RemoveActiveEffect .Frozen s).2).1 = true
      · simp only [h2, beq_iff_eq, Bool.true_eq_false, if_false, mem_types_remove]
        simp
      · have hC : ActiveEffectType.Chilled ∉ types s := by
          intro hm
          apply h2
          rw [removed_iff_mem_types, mem_types_remove]
          exact ⟨hm, by decide⟩
        have h2' : (RemoveActiveEffect .Chilled (RemoveActiveEffect .Frozen s).2).1 = false := by
          simpa using h2
        simp only [h2', beq_self_eq_true, if_true, mem_types_add, mem_types_remove]
        simp
  | Frozen =>
    simp only [AddActiveEffect]
    by_cases h1 : (RemoveActiveEffect .Burning s).1 = true
    · have hB := (removed_iff_mem_types _ _).mp h1
      simp only [h1, if_true, mem_types_add, mem_types_remove]
      simp
      tauto
    · have hB : ActiveEffectType.Burning ∉ types s := fun hm =>
        h1 ((removed_iff_mem_types _ _).mpr hm)
      simp only [h1, Bool.false_eq_true, if_false, mem_types_add, mem_types_remove]
      simp

theorem types_modify_UpdateEffect (l : List ActiveEffect) (index : Nat) (deltaTime : ℚ) :
    (l.modify (fun effect => (UpdateEffect effect deltaTime).2) index).map
        (fun effect => effect.type) = l.map (fun effect => effect.type) := by
  induction l generalizing index with
  | nil => cases index <;> rfl
  | cons a l ih =>
    cases index with
    | zero => rfl
    | succ k =>
      simp only [List.modify_succ_cons, List.map_cons, ih]

theorem types_RemoveExpiredEffects_sublist (s : ActiveEffectSet) :
    (types (RemoveExpiredEffects s)).Sublist (types s) := by
  simp only [types, RemoveExpiredEffects]
  exact (List.filter_sublist _).map _

theorem Reachable_WellFormed_exclusive (s : ActiveEffectSet) (h : s.Reachable) :
    WellFormed s ∧ s.ElementsExclusive := by
  induction h with
  | empty => exact ⟨WellFormed_empty, by simp [ActiveEffectSet.ElementsExclusive, types]⟩
  | add t s _ ih =>
    exact ⟨WellFormed_AddActiveEffect t s ih.1, ElementsExclusive_AddActiveEffect t s ih.2⟩
  | update index deltaTime s _ ih =>
    have ht : types (ActiveEffectSet.mk (s.container.modify
        (fun effect => (UpdateEffect effect deltaTime).2) index)) = types s :=
      types_modify_UpdateEffect s.container index deltaTime
    unfold WellFormed ActiveEffectSet.ElementsExclusive at *
    rw [ht]
    exact ih
  | purge s _ ih =>
    have hs := types_RemoveExpiredEffects_sublist s
    unfold WellFormed ActiveEffectSet.ElementsExclusive at *
    refine ⟨⟨ih.1.1.sublist hs, fun hm => ih.1.2 (hs.subset hm)⟩, ?_, ?_, ?_⟩
    · exact fun hm => ih.2.1 ⟨hs.subset hm.1, hs.subset hm.2⟩
    · exact fun hm => ih.2.2.1 ⟨hs.subset hm.1, hs.subset hm.2⟩
    · exact fun hm => ih.2.2.2 ⟨hs.subset hm.1, hs.subset hm.2⟩

/-- C24: in every effect set reachable from the empty set by `AddActiveEffect`,
`UpdateEffect` on an entry and `RemoveExpiredEffects`, any two entries with an elemental
type (`Burning`, `Frozen`, `Chilled`) have the same type, and at most one entry has an
elemental type: at most one of the three is present. -/
theorem C24_at_most_one_elemental (effects : ActiveEffectSet) (h : effects.Reachable) :
    (∀ a ∈ effects.container, ∀ b ∈ effects.container,
      a.type.isElemental = true → b.type.isElemental = true → a.type = b.type) ∧
    (effects.container.filter (fun effect => effect.type.isElemental)).length ≤ 1 := by
  obtain ⟨hwf, hex⟩ := Reachable_WellFormed_exclusive effects h
  have hsame : ∀ a ∈ effects.container, ∀ b ∈ effects.container,
      a.type.isElemental = true → b.type.isElemental = true → a.type = b.type := by
    intro a ha b hb hae hbe
    have ma : a.type ∈ types effects := List.mem_map.mpr ⟨a, ha, rfl⟩
    have mb : b.type ∈ types effects := List.mem_map.mpr ⟨b, hb, rfl⟩
    unfold ActiveEffectSet.ElementsExclusive at hex
    cases hta : a.type <;> cases htb : b.type <;>
      simp_all [ActiveEffectType.isElemental]
  refine ⟨hsame, ?_⟩
  have hsub : ((effects.container.filter (fun effect => effect.type.isElemental)).map
      (fun effect => effect.type)).Sublist (types effects) :=
    (List.filter_sublist _).map _
  have hnd := hwf.1.sublist hsub
  match hf : effects.container.filter (fun effect => effect.type.isElemental) with
  | [] => rw [hf]; simp
  | [_] => rw [hf]; simp
  | a :: b :: rest =>
    exfalso
    rw [hf] at hnd
    have hma : a ∈ effects.container.filter (fun effect => effect.type.isElemental) := by
      rw [hf]
      exact List.mem_cons_self _ _
    have hmb : b ∈ effects.container.filter (fun effect => effect.type.isElemental) := by
      rw [hf]
      exact List.mem_cons_of_mem _ (List.mem_cons_self _ _)
    rw [List.mem_filter] at hma hmb
    have heq := hsame a hma.1 b hmb.1 hma.2 hmb.2
    simp only [List.map_cons, List.nodup_cons, List.mem_cons] at hnd
    exact hnd.1 (Or.inl heq)

theorem C24_at_most_one_elemental_witness :
    (AddActiveEffect .Frozen (AddActiveEffect .Poisoned
        (AddActiveEffect .Burning { container := [] }))).Reachable ∧
      ((AddActiveEffect .Frozen (AddActiveEffect .Poisoned
        (AddActiveEffect .Burning { container := [] }))).container.filter
          (fun effect => effect.type.isElemental)).length ≤ 1 := by
  have hr : (AddActiveEffect .Frozen (AddActiveEffect .Poisoned
      (AddActiveEffect .Burning { container := [] }))).Reachable :=
    ActiveEffectSet.Reachable.add _ _ (ActiveEffectSet.Reachable.add _ _
      (ActiveEffectSet.Reachable.add _ _ ActiveEffectSet.Reachable.empty))
  exact ⟨hr, (C24_at_most_one_elemental _ hr).2⟩

/-! ## The first tick -/

/-- C25: an effect that `AddOrResetDuration` has just added for a type the set did not
hold has `runningDuration = 0`; for every effect with `runningDuration = 0` and every
`dt > 0` the `UpdateEffect` call returns true; so in the per-frame loop a `Burning` or
`Poisoned` effect with `runningDuration = 0` adds its point of damage in that very
frame. -/
theorem C25_first_tick_fires (activeEffect : ActiveEffect) (dt : ℚ)
    (h0 : activeEffect.runningDuration = 0) (hdt : dt > 0) :
    (UpdateEffect activeEffect dt).1 = true ∧
    (∀ (type : ActiveEffectType) (duration : ℚ) (effects : ActiveEffectSet),
      (∀ e ∈ effects.container, e.type ≠ type) →
      ∀ e ∈ (AddOrResetDuration type duration effects).container,
        e.type = type → e.runningDuration = 0) ∧
    (activeEffect.type = ActiveEffectType.Burning ∨
        activeEffect.type = ActiveEffectType.Poisoned →
      ∀ (damage : DamageCount) (graphics : RenderComponent),
        (updateEffects dt [activeEffect] damage graphics).map (fun r => r.2.1) =
          some (AddDamage damage 1)) := by
  have hflag : (UpdateEffect activeEffect dt).1 = true :=
    UpdateEffect_first_tick activeEffect dt h0 hdt
  refine ⟨hflag, ?_, ?_⟩
  · intro type duration effects habs e he het
    rw [AddOrResetDuration_absent type duration effects habs] at he
    rcases List.mem_append.mp he with h1 | h1
    · exact absurd het (habs e h1)
    · rw [List.mem_singleton] at h1
      rw [h1]
  · intro hty damage graphics
    have hty' : (UpdateEffect activeEffect dt).2.type = activeEffect.type := rfl
    rcases hty with hty | hty
    · simp [updateEffects, hflag, ApplyEffect, ApplyEffect_compiled, cassert, ApplyEffect_RenderComponent, ApplyEffect_RenderComponent_compiled, hty', hty]
    · simp [updateEffects, hflag, ApplyEffect, ApplyEffect_compiled, cassert, ApplyEffect_RenderComponent, ApplyEffect_RenderComponent_compiled, hty', hty]

theorem C25_first_tick_fires_witness :
    (UpdateEffect ⟨.Poisoned, 10, 0⟩ (1 / 60)).1 = true ∧
      (∀ e ∈ (AddOrResetDuration .Poisoned 10 { container := [⟨.Burning, 3, 7⟩] }).container,
        e.type = ActiveEffectType.Poisoned → e.runningDuration = 0) ∧
      (updateEffects (1 / 60) [⟨.Poisoned, 10, 0⟩] ⟨3, 10⟩ ⟨Color.rgb 9 9 9⟩).map
          (fun r => r.2.1) = some (AddDamage ⟨3, 10⟩ 1) := by
  have h := C25_first_tick_fires ⟨.Poisoned, 10, 0⟩ (1 / 60) rfl (by norm_num)
  refine ⟨h.1, h.2.1 .Poisoned 10 { container := [⟨.Burning, 3, 7⟩] } ?_, h.2.2 (Or.inr rfl) _ _⟩
  intro e he
  simp only [List.mem_singleton] at he
  rw [he]
  decide

/-! ## Loading a quiver -/

/-- C26 (the failing input): reading an array of four equipped-slot documents into a
quiver of capacity three converts the fourth element and writes it to
`quarrelSlots[3]`, past the end of the slot array: the loop has no bound on
`slotIndex`. A document that is not an array leaves the quiver as it is. -/
theorem C26_from_json_writes_past_capacity :
    from_json_PlayerQuiver sampleConversions
        (.array (List.replicate 4 (slotJson sampleConversions (some ⟨fireType, 1 / 2, 0⟩))))
        (PlayerQuiver.default 3) = .outOfRange ∧
    (PlayerQuiver.default 3).MaxEquippedQuarrelTypes = 3 ∧
    from_json_PlayerQuiver sampleConversions (.string "quiver") (PlayerQuiver.default 3) =
      .ok (PlayerQuiver.default 3) := by
  refine ⟨?_, rfl, rfl⟩
  rfl

/-! ## The time lerper -/

theorem F32.round_of_form (q : ℚ) (n k : ℤ) (hn : |n| < 2 ^ 24) (hk : -149 ≤ k)
    (h : q = (n : ℚ) * 2 ^ k) : F32.round q = q := by
  rw [h]
  exact F32.round_exact n k hn hk

theorem F32.round_milli_pos : 0 < F32.round (1 / 1000) := by
  have h1 : F32.round (1 / 1024) = 1 / 1024 :=
    F32.round_of_form _ 1 (-10) (by norm_num) (by norm_num) (by norm_num)
  have h2 := F32.round_mono (show (1 / 1024 : ℚ) ≤ 1 / 1000 by norm_num)
  rw [h1] at h2
  exact lt_of_lt_of_le (by norm_num) h2

theorem F32.round_milli_le_eighth : F32.round (1 / 1000) ≤ 1 / 8 := by
  have h1 : F32.round (1 / 8) = 1 / 8 :=
    F32.round_of_form _ 1 (-3) (by norm_num) (by norm_num) (by norm_num)
  have h2 := F32.round_mono (show (1 / 1000 : ℚ) ≤ 1 / 8 by norm_num)
  rw [h1] at h2
  exact h2

theorem TimeLerper.Update_running (lerper : TimeLerper) (seconds : ℚ) (h : lerper.t < 1) :
    lerper.Update seconds NoEase =
      (Lerp lerper.startVal lerper.targetVal
          (F32.add lerper.t (F32.div seconds lerper.secondsToReachTarget)),
        { lerper with t := F32.add lerper.t (F32.div seconds lerper.secondsToReachTarget) }) := by
  simp [TimeLerper.Update, h, NoEase, Lerp]

theorem TimeLerper.Update_done (lerper : TimeLerper) (seconds : ℚ) (h : 1 ≤ lerper.t) :
    lerper.Update seconds NoEase = (lerper.targetVal, lerper) := by
  simp [TimeLerper.Update, not_lt.mpr h]

theorem lerperCalls_mem (lerper : TimeLerper) (steps : List ℚ)
    (hsteps : ∀ seconds ∈ steps, 0 ≤ seconds) (hpos : 0 < lerper.secondsToReachTarget)
    (ht : 0 ≤ lerper.t ∧ F32.round24 lerper.t = lerper.t)
    (c : TimeLerper × ℚ × TimeLerper) (hc : c ∈ lerperCalls lerper steps) :
    c.1.startVal = lerper.startVal ∧ c.1.targetVal = lerper.targetVal ∧
    c.1.secondsToReachTarget = lerper.secondsToReachTarget ∧
    (0 ≤ c.1.t ∧ F32.round24 c.1.t = c.1.t) ∧
    ∃ seconds ∈ steps, c.2.1 = (c.1.Update seconds NoEase).1 ∧
      c.2.2 = (c.1.Update seconds NoEase).2 := by
  induction steps generalizing lerper with
  | nil => simp [lerperCalls] at hc
  | cons sec rest ih =>
    rw [lerperCalls, List.mem_cons] at hc
    rcases hc with rfl | hc
    · exact ⟨rfl, rfl, rfl, ht, sec, List.mem_cons_self _ _, rfl, rfl⟩
    · have hsec := hsteps sec (List.mem_cons_self _ _)
      have hnext : (lerper.Update sec NoEase).2.startVal = lerper.startVal ∧
          (lerper.Update sec NoEase).2.targetVal = lerper.targetVal ∧
          (lerper.Update sec NoEase).2.secondsToReachTarget = lerper.secondsToReachTarget ∧
          (0 ≤ (lerper.Update sec NoEase).2.t ∧
            F32.round24 (lerper.Update sec NoEase).2.t = (lerper.Update sec NoEase).2.t) := by
        by_cases hlt : lerper.t < 1
        · rw [TimeLerper.Update_running lerper sec hlt]
          refine ⟨rfl, rfl, rfl, ?_, F32.round24_idem _⟩
          have hq : 0 ≤ F32.div sec lerper.secondsToReachTarget :=
            F32.round_nonneg (div_nonneg hsec (le_of_lt hpos))
          exact F32.round24_nonneg (add_nonneg ht.1 hq)
        · rw [TimeLerper.Update_done lerper sec (not_lt.mp hlt)]
          exact ⟨rfl, rfl, rfl, ht⟩
      obtain ⟨i1, i2, i3, i4, seconds, hm, i5⟩ :=
        ih (lerper.Update sec NoEase).2
          (fun x hx => hsteps x (List.mem_cons_of_mem _ hx))
          (by rw [hnext.2.2.1]; exact hpos) hnext.2.2.2 hc
      exact ⟨i1.trans hnext.1, i2.trans hnext.2.1, i3.trans hnext.2.2.1, i4,
        seconds, List.mem_cons_of_mem _ hm, i5⟩

/-- The value `Lerp a b 1` at the end of the interpolation: the difference is rounded,
then the sum. -/
theorem Lerp_one (a b : ℚ) (ha : F32.round a = a) (hb : F32.round b = b) :
    Lerp a b 1 = F32.round24 (a + F32.sub b a) := by
  unfold Lerp F32.add F32.mul
  rw [one_mul, F32.sub_eq_round hb ha, F32.round_idem]

/-- Between the two ends of the interpolation: for binary32 `a`, `b` and `0 <= t <= 1`
the value `Lerp a b t` lies between `a` and `Lerp a b 1`. -/
theorem Lerp_between (a b t : ℚ) (ha : F32.round a = a) (hb : F32.round b = b)
    (h0 : 0 ≤ t) (h1 : t ≤ 1) :
    (Min.min a (Lerp a b 1) ≤ Lerp a b t ∧ Lerp a b t ≤ Max.max a (Lerp a b 1)) ∧
    |F32.mul t (F32.sub b a)| ≤ |F32.sub b a| := by
  have hd : F32.round (F32.sub b a) = F32.sub b a := by
    rw [F32.sub_eq_round hb ha, F32.round_idem]
  have ha24 : F32.round24 a = a := F32.round24_of_fixed ha
  rw [Lerp_one a b ha hb]
  unfold Lerp F32.add F32.mul
  rcases le_total 0 (F32.sub b a) with hpos | hneg
  · have p0 : 0 ≤ F32.round (t * F32.sub b a) := F32.round_nonneg (mul_nonneg h0 hpos)
    have p1 : F32.round (t * F32.sub b a) ≤ F32.sub b a := by
      have := F32.round_mono (show t * F32.sub b a ≤ F32.sub b a by nlinarith)
      rw [hd] at this
      exact this
    have v0 : a ≤ F32.round24 (a + F32.round (t * F32.sub b a)) := by
      have := F32.round24_mono (show a ≤ a + F32.round (t * F32.sub b a) by linarith)
      rw [ha24] at this
      exact this
    have v1 : F32.round24 (a + F32.round (t * F32.sub b a)) ≤ F32.round24 (a + F32.sub b a) :=
      F32.round24_mono (by linarith)
    refine ⟨⟨le_trans (min_le_left _ _) v0, le_trans v1 (le_max_right _ _)⟩, ?_⟩
    rw [abs_of_nonneg p0, abs_of_nonneg hpos]
    exact p1
  · have p0 : F32.round (t * F32.sub b a) ≤ 0 := by
      have := F32.round_mono (show t * F32.sub b a ≤ 0 by nlinarith)
      rw [F32.round_zero] at this
      exact this
    have p1 : F32.sub b a ≤ F32.round (t * F32.sub b a) := by
      have := F32.round_mono (show F32.sub b a ≤ t * F32.sub b a by nlinarith)
      rw [hd] at this
      exact this
    have v0 : F32.round24 (a + F32.round (t * F32.sub b a)) ≤ a := by
      have := F32.round24_mono (show a + F32.round (t * F32.sub b a) ≤ a by linarith)
      rw [ha24] at this
      exact this
    have v1 : F32.round24 (a + F32.sub b a) ≤ F32.round24 (a + F32.round (t * F32.sub b a)) :=
      F32.round24_mono (by linarith)
    refine ⟨⟨le_trans (min_le_right _ _) v1, le_trans v0 (le_max_left _ _)⟩, ?_⟩
    rw [abs_of_nonpos p0, abs_of_nonpos hneg]
    linarith

/-- The value `Lerp a b t` is a binary32 value: every intermediate result is. -/
theorem Lerp_fixed (a b t : ℚ) (ha : F32.round a = a) :
    F32.round (Lerp a b t) = Lerp a b t := by
  unfold Lerp F32.mul
  rw [F32.add_eq_round ha (F32.round_idem _), F32.round_idem]

/-- C27 (as stated, refuted): a lerper set from 1 to 2 over an eighth of a second and
updated once with a step of a quarter of a second returns 3, beyond the target 2: the
parameter `t` jumps to 2 and is not clamped before the interpolation. And a lerper set
from `0.5` to `0.1f` over half a second and updated once with half a second, which
takes `t` to exactly 1, returns the binary32 value next below `0.1f`, outside the range
from `a` to `b`: the difference `b - a` is rounded before it is added back. All the
arguments are binary32 values. -/
theorem C27_update_overshoots :
    (((TimeLerper.SetTarget 1 2 (1 / 8)).Update (1 / 4) NoEase).1 = 3 ∧
      ¬ ((TimeLerper.SetTarget 1 2 (1 / 8)).Update (1 / 4) NoEase).1 ≤ Max.max 1 2) ∧
    (F32.IsF32 (1 / 2) ∧ F32.IsF32 (13421773 / 2 ^ 27) ∧
      F32.round (1 / 10) = 13421773 / 2 ^ 27 ∧
      ((TimeLerper.SetTarget (1 / 2) (13421773 / 2 ^ 27) (1 / 2)).Update (1 / 2) NoEase).2.t = 1 ∧
      ((TimeLerper.SetTarget (1 / 2) (13421773 / 2 ^ 27) (1 / 2)).Update (1 / 2) NoEase).1 =
        3355443 / 2 ^ 25 ∧
      ¬ Min.min (1 / 2 : ℚ) (13421773 / 2 ^ 27) ≤
        ((TimeLerper.SetTarget (1 / 2) (13421773 / 2 ^ 27) (1 / 2)).Update (1 / 2) NoEase).1) := by
  have r1 : F32.round 1 = 1 :=
    F32.round_of_form _ 1 0 (by norm_num) (by norm_num) (by norm_num)
  have r2 : F32.round 2 = 2 :=
    F32.round_of_form _ 1 1 (by norm_num) (by norm_num) (by norm_num)
  have rh : F32.round (1 / 2) = 1 / 2 :=
    F32.round_of_form _ 1 (-1) (by norm_num) (by norm_num) (by norm_num)
  have hmax : Max.max (1 / 8 : ℚ) (F32.round (1 / 1000)) = 1 / 8 :=
    max_eq_left F32.round_milli_le_eighth
  have hmax2 : Max.max (1 / 2 : ℚ) (F32.round (1 / 1000)) = 1 / 2 :=
    max_eq_left (le_trans F32.round_milli_le_eighth (by norm_num))
  constructor
  · have h : ((TimeLerper.SetTarget 1 2 (1 / 8)).Update (1 / 4) NoEase).1 = 3 := by
      rw [TimeLerper.Update_running _ _ (by simp [TimeLerper.SetTarget])]
      simp only [TimeLerper.SetTarget, hmax, Lerp, F32.div]
      have e0 : (1 / 4 : ℚ) / (1 / 8) = 2 := by norm_num
      have e1 : F32.add 0 2 = 2 := by
        rw [F32.add_exact 0 2 1 1 (by norm_num) (by norm_num)]
        norm_num
      have e2 : F32.sub 2 1 = 1 := by
        rw [F32.sub_exact 2 1 1 0 (by norm_num) (by norm_num)]
        norm_num
      have e3 : F32.mul 2 1 = 2 := by
        unfold F32.mul
        rw [mul_one, r2]
      have e4 : F32.add 1 2 = 3 := by
        rw [F32.add_exact 1 2 3 0 (by norm_num) (by norm_num)]
        norm_num
      rw [e0, r2, e1, e2, e3, e4]
    refine ⟨h, ?_⟩
    rw [h]
    norm_num
  · have fb : F32.round (13421773 / 2 ^ 27) = 13421773 / 2 ^ 27 :=
      F32.round_of_form _ 13421773 (-27) (by norm_num) (by norm_num) (by norm_num)
    have ftenth : F32.round (1 / 10) = 13421773 / 2 ^ 27 := by
      have hz : F32.roundHalfEven ((1 / 10 : ℚ) / 2 ^ ((-4 : ℤ) - 23)) = 13421773 := by
        apply F32.roundHalfEven_eq_of_lt
        norm_num [abs_lt]
      rw [F32.round_eval (1 / 10) (-4) 13421773
        (by rw [abs_of_pos (by norm_num)]; norm_num)
        (by rw [abs_of_pos (by norm_num)]; norm_num) (by norm_num) hz]
      norm_num
    have hd : F32.sub (13421773 / 2 ^ 27) (1 / 2) = -13421773 / 2 ^ 25 := by
      have hz : F32.roundHalfEven ((13421773 / 2 ^ 27 - 1 / 2 : ℚ) / 2 ^ ((-2 : ℤ) - 23)) =
          -13421773 := by
        apply F32.roundHalfEven_eq_of_lt
        norm_num [abs_lt]
      unfold F32.sub
      rw [F32.round24_eval (13421773 / 2 ^ 27 - 1 / 2) (-2) (-13421773)
        (by rw [abs_of_neg (by norm_num)]; norm_num)
        (by rw [abs_of_neg (by norm_num)]; norm_num) hz]
      norm_num
    have ht : F32.add 0 (F32.div (1 / 2) (1 / 2)) = 1 := by
      unfold F32.div
      rw [div_self (by norm_num), r1, F32.add_exact 0 1 1 0 (by norm_num) (by norm_num)]
      norm_num
    have hm : F32.mul 1 (-13421773 / 2 ^ 25) = -13421773 / 2 ^ 25 := by
      unfold F32.mul
      rw [one_mul]
      exact F32.round_of_form _ (-13421773) (-25) (by norm_num) (by norm_num) (by norm_num)
    have hv : F32.add (1 / 2) (-13421773 / 2 ^ 25) = 3355443 / 2 ^ 25 := by
      rw [F32.add_exact (1 / 2) (-13421773 / 2 ^ 25) 3355443 (-25) (by norm_num) (by norm_num)]
      norm_num
    have hstep : (TimeLerper.SetTarget (1 / 2) (13421773 / 2 ^ 27) (1 / 2)).Update (1 / 2) NoEase =
        (3355443 / 2 ^ 25,
          { TimeLerper.SetTarget (1 / 2) (13421773 / 2 ^ 27) (1 / 2) with t := 1 }) := by
      rw [TimeLerper.Update_running _ _ (by simp [TimeLerper.SetTarget])]
      simp only [TimeLerper.SetTarget, hmax2, Lerp, ht, hd, hm, hv]
    refine ⟨⟨rh, by norm_num [abs_lt]⟩, ⟨fb, by norm_num [abs_lt]⟩, ftenth, ?_, ?_, ?_⟩
    · rw [hstep]
    · rw [hstep]
    · rw [hstep]
      norm_num

/-- C27 (amended): for a lerper set with binary32 start `a` and target `b` whose
difference and interpolation end value `Lerp a b 1` do not overflow, and with any
duration `s`, and every sequence of `Update` calls with non-negative time steps and the
default easing: a call made once `t` has reached 1 returns exactly `b` and leaves the
lerper as it is; `t` is never negative and never decreases; a call made before `t` has
reached 1 that leaves `t` at most 1 returns `Lerp a b t` for the new `t`, a finite
binary32 value between `a` and `Lerp a b 1` inclusive, every intermediate result being
finite as well; and `Lerp a b 1` is `b` when `b - a` is a binary32 value. -/
theorem C27_lerper_values (a b s : ℚ) (steps : List ℚ)
    (ha : F32.IsF32 a) (hb : F32.IsF32 b)
    (hd : |F32.sub b a| < 2 ^ 128) (he : |Lerp a b 1| < 2 ^ 128)
    (hsteps : ∀ seconds ∈ steps, 0 ≤ seconds) :
    (∀ c ∈ lerperCalls (TimeLerper.SetTarget a b s) steps,
      (1 ≤ c.1.t → c.2.1 = b ∧ c.2.2 = c.1) ∧
      0 ≤ c.1.t ∧ c.1.t ≤ c.2.2.t ∧
      (c.1.t < 1 → c.2.2.t ≤ 1 →
        c.2.1 = Lerp a b c.2.2.t ∧
        (Min.min a (Lerp a b 1) ≤ c.2.1 ∧ c.2.1 ≤ Max.max a (Lerp a b 1)) ∧
        F32.IsF32 c.2.1 ∧ |F32.mul c.2.2.t (F32.sub b a)| < 2 ^ 128)) ∧
    (F32.IsF32 (b - a) → Lerp a b 1 = b) := by
  constructor
  · intro c hc
    have hpos : 0 < (TimeLerper.SetTarget a b s).secondsToReachTarget := by
      simp only [TimeLerper.SetTarget]
      exact lt_of_lt_of_le F32.round_milli_pos (le_max_right _ _)
    obtain ⟨m1, m2, m3, m4, seconds, hm, m5, m6⟩ :=
      lerperCalls_mem (TimeLerper.SetTarget a b s) steps hsteps hpos
        ⟨le_refl _, F32.round24_zero⟩ c hc
    have hs : c.1.startVal = a := m1
    have ht : c.1.targetVal = b := m2
    have hsec := hsteps seconds hm
    have hq : 0 ≤ F32.div seconds c.1.secondsToReachTarget := by
      rw [m3]
      exact F32.round_nonneg (div_nonneg hsec (le_of_lt hpos))
    by_cases hlt : c.1.t < 1
    · rw [TimeLerper.Update_running c.1 seconds hlt] at m5 m6
      simp only at m5
      have ht' : c.2.2.t = F32.add c.1.t (F32.div seconds c.1.secondsToReachTarget) := by
        rw [m6]
      have hmono : c.1.t ≤ c.2.2.t := by
        rw [ht']
        have := F32.round24_mono
          (show c.1.t ≤ c.1.t + F32.div seconds c.1.secondsToReachTarget by linarith)
        rw [m4.2] at this
        exact this
      have hv : c.2.1 = Lerp a b c.2.2.t := by rw [m5, ht', hs, ht]
      refine ⟨fun h1 => absurd hlt (not_lt.mpr h1), m4.1, hmono, ?_⟩
      intro _ hle
      have hbt := Lerp_between a b c.2.2.t ha.1 hb.1 (le_trans m4.1 hmono) hle
      refine ⟨hv, by rw [hv]; exact hbt.1, ⟨by rw [hv]; exact Lerp_fixed a b _ ha.1, ?_⟩,
        lt_of_le_of_lt hbt.2 hd⟩
      rw [hv, abs_lt]
      have ha2 := abs_lt.mp ha.2
      have he2 := abs_lt.mp he
      constructor
      · exact lt_of_lt_of_le (lt_min ha2.1 he2.1) hbt.1.1
      · exact lt_of_le_of_lt hbt.1.2 (max_lt ha2.2 he2.2)
    · have hge : 1 ≤ c.1.t := not_lt.mp hlt
      rw [TimeLerper.Update_done c.1 seconds hge] at m5 m6
      simp only at m5 m6
      have hv : c.2.1 = b := by rw [m5, ht]
      exact ⟨fun _ => ⟨hv, m6⟩, m4.1, by rw [m6], fun h1 => absurd h1 hlt⟩
  · intro hba
    rw [Lerp_one a b ha.1 hb.1]
    have h1 : F32.sub b a = b - a := F32.round24_of_fixed hba.1
    rw [h1]
    have h2 : a + (b - a) = b := by ring
    rw [h2]
    exact F32.round24_of_fixed hb.1

theorem C27_lerper_values_witness :
    (F32.IsF32 1 ∧ F32.IsF32 2 ∧ |F32.sub 2 1| < 2 ^ 128 ∧ |Lerp 1 2 1| < 2 ^ 128 ∧
      ∀ seconds ∈ [(1 / 32 : ℚ), 1 / 32, 1 / 16, 1 / 4], 0 ≤ seconds) ∧
    (∀ c ∈ lerperCalls (TimeLerper.SetTarget 1 2 (1 / 8)) [1 / 32, 1 / 32, 1 / 16, 1 / 4],
      (1 ≤ c.1.t → c.2.1 = 2 ∧ c.2.2 = c.1) ∧
      (c.1.t < 1 → c.2.2.t ≤ 1 →
        (Min.min 1 (Lerp 1 2 1) ≤ c.2.1 ∧ c.2.1 ≤ Max.max 1 (Lerp 1 2 1)))) ∧
    Lerp 1 2 1 = 2 := by
  have f1 : F32.IsF32 1 := by
    have := F32.isF32_of_form 1 0 (by norm_num) (by norm_num) (by norm_num)
    norm_num at this ⊢
    exact this
  have f2 : F32.IsF32 2 := by
    have := F32.isF32_of_form 1 1 (by norm_num) (by norm_num) (by norm_num)
    norm_num at this ⊢
    exact this
  have e2 : F32.sub 2 1 = 1 := by
    rw [F32.sub_exact 2 1 1 0 (by norm_num) (by norm_num)]
    norm_num
  have e3 : Lerp 1 2 1 = 2 := by
    unfold Lerp F32.mul
    rw [e2, one_mul, f1.1, F32.add_exact 1 1 1 1 (by norm_num) (by norm_num)]
    norm_num
  have hd : |F32.sub 2 1| < 2 ^ 128 := by
    rw [e2]
    norm_num
  have he : |Lerp 1 2 1| < 2 ^ 128 := by
    rw [e3]
    norm_num [abs_lt]
  have hsteps : ∀ seconds ∈ [(1 / 32 : ℚ), 1 / 32, 1 / 16, 1 / 4], 0 ≤ seconds := by
    intro seconds hm
    simp only [List.mem_cons, List.mem_singleton, List.not_mem_nil, or_false] at hm
    rcases hm with rfl | rfl | rfl | rfl <;> norm_num
  have h := C27_lerper_values 1 2 (1 / 8) _ f1 f2 hd he hsteps
  refine ⟨⟨f1, f2, hd, he, hsteps⟩, ?_, h.2 ?_⟩
  · intro c hc
    have hc' := h.1 c hc
    exact ⟨hc'.1, fun h1 h2 => (hc'.2.2.2 h1 h2).2.1⟩
  · have : (2 : ℚ) - 1 = 1 := by norm_num
    rw [this]
    exact f1


end Quarrel
